import Mathlib

/-!
Takadao banking: ledger, balances and authentication middleware

A shallow embedding of `internal/models`, `internal/repository/transaction_repository.go`,
`internal/service/transaction_service.go` and `internal/middleware/auth_middleware.go`.

The ledger code is embedded twice.  The namespace `Banking` itself reads amounts as
exact decimals and is used for the statements on control flow, errors, comparisons and
listing order at amounts where `float64` and exact decimals agree.  The namespace
`Banking.Machine` reads the same sources on Go's own number types and on gorm's `Save`
by primary key; every statement on the value of a sum or a difference, on the balance
rows `Save` writes and on page offsets is made there.

Modelling conventions

* `uuid.UUID` is a natural number, `uuid.Nil` is `0`.
* `time.Time` is an integer instant; the zero `time.Time` is `0`.
* In `Banking`, amounts are integers counting hundredths of a currency unit (`100.00`
  is `10000`), `db.Save` writes the row of its `(UserID, Currency)` pair, and Go `int`
  values are integers without 64-bit overflow.
* In `Banking.Machine`, amounts are `float64` values (`F64`: NaN, the infinities, and
  finite values rounded to nearest, ties to even, after each `+` and `-`); a balance row
  carries its primary key `ID`, `db.Save` inserts a row whose `ID` is `uuid.Nil` under a
  new identifier and otherwise updates the row with that `ID`; the table keeps the
  `float64` that was saved, the rounding of the `decimal(20,2)` column to two places
  being left out; a `SUM` adds finite terms exactly and is rounded once, when it is
  scanned into a `float64`; Go `int` is 64 bits wide and wraps; and the order in which
  a query returns rows with equal `created_at` is a parameter of each query.
* The database is a pair of tables, each a list of rows in insertion order.  Storage
  is ideal: a statement never fails for a reason other than `ErrRecordNotFound`.
  `deleted_at` is never written by any code path and is left out; every row is live.
* `gorm.DB.Transaction` runs its closure on the current tables and commits the result
  when the closure returns `nil`, and keeps the tables it started from otherwise.
* `ORDER BY created_at DESC` leaves the order of rows with equal `created_at` to the
  database; in `Banking` such rows keep their storage order.
* The authentication middleware runs on a model of gin's `Context` and of the JWT
  library (`JWT`): the library's signing, decoding and verification are parameters,
  `jwt.Parse` and gin's `Next`, `Abort`, `Set`, `Get` and `JSON` follow the libraries'
  control flow.  What the library must do for its own tokens is collected in
  `JWT.Lawful`.  Claim values are strings, and strings are sequences of Unicode
  characters.
* The values that one call draws from its surroundings (the clock reading gorm puts
  into `CreatedAt`/`UpdatedAt`, the identifier `uuid.New()` hands to `BeforeCreate`)
  are collected in `Env`.
-/

namespace Banking

abbrev UUID := Nat

/-- The value `uuid.Nil`. -/
def uuidNil : UUID := 0

abbrev Time := Int

/-- The zero `time.Time`, which gorm replaces by the current time on insert. -/
def zeroTime : Time := 0

/-- Error values returned by the models, the service and gorm. -/
inductive Error where
  | ErrInvalidAmount
  | ErrMissingRecipient
  | ErrInsufficientFunds
  | ErrRecordNotFound
  | New (msg : String)
  deriving DecidableEq, Repr

abbrev TransactionType := String

def TransactionTypeDeposit : TransactionType := "deposit"
def TransactionTypeWithdraw : TransactionType := "withdraw"
def TransactionTypeTransfer : TransactionType := "transfer"

/-- The persisted fields of `models.Transaction` (the preloaded relationships
`User` and `Recipient` are not columns). -/
structure Transaction where
  ID : UUID
  UserID : UUID
  Type_ : TransactionType
  Amount : Int
  Currency : String
  RecipientID : Option UUID
  Description : String
  Status : String
  CreatedAt : Time
  UpdatedAt : Time
  deriving DecidableEq, Repr

/-- The fields of `models.Balance` that the ledger code reads or writes.  The row's own
primary key and timestamps are never inspected; a row is identified by its position
in the table. -/
structure Balance where
  UserID : UUID
  Currency : String
  Amount : Int
  deriving DecidableEq, Repr

/-- Method `Transaction.Validate`; the result `nil` is `none`. -/
def Transaction.Validate (t : Transaction) : Option Error :=
  if t.Amount ≤ 0 then some Error.ErrInvalidAmount
  else if t.Type_ = TransactionTypeTransfer ∧ t.RecipientID = none then
    some Error.ErrMissingRecipient
  else none

/-- Method `Balance.Add`: the receiver after the call. -/
def Balance.Add (b : Balance) (amount : Int) : Balance :=
  { b with Amount := b.Amount + amount }

/-- Method `Balance.Subtract`: the receiver after the call and the returned error. -/
def Balance.Subtract (b : Balance) (amount : Int) : Balance × Option Error :=
  if b.Amount < amount then (b, some Error.ErrInsufficientFunds)
  else ({ b with Amount := b.Amount - amount }, none)

/-- The two tables the ledger code touches. -/
structure Db where
  transactions : List Transaction
  balances : List Balance
  deriving DecidableEq, Repr

/-- A database with no rows. -/
def Db.empty : Db := ⟨[], []⟩

/-- What one call reads from outside the database. -/
structure Env where
  now : Time
  newID : UUID
  deriving DecidableEq, Repr

/-- The row gorm inserts for `db.Create(tx)`: `BeforeCreate` fills a nil `ID`, gorm fills
zero timestamps with the current time, and the column default fills an empty
`Status`. -/
def Transaction.inserted (env : Env) (tx : Transaction) : Transaction :=
  { tx with
    ID := if tx.ID = uuidNil then env.newID else tx.ID
    Status := if tx.Status = "" then "completed" else tx.Status
    CreatedAt := if tx.CreatedAt = zeroTime then env.now else tx.CreatedAt
    UpdatedAt := if tx.UpdatedAt = zeroTime then env.now else tx.UpdatedAt }

/-- Statement `db.Create(tx)` on the transactions table. -/
def Db.Create (db : Db) (env : Env) (tx : Transaction) : Db :=
  { db with transactions := db.transactions ++ [tx.inserted env] }

/-- Query `db.Where("user_id = ? AND currency = ?", userID, currency).First(&balance)`:
`none` stands for `gorm.ErrRecordNotFound`. -/
def Db.First (db : Db) (userID : UUID) (currency : String) : Option Balance :=
  db.balances.find? (fun b => decide (b.UserID = userID ∧ b.Currency = currency))

/-- Writing `b` over the first row with its `(UserID, Currency)`, or adding it as a new
row when there is none. -/
def saveRow (b : Balance) : List Balance → List Balance
  | [] => [b]
  | r :: rs =>
    if r.UserID = b.UserID ∧ r.Currency = b.Currency then b :: rs
    else r :: saveRow b rs

/-- Statement `db.Save(&balance)` for a balance that was either just read by `Db.First` (an update
of that row) or built fresh after `ErrRecordNotFound` (an insert). -/
def Db.Save (db : Db) (b : Balance) : Db :=
  { db with balances := saveRow b db.balances }

/-- Method `gorm.DB.Transaction`: commit on `nil`, roll back on error. -/
def Db.Transaction (db : Db) (fc : Db → Except Error Db) : Db × Option Error :=
  match fc db with
  | .ok db' => (db', none)
  | .error err => (db, some err)

/-- The block "Update sender's balance" of `TransactionRepository.Create`. -/
def updateSenderBalance (tx : Transaction) (db : Db) : Except Error Db :=
  if tx.Type_ = TransactionTypeWithdraw ∨ tx.Type_ = TransactionTypeTransfer then
    match db.First tx.UserID tx.Currency with
    | none => .error Error.ErrInsufficientFunds
    | some senderBalance =>
      match senderBalance.Subtract tx.Amount with
      | (_, some err) => .error err
      | (senderBalance, none) => .ok (db.Save senderBalance)
  else .ok db

/-- The block "Update recipient's balance for transfers" of
`TransactionRepository.Create`. -/
def updateRecipientBalance (tx : Transaction) (db : Db) : Except Error Db :=
  match tx.RecipientID with
  | some recipientID =>
    if tx.Type_ = TransactionTypeTransfer then
      let recipientBalance : Balance :=
        match db.First recipientID tx.Currency with
        | some b => b
        | none => { UserID := recipientID, Currency := tx.Currency, Amount := 0 }
      .ok (db.Save (recipientBalance.Add tx.Amount))
    else .ok db
  | none => .ok db

/-- The block "Update balance for deposits" of `TransactionRepository.Create`. -/
def updateDepositBalance (tx : Transaction) (db : Db) : Except Error Db :=
  if tx.Type_ = TransactionTypeDeposit then
    let balance : Balance :=
      match db.First tx.UserID tx.Currency with
      | some b => b
      | none => { UserID := tx.UserID, Currency := tx.Currency, Amount := 0 }
    .ok (db.Save (balance.Add tx.Amount))
  else .ok db

/-- The closure `TransactionRepository.Create` hands to `gorm.DB.Transaction`. -/
def createBody (env : Env) (tx : Transaction) (db : Db) : Except Error Db :=
  let db := db.Create env tx
  let tx := tx.inserted env
  (updateSenderBalance tx db).bind fun db =>
    (updateRecipientBalance tx db).bind fun db =>
      updateDepositBalance tx db

/-- Method `TransactionRepository.Create`. -/
def TransactionRepository.Create (env : Env) (db : Db) (tx : Transaction) :
    Db × Option Error :=
  db.Transaction (createBody env tx)

/-- Method `TransactionRepository.GetBalanceAtTime`: the `COALESCE(SUM(CASE …), 0)` over the
rows selected by the `WHERE` clause.  Comparing `recipient_id` with a value is false
for a `NULL` recipient. -/
def TransactionRepository.GetBalanceAtTime (db : Db) (userID : UUID) (currency : String)
    (atTime : Time) : Int :=
  ((db.transactions.filter fun t =>
      decide ((t.UserID = userID ∨ t.RecipientID = some userID) ∧ t.Currency = currency
        ∧ t.CreatedAt ≤ atTime)).map fun t =>
      if t.Type_ = TransactionTypeDeposit
          ∨ (t.Type_ = TransactionTypeTransfer ∧ t.RecipientID = some userID)
      then t.Amount else -t.Amount).sum

/-- Method `TransactionService.Create`. -/
def TransactionService.Create (env : Env) (db : Db) (transaction : Transaction) :
    Db × Option Error :=
  match transaction.Validate with
  | some err => (db, some err)
  | none => TransactionRepository.Create env db transaction

/-- Method `TransactionService.Deposit`. -/
def TransactionService.Deposit (env : Env) (db : Db) (userID : UUID) (amount : Int)
    (currency description : String) : Db × Option Error :=
  TransactionService.Create env db
    { ID := uuidNil, UserID := userID, Type_ := TransactionTypeDeposit, Amount := amount,
      Currency := currency, RecipientID := none, Description := description,
      Status := "", CreatedAt := zeroTime, UpdatedAt := zeroTime }

/-- Method `TransactionService.Withdraw`. -/
def TransactionService.Withdraw (env : Env) (db : Db) (userID : UUID) (amount : Int)
    (currency description : String) : Db × Option Error :=
  TransactionService.Create env db
    { ID := uuidNil, UserID := userID, Type_ := TransactionTypeWithdraw, Amount := amount,
      Currency := currency, RecipientID := none, Description := description,
      Status := "", CreatedAt := zeroTime, UpdatedAt := zeroTime }

/-- Method `TransactionService.Transfer`. -/
def TransactionService.Transfer (env : Env) (db : Db) (fromUserID toUserID : UUID)
    (amount : Int) (currency description : String) : Db × Option Error :=
  if fromUserID = toUserID then
    (db, some (Error.New "cannot transfer to the same account"))
  else
    TransactionService.Create env db
      { ID := uuidNil, UserID := fromUserID, Type_ := TransactionTypeTransfer,
        Amount := amount, Currency := currency, RecipientID := some toUserID,
        Description := description, Status := "", CreatedAt := zeroTime,
        UpdatedAt := zeroTime }

/-- The stored balance of `(userID, currency)`: the amount of its row, zero when there
is no row. -/
def Db.balance (db : Db) (userID : UUID) (currency : String) : Int :=
  match db.First userID currency with
  | some b => b.Amount
  | none => 0

/-- One call of the three movement operations of `TransactionService`. -/
inductive Call where
  | deposit (userID : UUID) (amount : Int) (currency description : String)
  | withdraw (userID : UUID) (amount : Int) (currency description : String)
  | transfer (fromUserID toUserID : UUID) (amount : Int) (currency description : String)
  deriving DecidableEq, Repr

/-- Running one call. -/
def Call.run (env : Env) (db : Db) : Call → Db × Option Error
  | .deposit u a c d => TransactionService.Deposit env db u a c d
  | .withdraw u a c d => TransactionService.Withdraw env db u a c d
  | .transfer u v a c d => TransactionService.Transfer env db u v a c d

/-- Running a sequence of calls one at a time, each with its own clock reading and
fresh identifier; a failed call leaves the database as it was and the run goes on. -/
def runCalls (db : Db) : List (Env × Call) → Db
  | [] => db
  | (env, c) :: rest => runCalls (c.run env db).1 rest

/-- Every balance row holds a non-negative amount. -/
def Db.NonNegative (db : Db) : Prop := ∀ b ∈ db.balances, 0 ≤ b.Amount

instance Db.decidableNonNegative (db : Db) : Decidable db.NonNegative :=
  inferInstanceAs (Decidable (∀ b ∈ db.balances, 0 ≤ b.Amount))

/-- The signed effect of one ledger entry on `account`, in the words of the
specification of the point-in-time reconstructor: a credit for a deposit owned by the
account or a transfer naming it as counterparty, a debit for a withdrawal owned by it
or a transfer it is the source of, nothing otherwise. -/
def specEffect (account : UUID) (t : Transaction) : Int :=
  if (t.Type_ = TransactionTypeDeposit ∧ t.UserID = account)
      ∨ (t.Type_ = TransactionTypeTransfer ∧ t.RecipientID = some account) then t.Amount
  else if (t.Type_ = TransactionTypeWithdraw ∧ t.UserID = account)
      ∨ (t.Type_ = TransactionTypeTransfer ∧ t.UserID = account) then -t.Amount
  else 0

/-- The specification's `balanceAt`: the sum of `specEffect` over the entries in the
currency created no later than the timestamp. -/
def specBalanceAt (ledger : List Transaction) (account : UUID) (currency : String)
    (timestamp : Time) : Int :=
  ((ledger.filter fun t => decide (t.Currency = currency ∧ t.CreatedAt ≤ timestamp)).map
    (specEffect account)).sum

/-- The ledger row a successful `TransactionService.Deposit` writes. -/
def depositEntry (env : Env) (userID : UUID) (amount : Int) (currency description : String) :
    Transaction :=
  { ID := env.newID, UserID := userID, Type_ := TransactionTypeDeposit, Amount := amount,
    Currency := currency, RecipientID := none, Description := description,
    Status := "completed", CreatedAt := env.now, UpdatedAt := env.now }

/-- The ledger row a successful `TransactionService.Withdraw` writes. -/
def withdrawEntry (env : Env) (userID : UUID) (amount : Int) (currency description : String) :
    Transaction :=
  { ID := env.newID, UserID := userID, Type_ := TransactionTypeWithdraw, Amount := amount,
    Currency := currency, RecipientID := none, Description := description,
    Status := "completed", CreatedAt := env.now, UpdatedAt := env.now }

/-- The ledger row a successful `TransactionService.Transfer` writes. -/
def transferEntry (env : Env) (fromUserID toUserID : UUID) (amount : Int)
    (currency description : String) : Transaction :=
  { ID := env.newID, UserID := fromUserID, Type_ := TransactionTypeTransfer,
    Amount := amount, Currency := currency, RecipientID := some toUserID,
    Description := description, Status := "completed", CreatedAt := env.now,
    UpdatedAt := env.now }

/-- What one ledger row adds to the sum `TransactionRepository.GetBalanceAtTime` computes
for `(userID, currency, atTime)`: nothing when the `WHERE` clause rejects the row, the
value of the `CASE` expression otherwise. -/
def entryEffect (userID : UUID) (currency : String) (atTime : Time) (t : Transaction) : Int :=
  if (t.UserID = userID ∨ t.RecipientID = some userID) ∧ t.Currency = currency
      ∧ t.CreatedAt ≤ atTime then
    if t.Type_ = TransactionTypeDeposit
        ∨ (t.Type_ = TransactionTypeTransfer ∧ t.RecipientID = some userID)
    then t.Amount else -t.Amount
  else 0

/-- A ledger row of the shape the three movement operations write: a deposit or a
withdrawal without recipient, or a transfer whose recipient is not its owner. -/
def Transaction.Regular (t : Transaction) : Prop :=
  ((t.Type_ = TransactionTypeDeposit ∨ t.Type_ = TransactionTypeWithdraw)
      ∧ t.RecipientID = none)
    ∨ (t.Type_ = TransactionTypeTransfer ∧ t.RecipientID ≠ some t.UserID)

instance Transaction.decidableRegular (t : Transaction) : Decidable t.Regular :=
  inferInstanceAs (Decidable (_ ∨ _))

/-- A transaction with a type other than the three movement types, as a caller hands it
to `TransactionService.Create`. -/
def feeRequest : Transaction :=
  { ID := uuidNil, UserID := 1, Type_ := "fee", Amount := 500, Currency := "EUR",
    RecipientID := none, Description := "", Status := "", CreatedAt := zeroTime,
    UpdatedAt := zeroTime }

/-- The ledger row `TransactionService.Create` writes for `feeRequest` at time 5 with the
fresh identifier 9. -/
def feeEntry : Transaction :=
  { ID := 9, UserID := 1, Type_ := "fee", Amount := 500, Currency := "EUR",
    RecipientID := none, Description := "", Status := "completed", CreatedAt := 5,
    UpdatedAt := 5 }

/-! ### Read operations of the repository -/

/-- The order `ORDER BY created_at DESC` asks for: `a` may come before `b`. -/
def newestFirst (a b : Transaction) : Prop := b.CreatedAt ≤ a.CreatedAt

instance newestFirst.decidableRel : DecidableRel newestFirst :=
  fun a b => inferInstanceAs (Decidable (b.CreatedAt ≤ a.CreatedAt))

instance newestFirst.isTotal : IsTotal Transaction newestFirst :=
  ⟨fun a b => le_total b.CreatedAt a.CreatedAt⟩

instance newestFirst.isTrans : IsTrans Transaction newestFirst :=
  ⟨fun _ _ _ hab hbc => le_trans hbc hab⟩

/-- Clause `Order("created_at DESC")`: the rows sorted newest first, rows with equal
`created_at` in storage order. -/
def orderByCreatedAtDesc (rows : List Transaction) : List Transaction :=
  rows.insertionSort newestFirst

/-- Clauses `Offset(offset).Limit(limit)` as gorm builds them: `OFFSET` is emitted only
for a positive offset, `LIMIT` only for a non-negative limit. -/
def offsetLimit (offset limit : Int) (rows : List Transaction) : List Transaction :=
  let rows := if 0 < offset then rows.drop offset.toNat else rows
  if 0 ≤ limit then rows.take limit.toNat else rows

/-- Method `TransactionRepository.GetByID`: the row with the identifier, or
`ErrRecordNotFound`. -/
def TransactionRepository.GetByID (db : Db) (id : UUID) : Except Error Transaction :=
  match db.transactions.find? (fun t => decide (t.ID = id)) with
  | some tx => .ok tx
  | none => .error Error.ErrRecordNotFound

/-- Method `TransactionRepository.GetByUserID`: the page of rows and the total count. -/
def TransactionRepository.GetByUserID (db : Db) (userID : UUID) (page pageSize : Int) :
    List Transaction × Nat :=
  let rows := db.transactions.filter fun t =>
    decide (t.UserID = userID ∨ t.RecipientID = some userID)
  let offset := (page - 1) * pageSize
  (offsetLimit offset pageSize (orderByCreatedAtDesc rows), rows.length)

/-- Method `TransactionRepository.GetAll`: the page of rows and the total count. -/
def TransactionRepository.GetAll (db : Db) (page pageSize : Int) : List Transaction × Nat :=
  let offset := (page - 1) * pageSize
  (offsetLimit offset pageSize (orderByCreatedAtDesc db.transactions),
    db.transactions.length)

/-- Method `TransactionRepository.GetByIDAndUserID`: the row with the identifier owned by
the user, or `ErrRecordNotFound`. -/
def TransactionRepository.GetByIDAndUserID (db : Db) (transactionID userID : UUID) :
    Except Error Transaction :=
  match db.transactions.find? (fun t => decide (t.ID = transactionID ∧ t.UserID = userID)) with
  | some tx => .ok tx
  | none => .error Error.ErrRecordNotFound

/-- Method `TransactionRepository.ListByUserID`: the rows owned by the user. -/
def TransactionRepository.ListByUserID (db : Db) (userID : UUID) : List Transaction :=
  db.transactions.filter fun t => decide (t.UserID = userID)

/-- Method `TransactionRepository.ListAll`: every row. -/
def TransactionRepository.ListAll (db : Db) : List Transaction :=
  db.transactions

/-- The error a fallible read returns, `none` for `nil`. -/
def errorOf {α : Type} : Except Error α → Option Error
  | .ok _ => none
  | .error err => some err

/-- One call of an operation of `TransactionRepository` or `TransactionService` (the
read operations of the service hand their arguments to the repository unchanged). -/
inductive Request where
  | repositoryCreate (tx : Transaction)
  | serviceCreate (tx : Transaction)
  | movement (call : Call)
  | getByID (id : UUID)
  | getByUserID (userID : UUID) (page pageSize : Int)
  | getAll (page pageSize : Int)
  | getBalanceAtTime (userID : UUID) (currency : String) (atTime : Time)
  | getByIDAndUserID (transactionID userID : UUID)
  | listByUserID (userID : UUID)
  | listAll
  deriving DecidableEq, Repr

/-- Whether the request is one of the writing operations. -/
def Request.isWrite : Request → Bool
  | .repositoryCreate _ => true
  | .serviceCreate _ => true
  | .movement _ => true
  | _ => false

/-- The database after the request and the error the request returns.  The read
operations issue `SELECT` statements only, so they hand the database back. -/
def Request.run (env : Env) (db : Db) : Request → Db × Option Error
  | .repositoryCreate tx => TransactionRepository.Create env db tx
  | .serviceCreate tx => TransactionService.Create env db tx
  | .movement call => call.run env db
  | .getByID id => (db, errorOf (TransactionRepository.GetByID db id))
  | .getByUserID _ _ _ => (db, none)
  | .getAll _ _ => (db, none)
  | .getBalanceAtTime _ _ _ => (db, none)
  | .getByIDAndUserID transactionID userID =>
    (db, errorOf (TransactionRepository.GetByIDAndUserID db transactionID userID))
  | .listByUserID _ => (db, none)
  | .listAll => (db, none)

/-- A ledger row created at instant 5 under the given identifier; two of them tie on
`created_at`. -/
def tiedEntry (id : UUID) : Transaction :=
  { ID := id, UserID := 1, Type_ := TransactionTypeDeposit, Amount := 100, Currency := "EUR",
    RecipientID := none, Description := "", Status := "completed", CreatedAt := 5,
    UpdatedAt := 5 }

/-- A transfer whose recipient is its owner, as a caller hands it to
`TransactionService.Create`. -/
def selfTransferRequest : Transaction :=
  { ID := uuidNil, UserID := 1, Type_ := TransactionTypeTransfer, Amount := 4000,
    Currency := "EUR", RecipientID := some 1, Description := "", Status := "",
    CreatedAt := zeroTime, UpdatedAt := zeroTime }

/-! ### Notions for the balance table -/

/-- The `(UserID, Currency)` pairs of the rows of a balance table, in storage order. -/
def balanceKeys (rows : List Balance) : List (UUID × String) :=
  rows.map fun b => (b.UserID, b.Currency)

/-- The balance table holds at most one row for each `(UserID, Currency)` pair. -/
def Db.UniqueKeys (db : Db) : Prop := (balanceKeys db.balances).Nodup

instance Db.decidableUniqueKeys (db : Db) : Decidable db.UniqueKeys :=
  inferInstanceAs (Decidable (balanceKeys db.balances).Nodup)

/-! ### Authentication middleware -/

/-- The signing methods of the JWT library that the middleware can meet; it only asks
whether a method is one of the HMAC family (`*jwt.SigningMethodHMAC`). -/
inductive SigningMethod where
  | HS256
  | HS384
  | HS512
  | RS256
  | ES256
  | unsecured
  deriving DecidableEq, Repr

/-- The type assertion `token.Method.(*jwt.SigningMethodHMAC)`. -/
def SigningMethod.isHMAC : SigningMethod → Bool
  | .HS256 => true
  | .HS384 => true
  | .HS512 => true
  | _ => false

/-- The claims of a token, `jwt.MapClaims`, with string values; `List.lookup` reads a
claim, `none` standing for an absent claim (`nil`). -/
abbrev MapClaims := List (String × String)

/-- A parsed `jwt.Token`. -/
structure Token where
  Method : SigningMethod
  Claims : MapClaims
  Valid : Bool
  deriving DecidableEq, Repr

/-- The parts of the JWT library that the middleware relies on and that are not part of
this repository: `signedString method claims key` is
`jwt.NewWithClaims(method, claims).SignedString(key)`; `decode` is the first step of
`jwt.Parse`, reading the method and the claims off the token text without checking
them (`none` for a malformed token); `verify token method key` is its last step, the
check of the signature, and of the registered claims, under the key the key function
returned. -/
structure JWT where
  signedString : SigningMethod → MapClaims → String → String
  decode : String → Option (SigningMethod × MapClaims)
  verify : String → SigningMethod → String → Bool

/-- The value `jwt.ErrSignatureInvalid`. -/
def ErrSignatureInvalid : Error := Error.New "signature is invalid"

/-- The value `jwt.ErrTokenMalformed`. -/
def ErrTokenMalformed : Error := Error.New "token is malformed"

/-- Function `jwt.Parse(tokenString, keyFunc)`: decode the token, ask the key function
for the key, verify; the token it returns is valid. -/
def JWT.Parse (lib : JWT) (tokenString : String) (keyFunc : Token → Except Error String) :
    Except Error Token :=
  match lib.decode tokenString with
  | none => .error ErrTokenMalformed
  | some (method, claims) =>
    match keyFunc ⟨method, claims, false⟩ with
    | .error err => .error err
    | .ok key =>
      if lib.verify tokenString method key then .ok ⟨method, claims, true⟩
      else .error ErrSignatureInvalid

/-- The handlers that the router of the middleware tests puts on a route: the two
middlewares, the endpoint of `/protected` and the endpoint of `/admin`. -/
inductive Handler where
  | requireAuth
  | requireAdmin
  | protectedEndpoint
  | adminEndpoint
  deriving DecidableEq, Repr

/-- The part of `gin.Context` the middleware touches.  `pending` holds the handlers of
the route after the one that is running (gin keeps an index into the chain instead);
`responses` are the `c.JSON` calls so far, each a status and a body, in order;
`endpointRan` tells whether an endpoint handler was run. -/
structure Context where
  authorization : String
  keys : List (String × Option String)
  pending : List Handler
  aborted : Bool
  responses : List (Nat × List (String × Option String))
  endpointRan : Bool
  deriving DecidableEq, Repr

/-- The context gin hands to the first handler of a route for a request with the given
`Authorization` header (empty when the header is absent). -/
def Context.new (authorization : String) (handlers : List Handler) : Context :=
  { authorization := authorization, keys := [], pending := handlers, aborted := false,
    responses := [], endpointRan := false }

/-- Method `c.JSON(status, body)`. -/
def Context.JSON (c : Context) (status : Nat) (body : List (String × Option String)) :
    Context :=
  { c with responses := c.responses ++ [(status, body)] }

/-- Method `c.Abort()`: no pending handler is run any more. -/
def Context.Abort (c : Context) : Context :=
  { c with pending := [], aborted := true }

/-- Method `c.Set(key, value)`. -/
def Context.Set (c : Context) (key : String) (value : Option String) : Context :=
  { c with keys := (key, value) :: c.keys }

/-- Method `c.Get(key)`: `none` when the key was never set, the stored value
otherwise. -/
def Context.Get (c : Context) (key : String) : Option (Option String) :=
  c.keys.lookup key

/-- The status line the client receives: gin sends the header with the first body
written, so it is the status of the first `c.JSON`. -/
def Context.status (c : Context) : Option Nat :=
  c.responses.head?.map Prod.fst

/-- Function `strings.Split(s, " ")` on the characters of `s`. -/
def splitSpace : List Char → List (List Char)
  | [] => [[]]
  | c :: cs =>
    if c = ' ' then [] :: splitSpace cs
    else
      match splitSpace cs with
      | [] => [[c]]
      | part :: parts => (c :: part) :: parts

/-- Function `strings.Split(s, " ")`. -/
def stringsSplit (s : String) : List String :=
  (splitSpace s.toList).map String.mk

/-- The middleware `AuthMiddleware`, with the JWT library it runs on. -/
structure AuthMiddleware where
  jwtSecret : String
  lib : JWT

/-- The key function `RequireAuth` hands to `jwt.Parse`. -/
def AuthMiddleware.keyFunc (m : AuthMiddleware) (token : Token) : Except Error String :=
  if token.Method.isHMAC then .ok m.jwtSecret else .error ErrSignatureInvalid

/-- The handler `AuthMiddleware.RequireAuth` returns; `next` is `c.Next()`. -/
def AuthMiddleware.RequireAuth (m : AuthMiddleware) (next : Context → Context)
    (c : Context) : Context :=
  let authHeader := c.authorization
  if authHeader = "" then
    (c.JSON 401 [("error", some "authorization header is required")]).Abort
  else
    let parts := stringsSplit authHeader
    if parts.length ≠ 2 ∨ parts.head? ≠ some "Bearer" then
      (c.JSON 401 [("error", some "invalid authorization header format")]).Abort
    else
      match m.lib.Parse (parts.getD 1 "") m.keyFunc with
      | .error _ => (c.JSON 401 [("error", some "invalid token")]).Abort
      | .ok token =>
        if token.Valid then
          next ((c.Set "user_id" (token.Claims.lookup "user_id")).Set "role"
            (token.Claims.lookup "role"))
        else (c.JSON 401 [("error", some "invalid token claims")]).Abort

/-- The handler `AuthMiddleware.RequireAdmin` returns; `next` is `c.Next()`, also for the
`RequireAuth` handler it calls on the same context. -/
def AuthMiddleware.RequireAdmin (m : AuthMiddleware) (next : Context → Context)
    (c : Context) : Context :=
  let c := m.RequireAuth next c
  if c.aborted then c
  else
    match c.Get "role" with
    | some (some "admin") => next c
    | _ => (c.JSON 403 [("error", some "admin access required")]).Abort

/-- The endpoint of `/protected` in the tests: answers 200 with the `user_id` and `role`
of the context. -/
def answerProtected (c : Context) : Context :=
  { c.JSON 200 [("user_id", (c.Get "user_id").join), ("role", (c.Get "role").join)] with
    endpointRan := true }

/-- The endpoint of `/admin` in the tests: answers 200 "admin access granted". -/
def answerAdmin (c : Context) : Context :=
  { c.JSON 200 [("message", some "admin access granted")] with endpointRan := true }

/-- Running one handler of the route. -/
def Handler.run (m : AuthMiddleware) (next : Context → Context) : Handler → Context → Context
  | .requireAuth, c => m.RequireAuth next c
  | .requireAdmin, c => m.RequireAdmin next c
  | .protectedEndpoint, c => answerProtected c
  | .adminEndpoint, c => answerAdmin c

/-- Method `c.Next()`: run the pending handlers one after the other; a handler that
calls `c.Next()` itself has the rest run inside it.  `fuel` bounds the nesting; the
number of pending handlers is enough. -/
def Context.Next (m : AuthMiddleware) : Nat → Context → Context
  | 0, c => c
  | fuel + 1, c =>
    match c.pending with
    | [] => c
    | h :: rest => Context.Next m fuel (h.run m (Context.Next m fuel) { c with pending := rest })

/-- Serving a request on a route: gin calls `c.Next()` on the fresh context. -/
def serve (m : AuthMiddleware) (handlers : List Handler) (authorization : String) : Context :=
  Context.Next m handlers.length (Context.new authorization handlers)

/-- Modelled from the spec: `models.User` is not among the sources; these are the fields
`AuthMiddleware.GenerateToken` and the middleware tests read. -/
structure User where
  ID : UUID
  Email : String
  Role : String
  deriving DecidableEq, Repr

/-- Method `uuid.UUID.String`: the text form of an identifier. -/
def uuidString (id : UUID) : String := toString id

/-- The claims `AuthMiddleware.GenerateToken` puts into the token of a user. -/
def claimsOf (user : User) : MapClaims :=
  [("user_id", uuidString user.ID), ("email", user.Email), ("role", user.Role)]

/-- Method `AuthMiddleware.GenerateToken`: the token and the error, which is `nil`. -/
def AuthMiddleware.GenerateToken (m : AuthMiddleware) (user : User) :
    String × Option Error :=
  (m.lib.signedString SigningMethod.HS256 (claimsOf user) m.jwtSecret, none)

/-- A stand-in for the JWT library to run examples on: the token of a user is the text
"token-" followed by the role, it decodes to the claims of user 7 with that role, and
every signature verifies. -/
def exampleJWT : JWT :=
  { signedString := fun _ claims _ => "token-" ++ (claims.lookup "role").getD ""
    decode := fun s =>
      if s = "token-user" then some (SigningMethod.HS256, claimsOf ⟨7, "u@example.com", "user"⟩)
      else if s = "token-admin" then
        some (SigningMethod.HS256, claimsOf ⟨7, "u@example.com", "admin"⟩)
      else none
    verify := fun _ _ _ => true }

/-- The laws of the JWT library that `GenerateToken` and `RequireAuth` lean on.  They
speak of every method of the HMAC family, every claim set and every key, not of one
token: signing with such a method and a byte key does not fail, and the signed token is
not empty and holds no space (it is base64url text and dots); decoding it gives back
the method, and claims that read as the ones signed; and when it carries none of the
registered time claims `exp`, `nbf` and `iat` it verifies under the key it was signed
with. -/
structure JWT.Lawful (lib : JWT) : Prop where
  signed_ne_empty : ∀ method claims key, method.isHMAC = true →
    lib.signedString method claims key ≠ ""
  signed_no_space : ∀ method claims key, method.isHMAC = true →
    ' ' ∉ (lib.signedString method claims key).toList
  decode_signed : ∀ method claims key, method.isHMAC = true → ∃ claims',
    lib.decode (lib.signedString method claims key) = some (method, claims')
      ∧ ∀ name, claims'.lookup name = claims.lookup name
  verify_signed : ∀ method claims key, method.isHMAC = true →
    claims.lookup "exp" = none → claims.lookup "nbf" = none → claims.lookup "iat" = none →
    lib.verify (lib.signedString method claims key) method key = true

/-- The text of one character inside a token of `plainJWT`: the space, the dot and the
underscore are written as an underscore and a letter. -/
def PlainJWT.escapeChar (c : Char) : List Char :=
  if c = ' ' then ['_', 's']
  else if c = '.' then ['_', 'd']
  else if c = '_' then ['_', 'u']
  else [c]

/-- The text of a field inside a token of `plainJWT`. -/
def PlainJWT.escape : List Char → List Char
  | [] => []
  | c :: cs => PlainJWT.escapeChar c ++ PlainJWT.escape cs

/-- The fields of a token of `plainJWT`, each followed by a dot. -/
def PlainJWT.writeFields : List String → List Char
  | [] => []
  | f :: fs => PlainJWT.escape f.toList ++ '.' :: PlainJWT.writeFields fs

/-- Reading the fields of a token of `plainJWT` back; `escaped` tells that the last
character was an underscore, `acc` holds the field read so far, newest first.  `none`
for a text that `writeFields` does not produce. -/
def PlainJWT.readFields : List Char → Bool → List Char → Option (List String)
  | [], escaped, acc => if escaped = false ∧ acc = [] then some [] else none
  | c :: rest, true, acc =>
    if c = 's' then PlainJWT.readFields rest false (' ' :: acc)
    else if c = 'd' then PlainJWT.readFields rest false ('.' :: acc)
    else if c = 'u' then PlainJWT.readFields rest false ('_' :: acc)
    else none
  | c :: rest, false, acc =>
    if c = '.' then
      (PlainJWT.readFields rest false []).map fun fs => String.mk acc.reverse :: fs
    else if c = '_' then PlainJWT.readFields rest true acc
    else PlainJWT.readFields rest false (c :: acc)

/-- The `alg` name of a signing method. -/
def PlainJWT.methodName : SigningMethod → String
  | .HS256 => "HS256"
  | .HS384 => "HS384"
  | .HS512 => "HS512"
  | .RS256 => "RS256"
  | .ES256 => "ES256"
  | .unsecured => "none"

/-- The signing method of an `alg` name. -/
def PlainJWT.methodOfName (name : String) : Option SigningMethod :=
  if name = "HS256" then some .HS256
  else if name = "HS384" then some .HS384
  else if name = "HS512" then some .HS512
  else if name = "RS256" then some .RS256
  else if name = "ES256" then some .ES256
  else if name = "none" then some .unsecured
  else none

/-- The claims as a run of fields: name, value, name, value, and so on. -/
def PlainJWT.unpair : MapClaims → List String
  | [] => []
  | (name, value) :: rest => name :: value :: PlainJWT.unpair rest

/-- The claims of a run of fields; `none` for an odd number of fields. -/
def PlainJWT.pairUp : List String → Option MapClaims
  | [] => some []
  | [_] => none
  | name :: value :: rest => (PlainJWT.pairUp rest).map fun claims => (name, value) :: claims

/-- A second stand-in for the JWT library to run examples on, one that keeps the laws
`JWT.Lawful`: a token is the `alg` name, the key and the claims written one field after
the other, so the "signature" is the key itself; it decodes to the method and claims
written into it, and it verifies under the method and key written into it. -/
def plainJWT : JWT :=
  { signedString := fun method claims key =>
      String.mk (PlainJWT.writeFields
        (PlainJWT.methodName method :: key :: PlainJWT.unpair claims))
    decode := fun s =>
      match PlainJWT.readFields s.toList false [] with
      | some (name :: _ :: fields) =>
        match PlainJWT.methodOfName name, PlainJWT.pairUp fields with
        | some method, some claims => some (method, claims)
        | _, _ => none
      | _ => none
    verify := fun s method key =>
      match PlainJWT.readFields s.toList false [] with
      | some (name :: signature :: _) =>
        decide (name = PlainJWT.methodName method ∧ signature = key)
      | _ => false }

/-! ### The ledger code on machine numbers

The definitions of this part follow the same sources with Go's own number types:
amounts are `float64`, page numbers are 64-bit `int`, and `db.Save` goes by the primary
key of the row. -/

namespace Machine

/-- The values of Go's `float64`: NaN, the two infinities and the finite values, a finite
value given by the rational number it stands for.  The genuine finite values are the
`F64.Representable` ones.  The two zeros are one value: `==`, `<`, `+` and `-` on the
amounts of this code never tell them apart. -/
inductive F64 where
  | nan
  | inf (negative : Bool)
  | fin (q : ℚ)
  deriving DecidableEq, Repr

/-- Rounding a rational number to an integer, to nearest and on a tie to the even
neighbour. -/
def roundHalfEven (x : ℚ) : ℤ :=
  let f := ⌊x⌋
  let r := x - f
  if r < 1 / 2 then f
  else if 1 / 2 < r then f + 1
  else if f % 2 = 0 then f else f + 1

/-- The `float64` a real result is delivered as (IEEE 754 binary64, round to nearest, ties
to even): 53 significant bits at the exponent of the value, the exponent no lower than
that of the subnormal numbers, and an infinity from `2 ^ 1024` on. -/
def F64.round (q : ℚ) : F64 :=
  if q = 0 then .fin 0
  else
    let e : ℤ := max (Int.log 2 |q| - 52) (-1074)
    let m : ℤ := roundHalfEven (|q| / 2 ^ e)
    let r : ℚ := m * 2 ^ e
    if 2 ^ (1024 : ℕ) ≤ r then .inf (decide (q < 0))
    else .fin (if q < 0 then -r else r)

/-- The rational number is a finite `float64` value: an integer below `2 ^ 53` in
absolute value times a power of two with exponent from `-1074` to `971`. -/
def F64.Representable (q : ℚ) : Prop :=
  ∃ m e : ℤ, |m| < 2 ^ 53 ∧ -1074 ≤ e ∧ e ≤ 971 ∧ q = m * 2 ^ e

/-- The value is one that a `float64` variable can hold. -/
def F64.Valid : F64 → Prop
  | .fin q => F64.Representable q
  | _ => True

/-- Whether the value is finite (neither NaN nor an infinity). -/
def F64.isFinite : F64 → Bool
  | .fin _ => true
  | _ => false

/-- The number a finite value stands for; zero for NaN and the infinities. -/
def F64.toRat : F64 → ℚ
  | .fin q => q
  | _ => 0

/-- Operator `+` of `float64`. -/
def F64.add : F64 → F64 → F64
  | .fin a, .fin b => F64.round (a + b)
  | .fin _, .inf s => .inf s
  | .inf s, .fin _ => .inf s
  | .inf s, .inf t => if s = t then .inf s else .nan
  | _, _ => .nan

/-- Operator `-` of `float64`. -/
def F64.sub : F64 → F64 → F64
  | .fin a, .fin b => F64.round (a - b)
  | .fin _, .inf s => .inf (!s)
  | .inf s, .fin _ => .inf s
  | .inf s, .inf t => if s = t then .nan else .inf s
  | _, _ => .nan

/-- Unary `-` of `float64`. -/
def F64.neg : F64 → F64
  | .fin a => .fin (-a)
  | .inf s => .inf (!s)
  | .nan => .nan

/-- Operator `<` of `float64`: false whenever an operand is NaN. -/
def F64.blt : F64 → F64 → Bool
  | .fin a, .fin b => decide (a < b)
  | .fin _, .inf s => !s
  | .inf s, .fin _ => s
  | .inf s, .inf t => s && !t
  | _, _ => false

/-- Operator `<=` of `float64`: false whenever an operand is NaN. -/
def F64.ble : F64 → F64 → Bool
  | .fin a, .fin b => decide (a ≤ b)
  | .fin _, .inf s => !s
  | .inf s, .fin _ => s
  | .inf s, .inf t => s || !t
  | _, _ => false

instance F64.instZero : Zero F64 := ⟨.fin 0⟩

instance F64.instAdd : Add F64 := ⟨F64.add⟩

instance F64.instSub : Sub F64 := ⟨F64.sub⟩

instance F64.instNeg : Neg F64 := ⟨F64.neg⟩

instance F64.instLT : LT F64 := ⟨fun x y => F64.blt x y = true⟩

instance F64.instLE : LE F64 := ⟨fun x y => F64.ble x y = true⟩

instance F64.decidableLT (x y : F64) : Decidable (x < y) :=
  inferInstanceAs (Decidable (F64.blt x y = true))

instance F64.decidableLE (x y : F64) : Decidable (x ≤ y) :=
  inferInstanceAs (Decidable (F64.ble x y = true))

/-- The persisted fields of `models.Transaction`, the amount a `float64`. -/
structure Transaction where
  ID : UUID
  UserID : UUID
  Type_ : TransactionType
  Amount : F64
  Currency : String
  RecipientID : Option UUID
  Description : String
  Status : String
  CreatedAt : Time
  UpdatedAt : Time
  deriving DecidableEq, Repr

/-- The fields of `models.Balance` that the ledger code or gorm's `Save` reads or
writes: the primary key, the pair and the amount. -/
structure Balance where
  ID : UUID
  UserID : UUID
  Currency : String
  Amount : F64
  deriving DecidableEq, Repr

/-- Method `Transaction.Validate`; the result `nil` is `none`. -/
def Transaction.Validate (t : Transaction) : Option Error :=
  if t.Amount ≤ 0 then some Error.ErrInvalidAmount
  else if t.Type_ = TransactionTypeTransfer ∧ t.RecipientID = none then
    some Error.ErrMissingRecipient
  else none

/-- Method `Balance.Add`: the receiver after the call. -/
def Balance.Add (b : Balance) (amount : F64) : Balance :=
  { b with Amount := b.Amount + amount }

/-- Method `Balance.Subtract`: the receiver after the call and the returned error. -/
def Balance.Subtract (b : Balance) (amount : F64) : Balance × Option Error :=
  if b.Amount < amount then (b, some Error.ErrInsufficientFunds)
  else ({ b with Amount := b.Amount - amount }, none)

/-- The two tables the ledger code touches. -/
structure Db where
  transactions : List Transaction
  balances : List Balance
  deriving DecidableEq, Repr

/-- A database with no rows. -/
def Db.empty : Db := ⟨[], []⟩

/-- What one call reads from outside the database: the clock, and the identifiers
`uuid.New()` hands to `BeforeCreate` for the ledger row and for a new balance row (one
call inserts at most one of each). -/
structure Env where
  now : Time
  newID : UUID
  newBalanceID : UUID
  deriving DecidableEq, Repr

/-- The row gorm inserts for `db.Create(tx)`: `BeforeCreate` fills a nil `ID`, gorm fills
zero timestamps with the current time, and the column default fills an empty
`Status`. -/
def Transaction.inserted (env : Env) (tx : Transaction) : Transaction :=
  { tx with
    ID := if tx.ID = uuidNil then env.newID else tx.ID
    Status := if tx.Status = "" then "completed" else tx.Status
    CreatedAt := if tx.CreatedAt = zeroTime then env.now else tx.CreatedAt
    UpdatedAt := if tx.UpdatedAt = zeroTime then env.now else tx.UpdatedAt }

/-- Statement `db.Create(tx)` on the transactions table. -/
def Db.Create (db : Db) (env : Env) (tx : Transaction) : Db :=
  { db with transactions := db.transactions ++ [tx.inserted env] }

/-- Query `db.Where("user_id = ? AND currency = ?", userID, currency).First(&balance)`:
`none` stands for `gorm.ErrRecordNotFound`. -/
def Db.First (db : Db) (userID : UUID) (currency : String) : Option Balance :=
  db.balances.find? (fun b => decide (b.UserID = userID ∧ b.Currency = currency))

/-- Statement `db.Save(&balance)`.  With a zero primary key gorm inserts the value, and
`BeforeCreate` gives it an identifier first; with a primary key it updates every column
of the rows under that key, and inserts the value when there is no such row. -/
def Db.Save (db : Db) (env : Env) (b : Balance) : Db :=
  if b.ID = uuidNil then
    { db with balances := db.balances ++ [{ b with ID := env.newBalanceID }] }
  else if db.balances.any (fun r => decide (r.ID = b.ID)) then
    { db with balances := db.balances.map fun r => if r.ID = b.ID then b else r }
  else { db with balances := db.balances ++ [b] }

/-- Method `gorm.DB.Transaction`: commit on `nil`, roll back on error. -/
def Db.Transaction (db : Db) (fc : Db → Except Error Db) : Db × Option Error :=
  match fc db with
  | .ok db' => (db', none)
  | .error err => (db, some err)

/-- The block "Update sender's balance" of `TransactionRepository.Create`. -/
def updateSenderBalance (env : Env) (tx : Transaction) (db : Db) : Except Error Db :=
  if tx.Type_ = TransactionTypeWithdraw ∨ tx.Type_ = TransactionTypeTransfer then
    match db.First tx.UserID tx.Currency with
    | none => .error Error.ErrInsufficientFunds
    | some senderBalance =>
      match senderBalance.Subtract tx.Amount with
      | (_, some err) => .error err
      | (senderBalance, none) => .ok (db.Save env senderBalance)
  else .ok db

/-- The block "Update recipient's balance for transfers" of
`TransactionRepository.Create`. -/
def updateRecipientBalance (env : Env) (tx : Transaction) (db : Db) : Except Error Db :=
  match tx.RecipientID with
  | some recipientID =>
    if tx.Type_ = TransactionTypeTransfer then
      let recipientBalance : Balance :=
        match db.First recipientID tx.Currency with
        | some b => b
        | none => { ID := uuidNil, UserID := recipientID, Currency := tx.Currency, Amount := 0 }
      .ok (db.Save env (recipientBalance.Add tx.Amount))
    else .ok db
  | none => .ok db

/-- The block "Update balance for deposits" of `TransactionRepository.Create`. -/
def updateDepositBalance (env : Env) (tx : Transaction) (db : Db) : Except Error Db :=
  if tx.Type_ = TransactionTypeDeposit then
    let balance : Balance :=
      match db.First tx.UserID tx.Currency with
      | some b => b
      | none => { ID := uuidNil, UserID := tx.UserID, Currency := tx.Currency, Amount := 0 }
    .ok (db.Save env (balance.Add tx.Amount))
  else .ok db

/-- The closure `TransactionRepository.Create` hands to `gorm.DB.Transaction`. -/
def createBody (env : Env) (tx : Transaction) (db : Db) : Except Error Db :=
  let db := db.Create env tx
  let tx := tx.inserted env
  (updateSenderBalance env tx db).bind fun db =>
    (updateRecipientBalance env tx db).bind fun db =>
      updateDepositBalance env tx db

/-- Method `TransactionRepository.Create`. -/
def TransactionRepository.Create (env : Env) (db : Db) (tx : Transaction) :
    Db × Option Error :=
  db.Transaction (createBody env tx)

/-- The value `Scan(&balance)` delivers for a `SUM` over the amount column.  The column
is `decimal(20,2)`: the database adds finite terms exactly and the sum is rounded once,
to the `float64` it is scanned into.  A term that is not finite is carried along by the
`float64` rules. -/
def sumScan (terms : List F64) : F64 :=
  if terms.all F64.isFinite then F64.round (terms.map F64.toRat).sum
  else terms.foldl (fun x y => x + y) 0

/-- Method `TransactionRepository.GetBalanceAtTime`: the `COALESCE(SUM(CASE …), 0)` over the
rows selected by the `WHERE` clause.  Comparing `recipient_id` with a value is false
for a `NULL` recipient. -/
def TransactionRepository.GetBalanceAtTime (db : Db) (userID : UUID) (currency : String)
    (atTime : Time) : F64 :=
  sumScan ((db.transactions.filter fun t =>
      decide ((t.UserID = userID ∨ t.RecipientID = some userID) ∧ t.Currency = currency
        ∧ t.CreatedAt ≤ atTime)).map fun t =>
      if t.Type_ = TransactionTypeDeposit
          ∨ (t.Type_ = TransactionTypeTransfer ∧ t.RecipientID = some userID)
      then t.Amount else -t.Amount)

/-- Method `TransactionService.Create`. -/
def TransactionService.Create (env : Env) (db : Db) (transaction : Transaction) :
    Db × Option Error :=
  match transaction.Validate with
  | some err => (db, some err)
  | none => TransactionRepository.Create env db transaction

/-- Method `TransactionService.Deposit`. -/
def TransactionService.Deposit (env : Env) (db : Db) (userID : UUID) (amount : F64)
    (currency description : String) : Db × Option Error :=
  TransactionService.Create env db
    { ID := uuidNil, UserID := userID, Type_ := TransactionTypeDeposit, Amount := amount,
      Currency := currency, RecipientID := none, Description := description,
      Status := "", CreatedAt := zeroTime, UpdatedAt := zeroTime }

/-- Method `TransactionService.Withdraw`. -/
def TransactionService.Withdraw (env : Env) (db : Db) (userID : UUID) (amount : F64)
    (currency description : String) : Db × Option Error :=
  TransactionService.Create env db
    { ID := uuidNil, UserID := userID, Type_ := TransactionTypeWithdraw, Amount := amount,
      Currency := currency, RecipientID := none, Description := description,
      Status := "", CreatedAt := zeroTime, UpdatedAt := zeroTime }

/-- Method `TransactionService.Transfer`. -/
def TransactionService.Transfer (env : Env) (db : Db) (fromUserID toUserID : UUID)
    (amount : F64) (currency description : String) : Db × Option Error :=
  if fromUserID = toUserID then
    (db, some (Error.New "cannot transfer to the same account"))
  else
    TransactionService.Create env db
      { ID := uuidNil, UserID := fromUserID, Type_ := TransactionTypeTransfer,
        Amount := amount, Currency := currency, RecipientID := some toUserID,
        Description := description, Status := "", CreatedAt := zeroTime,
        UpdatedAt := zeroTime }

/-- The stored balance of `(userID, currency)`: the amount of its row, zero when there
is no row. -/
def Db.balance (db : Db) (userID : UUID) (currency : String) : F64 :=
  match db.First userID currency with
  | some b => b.Amount
  | none => 0

/-- The `(UserID, Currency)` pairs of the rows of a balance table, in storage order. -/
def balanceKeys (rows : List Balance) : List (UUID × String) :=
  rows.map fun b => (b.UserID, b.Currency)

/-- The balance table holds at most one row for each `(UserID, Currency)` pair. -/
def Db.UniqueKeys (db : Db) : Prop := (balanceKeys db.balances).Nodup

instance Db.decidableUniqueKeys (db : Db) : Decidable db.UniqueKeys :=
  inferInstanceAs (Decidable (balanceKeys db.balances).Nodup)

/-- The integrity of the balance table: the primary keys of the rows are pairwise
different, none is `uuid.Nil`, and there is one row for a pair at most (the index
`idx_user_currency`).  With one row for a pair, the order in which `First` takes the
matches (by primary key) plays no part. -/
def Db.WF (db : Db) : Prop :=
  (db.balances.map Balance.ID).Nodup ∧ uuidNil ∉ db.balances.map Balance.ID
    ∧ db.UniqueKeys

instance Db.decidableWF (db : Db) : Decidable db.WF :=
  inferInstanceAs (Decidable (_ ∧ _ ∧ _))

/-- The identifier `uuid.New()` hands out for a balance row is not `uuid.Nil` and is not
in use. -/
def Env.Fresh (env : Env) (db : Db) : Prop :=
  env.newBalanceID ≠ uuidNil ∧ env.newBalanceID ∉ db.balances.map Balance.ID

instance Env.decidableFresh (env : Env) (db : Db) : Decidable (env.Fresh db) :=
  inferInstanceAs (Decidable (_ ∧ _))

/-- The balance table after the row of `(userID, currency)` has been given the amount:
the first row of the pair with the new amount in place, or a new row at the end under
the identifier `newID` when the pair has none. -/
def putAmount (newID userID : UUID) (currency : String) (amount : F64) :
    List Balance → List Balance
  | [] => [⟨newID, userID, currency, amount⟩]
  | r :: rs =>
    if r.UserID = userID ∧ r.Currency = currency then { r with Amount := amount } :: rs
    else r :: putAmount newID userID currency amount rs

/-- The ledger row a successful `TransactionService.Deposit` writes. -/
def depositEntry (env : Env) (userID : UUID) (amount : F64) (currency description : String) :
    Transaction :=
  { ID := env.newID, UserID := userID, Type_ := TransactionTypeDeposit, Amount := amount,
    Currency := currency, RecipientID := none, Description := description,
    Status := "completed", CreatedAt := env.now, UpdatedAt := env.now }

/-- The ledger row a successful `TransactionService.Withdraw` writes. -/
def withdrawEntry (env : Env) (userID : UUID) (amount : F64) (currency description : String) :
    Transaction :=
  { ID := env.newID, UserID := userID, Type_ := TransactionTypeWithdraw, Amount := amount,
    Currency := currency, RecipientID := none, Description := description,
    Status := "completed", CreatedAt := env.now, UpdatedAt := env.now }

/-- The ledger row a successful `TransactionService.Transfer` writes. -/
def transferEntry (env : Env) (fromUserID toUserID : UUID) (amount : F64)
    (currency description : String) : Transaction :=
  { ID := env.newID, UserID := fromUserID, Type_ := TransactionTypeTransfer,
    Amount := amount, Currency := currency, RecipientID := some toUserID,
    Description := description, Status := "completed", CreatedAt := env.now,
    UpdatedAt := env.now }

/-- The table `after` has the rows of `before` under the same pairs and in the same
places, followed by rows for new pairs only: each added pair had no row in `before` and
is added once. -/
def KeysExtend (before after : List Balance) : Prop :=
  ∃ added : List (UUID × String),
    balanceKeys after = balanceKeys before ++ added
    ∧ (∀ k ∈ added, k ∉ balanceKeys before) ∧ added.Nodup

/-- Calls of `TransactionRepository.Create` one after the other, each with its own clock
reading and fresh identifiers; a failed call leaves the database as it was. -/
def runCreates (db : Db) : List (Env × Transaction) → Db
  | [] => db
  | (env, tx) :: rest => runCreates (TransactionRepository.Create env db tx).1 rest

/-- The identifiers `uuid.New()` hands out for balance rows in the course of a run are
pairwise different, none is `uuid.Nil`, and none is in use in the table the run starts
from. -/
def FreshIds (db : Db) (envs : List Env) : Prop :=
  (envs.map Env.newBalanceID).Nodup ∧ uuidNil ∉ envs.map Env.newBalanceID
    ∧ ∀ n ∈ envs.map Env.newBalanceID, n ∉ db.balances.map Balance.ID

instance FreshIds.decidable (db : Db) (envs : List Env) : Decidable (FreshIds db envs) :=
  inferInstanceAs (Decidable (_ ∧ _ ∧ _))

/-- One call of the three movement operations of `TransactionService`. -/
inductive Call where
  | deposit (userID : UUID) (amount : F64) (currency description : String)
  | withdraw (userID : UUID) (amount : F64) (currency description : String)
  | transfer (fromUserID toUserID : UUID) (amount : F64) (currency description : String)
  deriving DecidableEq, Repr

/-- Running one call. -/
def Call.run (env : Env) (db : Db) : Call → Db × Option Error
  | .deposit u a c d => TransactionService.Deposit env db u a c d
  | .withdraw u a c d => TransactionService.Withdraw env db u a c d
  | .transfer u v a c d => TransactionService.Transfer env db u v a c d

/-- Running a sequence of calls one at a time, each with its own clock reading and
fresh identifiers; a failed call leaves the database as it was and the run goes on. -/
def runCalls (db : Db) : List (Env × Call) → Db
  | [] => db
  | (env, c) :: rest => runCalls (c.run env db).1 rest

/-- The currency of a call. -/
def Call.currency : Call → String
  | .deposit _ _ c _ => c
  | .withdraw _ _ c _ => c
  | .transfer _ _ _ c _ => c

/-- The balance updates of the call are exact on the database: the amount and the
balances it touches are finite, and the sum or difference that the call stores is a
`float64` value, so that `+` and `-` deliver it unrounded. -/
def Call.Exact (db : Db) : Call → Prop
  | .deposit u a c _ =>
    ∃ x y : ℚ, db.balance u c = .fin x ∧ a = .fin y ∧ F64.Representable (x + y)
  | .withdraw u a c _ =>
    ∃ x y : ℚ, db.balance u c = .fin x ∧ a = .fin y ∧ F64.Representable (x - y)
  | .transfer u v a c _ =>
    ∃ x z y : ℚ, db.balance u c = .fin x ∧ db.balance v c = .fin z ∧ a = .fin y
      ∧ F64.Representable (x - y) ∧ F64.Representable (z + y)

/-- Every successful call of the run is exact on the database it is applied to. -/
def ExactRun (db : Db) : List (Env × Call) → Prop
  | [] => True
  | (env, c) :: rest =>
    ((c.run env db).2 = none → c.Exact db) ∧ ExactRun (c.run env db).1 rest

/-- The sum of all balance amounts in a currency, over all accounts, as a number; a row
whose amount is NaN or an infinity adds nothing. -/
def Db.total (db : Db) (currency : String) : ℚ :=
  ((db.balances.filter fun b => decide (b.Currency = currency)).map fun b =>
    b.Amount.toRat).sum

/-- The change a successful call makes to the sum of the balances in `currency` when its
updates are exact: the amount for a deposit in that currency, minus the amount for a
withdrawal in it, nothing for a transfer or for a call in another currency. -/
def Call.delta (currency : String) : Call → ℚ
  | .deposit _ a c _ => if c = currency then a.toRat else 0
  | .withdraw _ a c _ => if c = currency then -a.toRat else 0
  | .transfer _ _ _ _ _ => 0

/-- Every amount in the ledger is finite. -/
def Db.FiniteLedger (db : Db) : Prop := ∀ t ∈ db.transactions, t.Amount.isFinite = true

instance Db.decidableFiniteLedger (db : Db) : Decidable db.FiniteLedger :=
  inferInstanceAs (Decidable (∀ t ∈ db.transactions, t.Amount.isFinite = true))

/-- What one ledger row adds to the sum that `TransactionRepository.GetBalanceAtTime` asks
the database for, as a number: nothing when the `WHERE` clause rejects the row, the
value of the `CASE` expression otherwise. -/
def entryEffect (userID : UUID) (currency : String) (atTime : Time) (t : Transaction) : ℚ :=
  if (t.UserID = userID ∨ t.RecipientID = some userID) ∧ t.Currency = currency
      ∧ t.CreatedAt ≤ atTime then
    if t.Type_ = TransactionTypeDeposit
        ∨ (t.Type_ = TransactionTypeTransfer ∧ t.RecipientID = some userID)
    then t.Amount.toRat else -t.Amount.toRat
  else 0

/-- The exact sum of the ledger for `(userID, currency)` up to `atTime`. -/
def ledgerSum (db : Db) (userID : UUID) (currency : String) (atTime : Time) : ℚ :=
  (db.transactions.map (entryEffect userID currency atTime)).sum

/-- The table is sound, the ledger amounts are finite, and every stored balance is the
exact sum of the ledger for its pair, which is a `float64` value. -/
def Db.Settled (db : Db) (T : Time) : Prop :=
  db.WF ∧ db.FiniteLedger
    ∧ ∀ (u : UUID) (c : String),
        db.balance u c = .fin (ledgerSum db u c T)
        ∧ F64.round (ledgerSum db u c T) = .fin (ledgerSum db u c T)

/-- The round trip on `(userID, currency)`: `TransactionService.Deposit` of `amount`
succeeds, the `TransactionService.Withdraw` of `amount` that follows it succeeds, the
stored balance of the pair ends where it started, and the ledger ends as the ledger it
started from followed by the deposit row and the withdrawal row, two rows longer. -/
def Db.RoundTrips (db : Db) (env1 env2 : Env) (userID : UUID) (amount : F64)
    (currency description1 description2 : String) : Prop :=
  (TransactionService.Deposit env1 db userID amount currency description1).2 = none
  ∧ (TransactionService.Withdraw env2
      (TransactionService.Deposit env1 db userID amount currency description1).1
      userID amount currency description2).2 = none
  ∧ (TransactionService.Withdraw env2
      (TransactionService.Deposit env1 db userID amount currency description1).1
      userID amount currency description2).1.balance userID currency
      = db.balance userID currency
  ∧ (TransactionService.Withdraw env2
      (TransactionService.Deposit env1 db userID amount currency description1).1
      userID amount currency description2).1.transactions
      = db.transactions ++ [depositEntry env1 userID amount currency description1,
          withdrawEntry env2 userID amount currency description2]
  ∧ (TransactionService.Withdraw env2
      (TransactionService.Deposit env1 db userID amount currency description1).1
      userID amount currency description2).1.transactions.length
      = db.transactions.length + 2

/-- Go `int` arithmetic on the 64-bit platforms the server is built for: the result of an
operation is the exact result reduced to the range from `-2 ^ 63` to `2 ^ 63 - 1`
(two's complement). -/
def wrapInt (x : Int) : Int := (x + 2 ^ 63) % 2 ^ 64 - 2 ^ 63

/-- The order `ORDER BY created_at DESC` asks for: `a` may come before `b`. -/
def newestFirst (a b : Transaction) : Prop := b.CreatedAt ≤ a.CreatedAt

instance newestFirst.decidableRel : DecidableRel newestFirst :=
  fun a b => inferInstanceAs (Decidable (b.CreatedAt ≤ a.CreatedAt))

instance newestFirst.isTotal : IsTotal Transaction newestFirst :=
  ⟨fun a b => le_total b.CreatedAt a.CreatedAt⟩

instance newestFirst.isTrans : IsTrans Transaction newestFirst :=
  ⟨fun _ _ _ hab hbc => le_trans hbc hab⟩

/-- The order in which the database hands out the rows of one query with
`ORDER BY created_at DESC`.  The clause fixes the order of rows with different
`created_at` and leaves rows with equal `created_at` to the database, which may place
them differently from one query to the next. -/
abbrev RowOrder := List Transaction → List Transaction

/-- What `ORDER BY created_at DESC` guarantees of the order of a query: the rows handed
out are the rows selected, each once, newest first. -/
def RowOrder.Lawful (order : RowOrder) : Prop :=
  ∀ rows : List Transaction, (order rows).Perm rows ∧ (order rows).Pairwise newestFirst

/-- An order a database may use: newest first, rows with equal `created_at` in storage
order. -/
def storageOrder : RowOrder := fun rows => rows.insertionSort newestFirst

/-- Another order a database may use: newest first, rows with equal `created_at` in the
reverse of the storage order. -/
def reverseStorageOrder : RowOrder := fun rows => rows.reverse.insertionSort newestFirst

/-- Clauses `Offset(offset).Limit(limit)` as gorm builds them: `OFFSET` is emitted only
for a positive offset, `LIMIT` only for a non-negative limit. -/
def offsetLimit (offset limit : Int) (rows : List Transaction) : List Transaction :=
  let rows := if 0 < offset then rows.drop offset.toNat else rows
  if 0 ≤ limit then rows.take limit.toNat else rows

/-- The ledger rows whose owner or recipient is the user. -/
def entriesOf (db : Db) (userID : UUID) : List Transaction :=
  db.transactions.filter fun t => decide (t.UserID = userID ∨ t.RecipientID = some userID)

/-- Method `TransactionRepository.GetByUserID`: the page of rows and the total count, with
the order the database uses for this query. -/
def TransactionRepository.GetByUserID (order : RowOrder) (db : Db) (userID : UUID)
    (page pageSize : Int) : List Transaction × Nat :=
  let rows := db.transactions.filter fun t =>
    decide (t.UserID = userID ∨ t.RecipientID = some userID)
  let offset := wrapInt (wrapInt (page - 1) * pageSize)
  (offsetLimit offset pageSize (order rows), rows.length)

/-- Method `TransactionRepository.GetAll`: the page of rows and the total count, with the
order the database uses for this query. -/
def TransactionRepository.GetAll (order : RowOrder) (db : Db) (page pageSize : Int) :
    List Transaction × Nat :=
  let offset := wrapInt (wrapInt (page - 1) * pageSize)
  (offsetLimit offset pageSize (order db.transactions), db.transactions.length)

/-- The first `n` pages of `TransactionRepository.GetByUserID`, one after the other, page
`i + 1` coming from a query of its own with the order `orders i`. -/
def userPages (orders : Nat → RowOrder) (db : Db) (userID : UUID) (pageSize : Int) :
    Nat → List Transaction
  | 0 => []
  | n + 1 =>
    userPages orders db userID pageSize n
      ++ (TransactionRepository.GetByUserID (orders n) db userID ((n : Int) + 1) pageSize).1

/-- The first `n` pages of `TransactionRepository.GetAll`, one after the other, page
`i + 1` coming from a query of its own with the order `orders i`. -/
def allPages (orders : Nat → RowOrder) (db : Db) (pageSize : Int) : Nat → List Transaction
  | 0 => []
  | n + 1 =>
    allPages orders db pageSize n
      ++ (TransactionRepository.GetAll (orders n) db ((n : Int) + 1) pageSize).1

/-- A ledger row of account 1 created at the given instant under the given
identifier. -/
def entryAt (id : UUID) (createdAt : Time) : Transaction :=
  { ID := id, UserID := 1, Type_ := TransactionTypeDeposit, Amount := .fin 1, Currency := "EUR",
    RecipientID := none, Description := "", Status := "completed", CreatedAt := createdAt,
    UpdatedAt := createdAt }

end Machine

/-! ## Rows and tables -/

theorem find?_saveRow (b : Balance) (u : UUID) (c : String) (rows : List Balance) :
    (saveRow b rows).find? (fun r => decide (r.UserID = u ∧ r.Currency = c))
      = if b.UserID = u ∧ b.Currency = c then some b
        else rows.find? (fun r => decide (r.UserID = u ∧ r.Currency = c)) := by
  induction rows with
  | nil =>
    by_cases h : b.UserID = u ∧ b.Currency = c <;> simp [saveRow, List.find?, h]
  | cons r rs ih =>
    by_cases hr : r.UserID = b.UserID ∧ r.Currency = b.Currency
    · by_cases h : b.UserID = u ∧ b.Currency = c
      · simp [saveRow, hr, List.find?, h]
      · have h' : ¬ (r.UserID = u ∧ r.Currency = c) := by
          rw [hr.1, hr.2]; exact h
        simp [saveRow, hr, List.find?, h, h']
    · by_cases hk : r.UserID = u ∧ r.Currency = c
      · have h : ¬ (b.UserID = u ∧ b.Currency = c) := by
          rintro ⟨h1, h2⟩
          exact hr ⟨hk.1.trans h1.symm, hk.2.trans h2.symm⟩
        rw [saveRow, if_neg hr, if_neg h, List.find?_cons_of_pos _ (by simpa using hk),
          List.find?_cons_of_pos _ (by simpa using hk)]
      · rw [saveRow, if_neg hr, List.find?_cons_of_neg _ (by simpa using hk),
          List.find?_cons_of_neg _ (by simpa using hk)]
        exact ih

theorem First_key {db : Db} {u : UUID} {c : String} {b : Balance}
    (h : db.First u c = some b) : b.UserID = u ∧ b.Currency = c := by
  have := List.find?_some h
  simpa using this

theorem First_mem {db : Db} {u : UUID} {c : String} {b : Balance}
    (h : db.First u c = some b) : b ∈ db.balances :=
  List.mem_of_find?_eq_some h

/-! ## What each movement does -/

theorem First_mk (l : List Transaction) (db : Db) (u : UUID) (c : String) :
    Db.First ⟨l, db.balances⟩ u c = db.First u c := rfl

theorem Deposit_of_pos (env : Env) (db : Db) (u : UUID) (a : Int) (c d : String)
    (ha : 0 < a) :
    TransactionService.Deposit env db u a c d
      = (⟨db.transactions ++ [depositEntry env u a c d],
          saveRow ⟨u, c, db.balance u c + a⟩ db.balances⟩, none) := by
  have hna : ¬ a ≤ 0 := not_le.mpr ha
  cases hF : db.First u c with
  | none =>
    simp [TransactionService.Deposit, TransactionService.Create, Transaction.Validate,
      TransactionRepository.Create, Db.Transaction, createBody, updateSenderBalance,
      updateRecipientBalance, updateDepositBalance, Transaction.inserted, hna,
      TransactionTypeDeposit, TransactionTypeWithdraw, TransactionTypeTransfer, Except.bind,
      Db.Create, Db.Save, Db.balance, First_mk, Balance.Add, depositEntry, uuidNil, zeroTime,
      hF]
  | some b =>
    obtain ⟨h1, h2⟩ := First_key hF
    simp [TransactionService.Deposit, TransactionService.Create, Transaction.Validate,
      TransactionRepository.Create, Db.Transaction, createBody, updateSenderBalance,
      updateRecipientBalance, updateDepositBalance, Transaction.inserted, hna,
      TransactionTypeDeposit, TransactionTypeWithdraw, TransactionTypeTransfer, Except.bind,
      Db.Create, Db.Save, Db.balance, First_mk, Balance.Add, depositEntry, uuidNil, zeroTime,
      hF, h1, h2]

theorem First_mk_saveRow (l : List Transaction) (db : Db) (b : Balance) (u : UUID)
    (c : String) :
    Db.First ⟨l, saveRow b db.balances⟩ u c
      = if b.UserID = u ∧ b.Currency = c then some b else db.First u c :=
  find?_saveRow b u c db.balances

theorem Deposit_of_nonpos (env : Env) (db : Db) (u : UUID) (a : Int) (c d : String)
    (ha : a ≤ 0) :
    TransactionService.Deposit env db u a c d = (db, some Error.ErrInvalidAmount) := by
  simp [TransactionService.Deposit, TransactionService.Create, Transaction.Validate, ha]

theorem Withdraw_of_nonpos (env : Env) (db : Db) (u : UUID) (a : Int) (c d : String)
    (ha : a ≤ 0) :
    TransactionService.Withdraw env db u a c d = (db, some Error.ErrInvalidAmount) := by
  simp [TransactionService.Withdraw, TransactionService.Create, Transaction.Validate, ha]

theorem Transfer_of_nonpos (env : Env) (db : Db) (u v : UUID) (a : Int) (c d : String)
    (hne : u ≠ v) (ha : a ≤ 0) :
    TransactionService.Transfer env db u v a c d = (db, some Error.ErrInvalidAmount) := by
  simp [TransactionService.Transfer, TransactionService.Create, Transaction.Validate, ha,
    hne]

theorem Transfer_self (env : Env) (db : Db) (u : UUID) (a : Int) (c d : String) :
    TransactionService.Transfer env db u u a c d
      = (db, some (Error.New "cannot transfer to the same account")) := by
  simp [TransactionService.Transfer]

theorem Withdraw_of_lt (env : Env) (db : Db) (u : UUID) (a : Int) (c d : String)
    (ha : 0 < a) (hlt : db.balance u c < a) :
    TransactionService.Withdraw env db u a c d = (db, some Error.ErrInsufficientFunds) := by
  have hna : ¬ a ≤ 0 := not_le.mpr ha
  cases hF : db.First u c with
  | none =>
    simp [TransactionService.Withdraw, TransactionService.Create, Transaction.Validate,
      TransactionRepository.Create, Db.Transaction, createBody, updateSenderBalance,
      Transaction.inserted, hna, TransactionTypeWithdraw, TransactionTypeTransfer,
      Except.bind, Db.Create, First_mk, hF]
  | some b =>
    have hb : b.Amount < a := by simpa [Db.balance, hF] using hlt
    simp [TransactionService.Withdraw, TransactionService.Create, Transaction.Validate,
      TransactionRepository.Create, Db.Transaction, createBody, updateSenderBalance,
      Transaction.inserted, hna, TransactionTypeWithdraw, TransactionTypeTransfer,
      Except.bind, Db.Create, First_mk, hF, Balance.Subtract, hb]

theorem Withdraw_of_le (env : Env) (db : Db) (u : UUID) (a : Int) (c d : String)
    (ha : 0 < a) (hle : a ≤ db.balance u c) :
    TransactionService.Withdraw env db u a c d
      = (⟨db.transactions ++ [withdrawEntry env u a c d],
          saveRow ⟨u, c, db.balance u c - a⟩ db.balances⟩, none) := by
  have hna : ¬ a ≤ 0 := not_le.mpr ha
  cases hF : db.First u c with
  | none =>
    have : a ≤ 0 := by simpa [Db.balance, hF] using hle
    exact absurd this hna
  | some b =>
    obtain ⟨h1, h2⟩ := First_key hF
    have hb : ¬ b.Amount < a := by
      have : a ≤ b.Amount := by simpa [Db.balance, hF] using hle
      exact not_lt.mpr this
    simp [TransactionService.Withdraw, TransactionService.Create, Transaction.Validate,
      TransactionRepository.Create, Db.Transaction, createBody, updateSenderBalance,
      updateRecipientBalance, updateDepositBalance, Transaction.inserted, hna,
      TransactionTypeDeposit, TransactionTypeWithdraw, TransactionTypeTransfer, Except.bind,
      Db.Create, Db.Save, Db.balance, First_mk, Balance.Subtract, withdrawEntry, uuidNil,
      zeroTime, hF, h1, h2, hb]

theorem Transfer_of_lt (env : Env) (db : Db) (u v : UUID) (a : Int) (c d : String)
    (hne : u ≠ v) (ha : 0 < a) (hlt : db.balance u c < a) :
    TransactionService.Transfer env db u v a c d
      = (db, some Error.ErrInsufficientFunds) := by
  have hna : ¬ a ≤ 0 := not_le.mpr ha
  cases hF : db.First u c with
  | none =>
    simp [TransactionService.Transfer, TransactionService.Create, Transaction.Validate,
      TransactionRepository.Create, Db.Transaction, createBody, updateSenderBalance,
      Transaction.inserted, hna, hne, TransactionTypeWithdraw, TransactionTypeTransfer,
      Except.bind, Db.Create, First_mk, hF]
  | some b =>
    have hb : b.Amount < a := by simpa [Db.balance, hF] using hlt
    simp [TransactionService.Transfer, TransactionService.Create, Transaction.Validate,
      TransactionRepository.Create, Db.Transaction, createBody, updateSenderBalance,
      Transaction.inserted, hna, hne, TransactionTypeWithdraw, TransactionTypeTransfer,
      Except.bind, Db.Create, First_mk, hF, Balance.Subtract, hb]

theorem Transfer_of_le (env : Env) (db : Db) (u v : UUID) (a : Int) (c d : String)
    (hne : u ≠ v) (ha : 0 < a) (hle : a ≤ db.balance u c) :
    TransactionService.Transfer env db u v a c d
      = (⟨db.transactions ++ [transferEntry env u v a c d],
          saveRow ⟨v, c, db.balance v c + a⟩
            (saveRow ⟨u, c, db.balance u c - a⟩ db.balances)⟩, none) := by
  have hna : ¬ a ≤ 0 := not_le.mpr ha
  cases hF : db.First u c with
  | none =>
    have : a ≤ 0 := by simpa [Db.balance, hF] using hle
    exact absurd this hna
  | some b =>
    obtain ⟨h1, h2⟩ := First_key hF
    have hb : ¬ b.Amount < a := by
      have : a ≤ b.Amount := by simpa [Db.balance, hF] using hle
      exact not_lt.mpr this
    cases hG : db.First v c with
    | none =>
      simp [TransactionService.Transfer, TransactionService.Create, Transaction.Validate,
        TransactionRepository.Create, Db.Transaction, createBody, updateSenderBalance,
        updateRecipientBalance, updateDepositBalance, Transaction.inserted, hna, hne,
        TransactionTypeDeposit, TransactionTypeWithdraw, TransactionTypeTransfer,
        Except.bind, Db.Create, Db.Save, Db.balance, First_mk, First_mk_saveRow,
        Balance.Subtract, Balance.Add, transferEntry, uuidNil, zeroTime, hF, hG, h1, h2, hb]
    | some r =>
      obtain ⟨g1, g2⟩ := First_key hG
      simp [TransactionService.Transfer, TransactionService.Create, Transaction.Validate,
        TransactionRepository.Create, Db.Transaction, createBody, updateSenderBalance,
        updateRecipientBalance, updateDepositBalance, Transaction.inserted, hna, hne,
        TransactionTypeDeposit, TransactionTypeWithdraw, TransactionTypeTransfer,
        Except.bind, Db.Create, Db.Save, Db.balance, First_mk, First_mk_saveRow,
        Balance.Subtract, Balance.Add, transferEntry, uuidNil, zeroTime, hF, hG, h1, h2,
        g1, g2, hb]

/-! ## Reading the ledger -/

theorem GetBalanceAtTime_eq_sum (db : Db) (u : UUID) (c : String) (T : Time) :
    TransactionRepository.GetBalanceAtTime db u c T
      = (db.transactions.map (entryEffect u c T)).sum := by
  unfold TransactionRepository.GetBalanceAtTime
  induction db.transactions with
  | nil => rfl
  | cons t ts ih =>
    by_cases h : (t.UserID = u ∨ t.RecipientID = some u) ∧ t.Currency = c ∧ t.CreatedAt ≤ T
    · rw [List.filter_cons_of_pos (by simpa using h)]
      simp only [List.map_cons, List.sum_cons, ih, entryEffect, if_pos h]
    · rw [List.filter_cons_of_neg (by simpa using h)]
      simp only [List.map_cons, List.sum_cons, ih, entryEffect, if_neg h, zero_add]

theorem balance_mk_saveRow (l l' : List Transaction) (bs : List Balance) (b : Balance)
    (u : UUID) (c : String) :
    Db.balance ⟨l, saveRow b bs⟩ u c
      = if b.UserID = u ∧ b.Currency = c then b.Amount else Db.balance ⟨l', bs⟩ u c := by
  unfold Db.balance Db.First
  rw [find?_saveRow]
  by_cases h : b.UserID = u ∧ b.Currency = c <;> simp [h]

/-! ## The ledger under `Create` -/

theorem updateSenderBalance_transactions {tx : Transaction} {db db' : Db}
    (h : updateSenderBalance tx db = .ok db') : db'.transactions = db.transactions := by
  unfold updateSenderBalance at h
  split at h
  · split at h
    · cases h
    · split at h
      · cases h
      · cases h; rfl
  · cases h; rfl

theorem updateRecipientBalance_transactions {tx : Transaction} {db db' : Db}
    (h : updateRecipientBalance tx db = .ok db') : db'.transactions = db.transactions := by
  unfold updateRecipientBalance at h
  split at h
  · split at h
    · cases h; rfl
    · cases h; rfl
  · cases h; rfl

theorem updateDepositBalance_transactions {tx : Transaction} {db db' : Db}
    (h : updateDepositBalance tx db = .ok db') : db'.transactions = db.transactions := by
  unfold updateDepositBalance at h
  split at h
  · cases h; rfl
  · cases h; rfl

theorem createBody_transactions {env : Env} {tx : Transaction} {db db' : Db}
    (h : createBody env tx db = .ok db') :
    db'.transactions = db.transactions ++ [tx.inserted env] := by
  unfold createBody at h
  simp only at h
  cases h1 : updateSenderBalance (tx.inserted env) (db.Create env tx) with
  | error e => rw [h1] at h; cases h
  | ok d1 =>
    rw [h1] at h
    simp only [Except.bind] at h
    cases h2 : updateRecipientBalance (tx.inserted env) d1 with
    | error e => rw [h2] at h; cases h
    | ok d2 =>
      rw [h2] at h
      simp only at h
      rw [updateDepositBalance_transactions h, updateRecipientBalance_transactions h2,
        updateSenderBalance_transactions h1]
      rfl

theorem RepositoryCreate_error {env : Env} {db : Db} {tx : Transaction} {err : Error}
    (h : (TransactionRepository.Create env db tx).2 = some err) :
    (TransactionRepository.Create env db tx).1 = db := by
  unfold TransactionRepository.Create Db.Transaction at h ⊢
  cases hb : createBody env tx db with
  | error e => rfl
  | ok d => rw [hb] at h; cases h

theorem RepositoryCreate_ok {env : Env} {db : Db} {tx : Transaction}
    (h : (TransactionRepository.Create env db tx).2 = none) :
    (TransactionRepository.Create env db tx).1.transactions
      = db.transactions ++ [tx.inserted env] := by
  unfold TransactionRepository.Create Db.Transaction at h ⊢
  cases hb : createBody env tx db with
  | error e => rw [hb] at h; cases h
  | ok d => exact createBody_transactions hb

theorem ServiceCreate_error {env : Env} {db : Db} {tx : Transaction} {err : Error}
    (h : (TransactionService.Create env db tx).2 = some err) :
    (TransactionService.Create env db tx).1 = db := by
  unfold TransactionService.Create at h ⊢
  cases hv : tx.Validate with
  | some e => rfl
  | none =>
    rw [hv] at h
    exact RepositoryCreate_error h

theorem ServiceCreate_ok {env : Env} {db : Db} {tx : Transaction}
    (h : (TransactionService.Create env db tx).2 = none) :
    (TransactionService.Create env db tx).1.transactions
      = db.transactions ++ [tx.inserted env] := by
  unfold TransactionService.Create at h ⊢
  cases hv : tx.Validate with
  | some e => rw [hv] at h; cases h
  | none =>
    rw [hv] at h
    exact RepositoryCreate_ok h

/-! ## Rejected movements -/

/-- Claim C2.  In every state, when the amount is positive and exceeds the stored balance
of the source account in the currency (zero when the pair has no row),
`TransactionService.Withdraw` and `TransactionService.Transfer` to a different account
both return `ErrInsufficientFunds` and give back the database they started from: the
ledger and every balance row are the same, and no recipient row is created. -/
theorem overdraw_fails_and_changes_nothing (env : Env) (db : Db) (userID toUserID : UUID)
    (amount : Int) (currency description : String) (hpos : 0 < amount)
    (hexceeds : db.balance userID currency < amount) (hother : toUserID ≠ userID) :
    TransactionService.Withdraw env db userID amount currency description
        = (db, some Error.ErrInsufficientFunds)
    ∧ TransactionService.Transfer env db userID toUserID amount currency description
        = (db, some Error.ErrInsufficientFunds) :=
  ⟨Withdraw_of_lt env db userID amount currency description hpos hexceeds,
    Transfer_of_lt env db userID toUserID amount currency description
      (fun e => hother e.symm) hpos hexceeds⟩

theorem overdraw_fails_and_changes_nothing_witness :
    (0 : Int) < 7000
    ∧ (Db.mk [] [⟨1, "EUR", 6000⟩]).balance 1 "EUR" < 7000
    ∧ (2 : UUID) ≠ 1
    ∧ TransactionService.Withdraw ⟨7, 3⟩ (Db.mk [] [⟨1, "EUR", 6000⟩]) 1 7000 "EUR" "x"
        = (Db.mk [] [⟨1, "EUR", 6000⟩], some Error.ErrInsufficientFunds)
    ∧ TransactionService.Transfer ⟨7, 3⟩ (Db.mk [] [⟨1, "EUR", 6000⟩]) 1 2 7000 "EUR" "x"
        = (Db.mk [] [⟨1, "EUR", 6000⟩], some Error.ErrInsufficientFunds) :=
  ⟨by decide, by decide, by decide,
    overdraw_fails_and_changes_nothing ⟨7, 3⟩ (Db.mk [] [⟨1, "EUR", 6000⟩]) 1 2 7000 "EUR" "x"
      (by decide) (by decide) (by decide)⟩

theorem Call.run_error {env : Env} {db : Db} {call : Call} {err : Error}
    (h : (call.run env db).2 = some err) : (call.run env db).1 = db := by
  cases call with
  | deposit u a c d => exact ServiceCreate_error h
  | withdraw u a c d => exact ServiceCreate_error h
  | transfer u v a c d =>
    change (TransactionService.Transfer env db u v a c d).2 = some err at h
    show (TransactionService.Transfer env db u v a c d).1 = db
    unfold TransactionService.Transfer at h ⊢
    by_cases huv : u = v
    · rw [if_pos huv]
    · rw [if_neg huv] at h ⊢; exact ServiceCreate_error h

/-- Claim C3.  In every state and for every transaction, when `TransactionService.Create`
returns an error the database it gives back is the one it was given: the ledger and
every balance row are as before, so no entry is left without its balance effects and no
debit without its credit.  The same holds for `Deposit`, `Withdraw` and `Transfer`. -/
theorem error_leaves_database_unchanged (env : Env) (db : Db) :
    (∀ (transaction : Transaction) (err : Error),
        (TransactionService.Create env db transaction).2 = some err →
        (TransactionService.Create env db transaction).1 = db)
    ∧ (∀ (call : Call) (err : Error),
        (call.run env db).2 = some err → (call.run env db).1 = db) :=
  ⟨fun _ _ h => ServiceCreate_error h, fun _ _ h => Call.run_error h⟩

theorem error_leaves_database_unchanged_witness :
    (TransactionService.Create ⟨7, 3⟩ (Db.mk [] [⟨1, "EUR", 6000⟩, ⟨2, "EUR", 100⟩])
        (transferEntry ⟨0, 0⟩ 1 2 7000 "EUR" "x")).2 = some Error.ErrInsufficientFunds
    ∧ (TransactionService.Create ⟨7, 3⟩ (Db.mk [] [⟨1, "EUR", 6000⟩, ⟨2, "EUR", 100⟩])
        (transferEntry ⟨0, 0⟩ 1 2 7000 "EUR" "x")).1
        = Db.mk [] [⟨1, "EUR", 6000⟩, ⟨2, "EUR", 100⟩] :=
  ⟨by decide,
    (error_leaves_database_unchanged ⟨7, 3⟩ (Db.mk [] [⟨1, "EUR", 6000⟩, ⟨2, "EUR", 100⟩])).1
      (transferEntry ⟨0, 0⟩ 1 2 7000 "EUR" "x") Error.ErrInsufficientFunds (by decide)⟩

/-! ## Balances never go below zero -/

theorem mem_saveRow {b x : Balance} {rows : List Balance} (h : x ∈ saveRow b rows) :
    x = b ∨ x ∈ rows := by
  induction rows with
  | nil => left; simpa [saveRow] using h
  | cons r rs ih =>
    unfold saveRow at h
    split at h
    · rcases List.mem_cons.mp h with h | h
      · exact Or.inl h
      · exact Or.inr (List.mem_cons_of_mem _ h)
    · rcases List.mem_cons.mp h with h | h
      · exact Or.inr (h ▸ List.mem_cons_self _ _)
      · rcases ih h with h | h
        · exact Or.inl h
        · exact Or.inr (List.mem_cons_of_mem _ h)

theorem balance_nonneg {db : Db} (h : db.NonNegative) (u : UUID) (c : String) :
    0 ≤ db.balance u c := by
  unfold Db.balance
  cases hF : db.First u c with
  | none => exact le_refl 0
  | some b => exact h b (First_mem hF)

theorem nonNegative_saveRow (l k : List Transaction) {bs : List Balance} {b : Balance}
    (h : Db.NonNegative ⟨l, bs⟩) (hb : 0 ≤ b.Amount) : Db.NonNegative ⟨k, saveRow b bs⟩ := by
  intro x hx
  rcases mem_saveRow hx with rfl | hx
  · exact hb
  · exact h x hx

theorem Call.run_nonNegative (env : Env) (db : Db) (call : Call) (h : db.NonNegative) :
    (call.run env db).1.NonNegative := by
  cases call with
  | deposit u a c d =>
    by_cases ha : 0 < a
    · simp only [Call.run, Deposit_of_pos env db u a c d ha]
      have hb := balance_nonneg h u c
      exact nonNegative_saveRow db.transactions _ h (by show 0 ≤ db.balance u c + a; omega)
    · simp only [Call.run, Deposit_of_nonpos env db u a c d (not_lt.mp ha)]
      exact h
  | withdraw u a c d =>
    by_cases ha : 0 < a
    · by_cases hle : a ≤ db.balance u c
      · simp only [Call.run, Withdraw_of_le env db u a c d ha hle]
        exact nonNegative_saveRow db.transactions _ h
          (by show 0 ≤ db.balance u c - a; omega)
      · simp only [Call.run, Withdraw_of_lt env db u a c d ha (not_le.mp hle)]
        exact h
    · simp only [Call.run, Withdraw_of_nonpos env db u a c d (not_lt.mp ha)]
      exact h
  | transfer u v a c d =>
    by_cases hne : u = v
    · subst hne
      simp only [Call.run, Transfer_self]
      exact h
    · by_cases ha : 0 < a
      · by_cases hle : a ≤ db.balance u c
        · simp only [Call.run, Transfer_of_le env db u v a c d hne ha hle]
          have hb := balance_nonneg h v c
          exact nonNegative_saveRow db.transactions _
            (nonNegative_saveRow db.transactions db.transactions h
              (by show 0 ≤ db.balance u c - a; omega))
            (by show 0 ≤ db.balance v c + a; omega)
        · simp only [Call.run, Transfer_of_lt env db u v a c d hne ha (not_le.mp hle)]
          exact h
      · simp only [Call.run, Transfer_of_nonpos env db u v a c d hne (not_lt.mp ha)]
        exact h

theorem runCalls_nonNegative (calls : List (Env × Call)) :
    ∀ (db : Db), db.NonNegative → (runCalls db calls).NonNegative := by
  induction calls with
  | nil => intro db h; exact h
  | cons p rest ih =>
    intro db h
    obtain ⟨env, c⟩ := p
    exact ih _ (Call.run_nonNegative env db c h)

/-- Claim C4.  In every state reached from the empty state by
`TransactionService.Deposit`, `Withdraw` and `Transfer` calls every balance row holds a
non-negative amount; and each such call, whether it succeeds or fails, takes a database
whose balance rows are all non-negative to one whose rows are all non-negative. -/
theorem balances_stay_nonNegative :
    (∀ calls : List (Env × Call), (runCalls Db.empty calls).NonNegative)
    ∧ (∀ (env : Env) (db : Db) (call : Call),
        db.NonNegative → (call.run env db).1.NonNegative) :=
  ⟨fun calls => runCalls_nonNegative calls Db.empty (fun _ hb => by cases hb),
    Call.run_nonNegative⟩

theorem balances_stay_nonNegative_witness :
    (Db.mk [] [⟨1, "EUR", 6000⟩]).NonNegative
    ∧ ((Call.withdraw 1 6000 "EUR" "all").run ⟨7, 3⟩ (Db.mk [] [⟨1, "EUR", 6000⟩])).1.NonNegative :=
  ⟨by decide,
    balances_stay_nonNegative.2 ⟨7, 3⟩ (Db.mk [] [⟨1, "EUR", 6000⟩])
      (Call.withdraw 1 6000 "EUR" "all") (by decide)⟩

/-! ## Transfers to the same account -/

/-- Claim C5.  For every account, amount of any sign, currency and description,
`TransactionService.Transfer` from the account to itself returns the error
"cannot transfer to the same account", which is none of `ErrInvalidAmount`,
`ErrMissingRecipient` and `ErrInsufficientFunds`, and gives back the database it was
given: the repository is not reached, ledger and balances are unchanged. -/
theorem transfer_to_self_rejected (env : Env) (db : Db) (userID : UUID) (amount : Int)
    (currency description : String) :
    TransactionService.Transfer env db userID userID amount currency description
        = (db, some (Error.New "cannot transfer to the same account"))
    ∧ Error.New "cannot transfer to the same account" ≠ Error.ErrInvalidAmount
    ∧ Error.New "cannot transfer to the same account" ≠ Error.ErrMissingRecipient
    ∧ Error.New "cannot transfer to the same account" ≠ Error.ErrInsufficientFunds :=
  ⟨Transfer_self env db userID amount currency description,
    by simp, by simp, by simp⟩

/-! ## The point-in-time balance -/

theorem entryEffect_of_regular (A : UUID) (C : String) (T : Time) (t : Transaction)
    (h : t.Regular) :
    entryEffect A C T t = if t.Currency = C ∧ t.CreatedAt ≤ T then specEffect A t else 0 := by
  by_cases hcT : t.Currency = C ∧ t.CreatedAt ≤ T
  · rw [if_pos hcT]
    rcases h with ⟨hty, hrec⟩ | ⟨hty, hrec⟩
    · rcases hty with hty | hty
      · by_cases hu : t.UserID = A <;>
          simp [entryEffect, specEffect, hty, hrec, hcT.1, hcT.2, hu, TransactionTypeDeposit,
            TransactionTypeWithdraw, TransactionTypeTransfer]
      · by_cases hu : t.UserID = A <;>
          simp [entryEffect, specEffect, hty, hrec, hcT.1, hcT.2, hu, TransactionTypeDeposit,
            TransactionTypeWithdraw, TransactionTypeTransfer]
    · by_cases hr : t.RecipientID = some A
      · simp [entryEffect, specEffect, hty, hr, hcT.1, hcT.2, TransactionTypeDeposit,
          TransactionTypeWithdraw, TransactionTypeTransfer]
      · by_cases hu : t.UserID = A <;>
          simp [entryEffect, specEffect, hty, hr, hcT.1, hcT.2, hu, TransactionTypeDeposit,
            TransactionTypeWithdraw, TransactionTypeTransfer]
  · rw [if_neg hcT]
    unfold entryEffect
    rw [if_neg]
    rintro ⟨_, h1, h2⟩
    exact hcT ⟨h1, h2⟩

theorem specBalanceAt_eq_sum (l : List Transaction) (A : UUID) (C : String) (T : Time) :
    specBalanceAt l A C T
      = (l.map fun t => if t.Currency = C ∧ t.CreatedAt ≤ T then specEffect A t else 0).sum := by
  unfold specBalanceAt
  induction l with
  | nil => rfl
  | cons t ts ih =>
    by_cases h : t.Currency = C ∧ t.CreatedAt ≤ T
    · rw [List.filter_cons_of_pos (by simpa using h)]
      simp only [List.map_cons, List.sum_cons, ih, if_pos h]
    · rw [List.filter_cons_of_neg (by simpa using h)]
      simp only [List.map_cons, List.sum_cons, ih, if_neg h, zero_add]

theorem sum_map_entryEffect_of_regular (A : UUID) (C : String) (T : Time) :
    ∀ l : List Transaction, (∀ t ∈ l, t.Regular) →
      (l.map (entryEffect A C T)).sum
        = (l.map fun t =>
            if t.Currency = C ∧ t.CreatedAt ≤ T then specEffect A t else 0).sum := by
  intro l
  induction l with
  | nil => intro _; rfl
  | cons t ts ih =>
    intro h
    simp only [List.map_cons, List.sum_cons]
    rw [entryEffect_of_regular A C T t (h t (List.mem_cons_self _ _)),
      ih fun x hx => h x (List.mem_cons_of_mem _ hx)]

theorem sum_map_entryEffect_of_no_match (A : UUID) (C : String) (T : Time) :
    ∀ l : List Transaction,
      (∀ t ∈ l, ¬ ((t.UserID = A ∨ t.RecipientID = some A) ∧ t.Currency = C
        ∧ t.CreatedAt ≤ T)) →
      (l.map (entryEffect A C T)).sum = 0 := by
  intro l
  induction l with
  | nil => intro _; rfl
  | cons t ts ih =>
    intro h
    simp only [List.map_cons, List.sum_cons]
    rw [ih fun x hx => h x (List.mem_cons_of_mem _ hx)]
    unfold entryEffect
    rw [if_neg (h t (List.mem_cons_self _ _))]
    rfl

/-- Claim C6 at a ledger with a row that is neither deposit, withdrawal nor transfer.
`TransactionService.Create` accepts `feeRequest` (owner 1, type "fee", 5.00 EUR) on the
empty database and writes the single ledger row `feeEntry` and no balance row, so the
stored balance of account 1 stays 0.  On that ledger
`TransactionRepository.GetBalanceAtTime` for account 1 at time 5 is -5.00, while the sum
the claim describes counts nothing for such a row and is 0. -/
theorem GetBalanceAtTime_debits_unknown_type :
    TransactionService.Create ⟨5, 9⟩ Db.empty feeRequest = (⟨[feeEntry], []⟩, none)
    ∧ (Db.mk [depositEntry ⟨5, 1⟩ 1 100 "EUR" "seed"] []).balance 1 "EUR" = 0
    ∧ TransactionRepository.GetBalanceAtTime ⟨[feeEntry], []⟩ 1 "EUR" 5 = -500
    ∧ specBalanceAt [feeEntry] 1 "EUR" 5 = 0 := by
  decide

/-- On every ledger whose rows are deposits or withdrawals without recipient or transfers
to an account other than their owner, `TransactionRepository.GetBalanceAtTime` equals the
sum the specification describes; on any ledger it is zero when no row passes the
`WHERE` clause. -/
theorem GetBalanceAtTime_eq_specBalanceAt (db : Db) (userID : UUID) (currency : String)
    (atTime : Time) :
    ((∀ t ∈ db.transactions, t.Regular) →
      TransactionRepository.GetBalanceAtTime db userID currency atTime
        = specBalanceAt db.transactions userID currency atTime)
    ∧ ((∀ t ∈ db.transactions, ¬ ((t.UserID = userID ∨ t.RecipientID = some userID)
          ∧ t.Currency = currency ∧ t.CreatedAt ≤ atTime)) →
      TransactionRepository.GetBalanceAtTime db userID currency atTime = 0) := by
  constructor
  · intro h
    rw [GetBalanceAtTime_eq_sum, specBalanceAt_eq_sum]
    exact sum_map_entryEffect_of_regular userID currency atTime db.transactions h
  · intro h
    rw [GetBalanceAtTime_eq_sum]
    exact sum_map_entryEffect_of_no_match userID currency atTime db.transactions h

theorem GetBalanceAtTime_eq_specBalanceAt_witness :
    (∀ t ∈ (Db.mk [depositEntry ⟨5, 1⟩ 1 10000 "EUR" "seed",
        transferEntry ⟨6, 2⟩ 1 2 4000 "EUR" "rent"] []).transactions, t.Regular)
    ∧ TransactionRepository.GetBalanceAtTime
        (Db.mk [depositEntry ⟨5, 1⟩ 1 10000 "EUR" "seed",
          transferEntry ⟨6, 2⟩ 1 2 4000 "EUR" "rent"] []) 1 "EUR" 6
      = specBalanceAt (Db.mk [depositEntry ⟨5, 1⟩ 1 10000 "EUR" "seed",
          transferEntry ⟨6, 2⟩ 1 2 4000 "EUR" "rent"] []).transactions 1 "EUR" 6 :=
  ⟨by decide,
    (GetBalanceAtTime_eq_specBalanceAt
      (Db.mk [depositEntry ⟨5, 1⟩ 1 10000 "EUR" "seed",
        transferEntry ⟨6, 2⟩ 1 2 4000 "EUR" "rent"] []) 1 "EUR" 6).1 (by decide)⟩

/-- Claim C7.  `TransactionRepository.GetBalanceAtTime` reads the ledger only: two
databases with the same ledger rows and any two balance tables give the same amount
for every account, currency and time. -/
theorem GetBalanceAtTime_ignores_balances (ledger : List Transaction)
    (balances1 balances2 : List Balance) (userID : UUID) (currency : String)
    (atTime : Time) :
    TransactionRepository.GetBalanceAtTime ⟨ledger, balances1⟩ userID currency atTime
      = TransactionRepository.GetBalanceAtTime ⟨ledger, balances2⟩ userID currency atTime :=
  rfl

/-! ## Round trip and the worked scenarios -/

/-- Claim C9.  From a state where the distinct accounts `A` and `B` have no EUR balance
row: `Deposit(A, 100.00, "EUR", "seed")` succeeds and leaves `A` with 100.00; then
`Transfer(A, B, 40.00, "EUR", "rent")` succeeds and leaves `A` with 60.00 and `B` with
40.00; then `Withdraw(A, 70.00, "EUR", "too much")` returns `ErrInsufficientFunds`,
`A` still has 60.00, and the ledger holds what it held at the start followed by exactly
the two rows of the deposit and the transfer (so two rows from an empty ledger). -/
theorem scenario_deposit_transfer_overdraw (env1 env2 env3 : Env) (db : Db) (A B : UUID)
    (hAB : A ≠ B) (hA : db.First A "EUR" = none) (hB : db.First B "EUR" = none) :
    (TransactionService.Deposit env1 db A 10000 "EUR" "seed").2 = none
    ∧ (TransactionService.Deposit env1 db A 10000 "EUR" "seed").1.balance A "EUR" = 10000
    ∧ (TransactionService.Transfer env2
        (TransactionService.Deposit env1 db A 10000 "EUR" "seed").1
        A B 4000 "EUR" "rent").2 = none
    ∧ (TransactionService.Transfer env2
        (TransactionService.Deposit env1 db A 10000 "EUR" "seed").1
        A B 4000 "EUR" "rent").1.balance A "EUR" = 6000
    ∧ (TransactionService.Transfer env2
        (TransactionService.Deposit env1 db A 10000 "EUR" "seed").1
        A B 4000 "EUR" "rent").1.balance B "EUR" = 4000
    ∧ (TransactionService.Withdraw env3
        (TransactionService.Transfer env2
          (TransactionService.Deposit env1 db A 10000 "EUR" "seed").1
          A B 4000 "EUR" "rent").1 A 7000 "EUR" "too much").2
        = some Error.ErrInsufficientFunds
    ∧ (TransactionService.Withdraw env3
        (TransactionService.Transfer env2
          (TransactionService.Deposit env1 db A 10000 "EUR" "seed").1
          A B 4000 "EUR" "rent").1 A 7000 "EUR" "too much").1.balance A "EUR" = 6000
    ∧ (TransactionService.Withdraw env3
        (TransactionService.Transfer env2
          (TransactionService.Deposit env1 db A 10000 "EUR" "seed").1
          A B 4000 "EUR" "rent").1 A 7000 "EUR" "too much").1.transactions
        = db.transactions ++ [depositEntry env1 A 10000 "EUR" "seed",
            transferEntry env2 A B 4000 "EUR" "rent"]
    ∧ (db.transactions = [] →
        (TransactionService.Withdraw env3
          (TransactionService.Transfer env2
            (TransactionService.Deposit env1 db A 10000 "EUR" "seed").1
            A B 4000 "EUR" "rent").1 A 7000 "EUR" "too much").1.transactions.length = 2) := by
  have hbA : db.balance A "EUR" = 0 := by simp [Db.balance, hA]
  have hbB : db.balance B "EUR" = 0 := by simp [Db.balance, hB]
  have hBA : ¬ B = A := fun e => hAB e.symm
  rw [Deposit_of_pos env1 db A 10000 "EUR" "seed" (by decide), hbA]
  have h1A : Db.balance ⟨db.transactions ++ [depositEntry env1 A 10000 "EUR" "seed"],
      saveRow ⟨A, "EUR", 0 + 10000⟩ db.balances⟩ A "EUR" = 10000 := by
    rw [balance_mk_saveRow _ db.transactions]; simp
  have h1B : Db.balance ⟨db.transactions ++ [depositEntry env1 A 10000 "EUR" "seed"],
      saveRow ⟨A, "EUR", 0 + 10000⟩ db.balances⟩ B "EUR" = 0 := by
    rw [balance_mk_saveRow _ db.transactions]; simp [hAB, hbB]
  rw [Transfer_of_le env2 _ A B 4000 "EUR" "rent" hAB (by decide) (by rw [h1A]; decide),
    h1A, h1B]
  have h2A : Db.balance ⟨(db.transactions ++ [depositEntry env1 A 10000 "EUR" "seed"])
      ++ [transferEntry env2 A B 4000 "EUR" "rent"],
      saveRow ⟨B, "EUR", 0 + 4000⟩ (saveRow ⟨A, "EUR", 10000 - 4000⟩
        (saveRow ⟨A, "EUR", 0 + 10000⟩ db.balances))⟩ A "EUR" = 6000 := by
    rw [balance_mk_saveRow _ db.transactions, balance_mk_saveRow _ db.transactions]
    simp [hBA]
  have h2B : Db.balance ⟨(db.transactions ++ [depositEntry env1 A 10000 "EUR" "seed"])
      ++ [transferEntry env2 A B 4000 "EUR" "rent"],
      saveRow ⟨B, "EUR", 0 + 4000⟩ (saveRow ⟨A, "EUR", 10000 - 4000⟩
        (saveRow ⟨A, "EUR", 0 + 10000⟩ db.balances))⟩ B "EUR" = 4000 := by
    rw [balance_mk_saveRow _ db.transactions]
    simp
  rw [Withdraw_of_lt env3 _ A 7000 "EUR" "too much" (by decide) (by rw [h2A]; decide)]
  refine ⟨rfl, rfl, rfl, h2A, h2B, rfl, h2A, by simp, ?_⟩
  intro hnil
  simp [hnil]

theorem scenario_deposit_transfer_overdraw_witness :
    (1 : UUID) ≠ 2 ∧ Db.empty.First 1 "EUR" = none ∧ Db.empty.First 2 "EUR" = none
    ∧ (TransactionService.Withdraw ⟨7, 13⟩
        (TransactionService.Transfer ⟨6, 12⟩
          (TransactionService.Deposit ⟨5, 11⟩ Db.empty 1 10000 "EUR" "seed").1
          1 2 4000 "EUR" "rent").1 1 7000 "EUR" "too much").2
        = some Error.ErrInsufficientFunds :=
  ⟨by decide, by decide, by decide,
    (scenario_deposit_transfer_overdraw ⟨5, 11⟩ ⟨6, 12⟩ ⟨7, 13⟩ Db.empty 1 2 (by decide)
      (by decide) (by decide)).2.2.2.2.2.1⟩

/-- Claim C10.  In the ledger produced from the empty state by
`Deposit(A, 100.00, "EUR", "seed")` at time `t1` followed by
`Transfer(A, B, 40.00, "EUR", "rent")` at time `t2 ≥ t1` with `A ≠ B`,
`GetBalanceAtTime(A, "EUR", t0)` is 0.00 for every `t0 < t1`,
`GetBalanceAtTime(A, "EUR", t)` is 60.00 for every `t ≥ t2`, and
`GetBalanceAtTime(B, "EUR", t)` is 40.00 for every `t ≥ t2`. -/
theorem scenario_point_in_time (A B : UUID) (t1 t2 : Time) (id1 id2 : UUID) (hAB : A ≠ B)
    (h12 : t1 ≤ t2) :
    (∀ t0 : Time, t0 < t1 →
      TransactionRepository.GetBalanceAtTime
        (TransactionService.Transfer ⟨t2, id2⟩
          (TransactionService.Deposit ⟨t1, id1⟩ Db.empty A 10000 "EUR" "seed").1
          A B 4000 "EUR" "rent").1 A "EUR" t0 = 0)
    ∧ (∀ t : Time, t2 ≤ t →
      TransactionRepository.GetBalanceAtTime
        (TransactionService.Transfer ⟨t2, id2⟩
          (TransactionService.Deposit ⟨t1, id1⟩ Db.empty A 10000 "EUR" "seed").1
          A B 4000 "EUR" "rent").1 A "EUR" t = 6000)
    ∧ (∀ t : Time, t2 ≤ t →
      TransactionRepository.GetBalanceAtTime
        (TransactionService.Transfer ⟨t2, id2⟩
          (TransactionService.Deposit ⟨t1, id1⟩ Db.empty A 10000 "EUR" "seed").1
          A B 4000 "EUR" "rent").1 B "EUR" t = 4000) := by
  have hBA : ¬ B = A := fun e => hAB e.symm
  rw [Deposit_of_pos ⟨t1, id1⟩ Db.empty A 10000 "EUR" "seed" (by decide)]
  have h1A : Db.balance ⟨Db.empty.transactions ++ [depositEntry ⟨t1, id1⟩ A 10000 "EUR" "seed"],
      saveRow ⟨A, "EUR", Db.empty.balance A "EUR" + 10000⟩ Db.empty.balances⟩ A "EUR"
      = 10000 := by
    rw [balance_mk_saveRow _ Db.empty.transactions]; simp [Db.balance, Db.First, Db.empty]
  rw [Transfer_of_le ⟨t2, id2⟩ _ A B 4000 "EUR" "rent" hAB (by decide)
    (by rw [h1A]; decide)]
  refine ⟨?_, ?_, ?_⟩
  · intro t0 h0
    have h0' : ¬ t1 ≤ t0 := not_le.mpr h0
    have h0'' : ¬ t2 ≤ t0 := fun h => h0' (le_trans h12 h)
    simp [GetBalanceAtTime_eq_sum, Db.empty, entryEffect, depositEntry, transferEntry, h0',
      h0'']
  · intro t ht
    have ht1 : t1 ≤ t := le_trans h12 ht
    simp [GetBalanceAtTime_eq_sum, Db.empty, entryEffect, depositEntry, transferEntry, ht,
      ht1, hBA, TransactionTypeDeposit, TransactionTypeTransfer]
  · intro t ht
    have ht1 : t1 ≤ t := le_trans h12 ht
    simp [GetBalanceAtTime_eq_sum, Db.empty, entryEffect, depositEntry, transferEntry, ht,
      ht1, hAB, TransactionTypeDeposit, TransactionTypeTransfer]

theorem scenario_point_in_time_witness :
    (1 : UUID) ≠ 2 ∧ (5 : Time) ≤ 6 ∧ (6 : Time) ≤ 9
    ∧ TransactionRepository.GetBalanceAtTime
        (TransactionService.Transfer ⟨6, 12⟩
          (TransactionService.Deposit ⟨5, 11⟩ Db.empty 1 10000 "EUR" "seed").1
          1 2 4000 "EUR" "rent").1 1 "EUR" 9 = 6000 :=
  ⟨by decide, by decide, by decide,
    (scenario_point_in_time 1 2 5 6 11 12 (by decide) (by decide)).2.1 9 (by decide)⟩

/-! ## Validation -/

/-- Claim C11.  For every transaction with `Amount ≤ 0`, whatever its type and
recipient, `Transaction.Validate` returns `ErrInvalidAmount`, and
`TransactionService.Create` returns that error with the database it was given (the
repository is not reached; ledger and balances are unchanged).  The same holds for
`Deposit`, `Withdraw` and `Transfer` between distinct accounts called with an amount
`≤ 0`. -/
theorem nonpositive_amount_rejected (env : Env) (db : Db) :
    (∀ transaction : Transaction, transaction.Amount ≤ 0 →
      transaction.Validate = some Error.ErrInvalidAmount
      ∧ TransactionService.Create env db transaction = (db, some Error.ErrInvalidAmount))
    ∧ (∀ (userID toUserID : UUID) (amount : Int) (currency description : String),
      amount ≤ 0 → userID ≠ toUserID →
      TransactionService.Deposit env db userID amount currency description
          = (db, some Error.ErrInvalidAmount)
      ∧ TransactionService.Withdraw env db userID amount currency description
          = (db, some Error.ErrInvalidAmount)
      ∧ TransactionService.Transfer env db userID toUserID amount currency description
          = (db, some Error.ErrInvalidAmount)) := by
  refine ⟨fun tx h => ?_, fun u v a c d ha hne => ?_⟩
  · have hv : tx.Validate = some Error.ErrInvalidAmount := by
      simp [Transaction.Validate, h]
    exact ⟨hv, by simp [TransactionService.Create, hv]⟩
  · exact ⟨Deposit_of_nonpos env db u a c d ha, Withdraw_of_nonpos env db u a c d ha,
      Transfer_of_nonpos env db u v a c d hne ha⟩

theorem nonpositive_amount_rejected_witness :
    (transferEntry ⟨0, 0⟩ 1 2 (-500) "EUR" "x").Amount ≤ 0
    ∧ TransactionService.Create ⟨7, 3⟩ (Db.mk [] [⟨1, "EUR", 6000⟩])
        (transferEntry ⟨0, 0⟩ 1 2 (-500) "EUR" "x")
      = (Db.mk [] [⟨1, "EUR", 6000⟩], some Error.ErrInvalidAmount) :=
  ⟨by decide,
    ((nonpositive_amount_rejected ⟨7, 3⟩ (Db.mk [] [⟨1, "EUR", 6000⟩])).1
      (transferEntry ⟨0, 0⟩ 1 2 (-500) "EUR" "x") (by decide)).2⟩

/-- Claim C12, as stated, fails: with the two-letter currency "EU" and the amount 100.00,
`TransactionService.Deposit` on the empty database returns `nil` and writes a ledger
row and a balance row, and the `TransactionService.Withdraw` of 40.00 "EU" that follows
returns `nil` and writes a second ledger row.  The empty currency is accepted by
`Deposit` in the same way. -/
theorem Deposit_accepts_any_currency :
    ("EU" : String).length ≠ 3
    ∧ TransactionService.Deposit ⟨5, 1⟩ Db.empty 1 10000 "EU" "x"
        = (⟨[depositEntry ⟨5, 1⟩ 1 10000 "EU" "x"], [⟨1, "EU", 10000⟩]⟩, none)
    ∧ TransactionService.Withdraw ⟨6, 2⟩
        ⟨[depositEntry ⟨5, 1⟩ 1 10000 "EU" "x"], [⟨1, "EU", 10000⟩]⟩ 1 4000 "EU" "y"
        = (⟨[depositEntry ⟨5, 1⟩ 1 10000 "EU" "x", withdrawEntry ⟨6, 2⟩ 1 4000 "EU" "y"],
            [⟨1, "EU", 6000⟩]⟩, none)
    ∧ TransactionService.Deposit ⟨5, 1⟩ Db.empty 1 10000 "" "x"
        = (⟨[depositEntry ⟨5, 1⟩ 1 10000 "" "x"], [⟨1, "", 10000⟩]⟩, none) := by
  decide

/-- Claim C12, amended.  `Transaction.Validate` does not look at the currency, and for
every currency string of at most three characters, a 3-letter code or not (the empty
string and "EU" among them), and every amount `> 0`: `TransactionService.Deposit`
succeeds and writes one ledger row; `Withdraw` and `Transfer` to a different account
succeed and write one ledger row when the stored balance in that currency covers the
amount, and otherwise return `ErrInsufficientFunds` with the database unchanged.  None
of them returns a validation error. -/
theorem currency_is_not_validated (env : Env) (db : Db) (userID toUserID : UUID)
    (amount : Int) (currency description : String) (hpos : 0 < amount)
    (hother : userID ≠ toUserID) (_hfits : currency.length ≤ 3) :
    (∀ transaction : Transaction,
      ({ transaction with Currency := currency } : Transaction).Validate
        = transaction.Validate)
    ∧ (TransactionService.Deposit env db userID amount currency description).2 = none
    ∧ (TransactionService.Deposit env db userID amount currency description).1.transactions
        = db.transactions ++ [depositEntry env userID amount currency description]
    ∧ (amount ≤ db.balance userID currency →
        (TransactionService.Withdraw env db userID amount currency description).2 = none
        ∧ (TransactionService.Withdraw env db userID amount currency
            description).1.transactions
          = db.transactions ++ [withdrawEntry env userID amount currency description]
        ∧ (TransactionService.Transfer env db userID toUserID amount currency
            description).2 = none
        ∧ (TransactionService.Transfer env db userID toUserID amount currency
            description).1.transactions
          = db.transactions
            ++ [transferEntry env userID toUserID amount currency description])
    ∧ (db.balance userID currency < amount →
        TransactionService.Withdraw env db userID amount currency description
          = (db, some Error.ErrInsufficientFunds)
        ∧ TransactionService.Transfer env db userID toUserID amount currency description
          = (db, some Error.ErrInsufficientFunds)) := by
  refine ⟨fun tx => rfl, ?_, ?_, fun hle => ?_, fun hlt => ?_⟩
  · rw [Deposit_of_pos env db userID amount currency description hpos]
  · rw [Deposit_of_pos env db userID amount currency description hpos]
  · rw [Withdraw_of_le env db userID amount currency description hpos hle,
      Transfer_of_le env db userID toUserID amount currency description hother hpos hle]
    exact ⟨rfl, rfl, rfl, rfl⟩
  · exact ⟨Withdraw_of_lt env db userID amount currency description hpos hlt,
      Transfer_of_lt env db userID toUserID amount currency description hother hpos hlt⟩

theorem currency_is_not_validated_witness :
    (0 : Int) < 10000 ∧ (1 : UUID) ≠ 2 ∧ ("EU" : String).length ≤ 3
    ∧ (TransactionService.Deposit ⟨5, 1⟩ Db.empty 1 10000 "EU" "x").2 = none :=
  ⟨by decide, by decide, by decide,
    (currency_is_not_validated ⟨5, 1⟩ Db.empty 1 2 10000 "EU" "x" (by decide)
      (by decide) (by decide)).2.1⟩

/-- Claim C14 at a transfer whose recipient is its owner.  On the database holding the
single balance row (account 1, "EUR", 100.00), `TransactionService.Create` and
`TransactionRepository.Create` accept `selfTransferRequest` (owner 1, recipient 1,
40.00 EUR): they return `nil` and the ledger gains a transfer row whose recipient is its
own account, while the balance row is debited and credited back to 100.00.
`TransactionService.Transfer` with the same accounts refuses. -/
theorem Create_accepts_self_transfer :
    selfTransferRequest.Validate = none
    ∧ TransactionService.Create ⟨5, 9⟩ ⟨[], [⟨1, "EUR", 10000⟩]⟩ selfTransferRequest
        = (⟨[transferEntry ⟨5, 9⟩ 1 1 4000 "EUR" ""], [⟨1, "EUR", 10000⟩]⟩, none)
    ∧ TransactionRepository.Create ⟨5, 9⟩ ⟨[], [⟨1, "EUR", 10000⟩]⟩ selfTransferRequest
        = (⟨[transferEntry ⟨5, 9⟩ 1 1 4000 "EUR" ""], [⟨1, "EUR", 10000⟩]⟩, none)
    ∧ (transferEntry ⟨5, 9⟩ 1 1 4000 "EUR" "").RecipientID
        = some (transferEntry ⟨5, 9⟩ 1 1 4000 "EUR" "").UserID
    ∧ TransactionService.Transfer ⟨5, 9⟩ ⟨[], [⟨1, "EUR", 10000⟩]⟩ 1 1 4000 "EUR" ""
        = (⟨[], [⟨1, "EUR", 10000⟩]⟩,
            some (Error.New "cannot transfer to the same account")) := by
  decide

/-! ## The ledger only grows -/

theorem Call.run_ok {env : Env} {db : Db} {call : Call} (h : (call.run env db).2 = none) :
    ∃ e, (call.run env db).1.transactions = db.transactions ++ [e] := by
  cases call with
  | deposit u a c d => exact ⟨_, ServiceCreate_ok h⟩
  | withdraw u a c d => exact ⟨_, ServiceCreate_ok h⟩
  | transfer u v a c d =>
    change (TransactionService.Transfer env db u v a c d).2 = none at h
    show ∃ e, (TransactionService.Transfer env db u v a c d).1.transactions = _
    unfold TransactionService.Transfer at h ⊢
    by_cases huv : u = v
    · rw [if_pos huv] at h; cases h
    · rw [if_neg huv] at h ⊢; exact ⟨_, ServiceCreate_ok h⟩

theorem Request.run_succeeded {env : Env} {db : Db} {request : Request}
    (hw : request.isWrite = true) (h : (request.run env db).2 = none) :
    ∃ e, (request.run env db).1.transactions = db.transactions ++ [e] := by
  cases request with
  | repositoryCreate tx => exact ⟨_, RepositoryCreate_ok h⟩
  | serviceCreate tx => exact ⟨_, ServiceCreate_ok h⟩
  | movement call => exact Call.run_ok h
  | getByID id => cases hw
  | getByUserID u p q => cases hw
  | getAll p q => cases hw
  | getBalanceAtTime u c t => cases hw
  | getByIDAndUserID i u => cases hw
  | listByUserID u => cases hw
  | listAll => cases hw

theorem Request.run_failed {env : Env} {db : Db} {request : Request} {err : Error}
    (h : (request.run env db).2 = some err) : (request.run env db).1 = db := by
  cases request with
  | repositoryCreate tx => exact RepositoryCreate_error h
  | serviceCreate tx => exact ServiceCreate_error h
  | movement call => exact Call.run_error h
  | getByID id => rfl
  | getByUserID u p q => rfl
  | getAll p q => rfl
  | getBalanceAtTime u c t => rfl
  | getByIDAndUserID i u => rfl
  | listByUserID u => rfl
  | listAll => rfl

theorem Request.run_read {env : Env} {db : Db} {request : Request}
    (hw : request.isWrite = false) : (request.run env db).1 = db := by
  cases request with
  | repositoryCreate tx => cases hw
  | serviceCreate tx => cases hw
  | movement call => cases hw
  | getByID id => rfl
  | getByUserID u p q => rfl
  | getAll p q => rfl
  | getBalanceAtTime u c t => rfl
  | getByIDAndUserID i u => rfl
  | listByUserID u => rfl
  | listAll => rfl

/-- Claim C18.  Under every operation of `TransactionService` and
`TransactionRepository` the ledger is append-only: the ledger after the call is the
ledger before it, every row in its place and unchanged, followed by at most one new
row; a successful `Create`, `Deposit`, `Withdraw` or `Transfer` adds exactly one row, a
failed call adds none, and the read operations (`GetByID`, `GetByUserID`, `GetAll`,
`GetBalanceAtTime`, `GetByIDAndUserID`, `ListByUserID`, `ListAll`) leave the whole
database as it was. -/
theorem ledger_is_append_only (env : Env) (db : Db) (request : Request) :
    (∃ added : List Transaction,
      (request.run env db).1.transactions = db.transactions ++ added ∧ added.length ≤ 1)
    ∧ (request.isWrite = true → (request.run env db).2 = none →
        ∃ e : Transaction, (request.run env db).1.transactions = db.transactions ++ [e])
    ∧ (∀ err : Error, (request.run env db).2 = some err →
        (request.run env db).1.transactions = db.transactions)
    ∧ (request.isWrite = false → (request.run env db).1 = db) := by
  refine ⟨?_, Request.run_succeeded, fun err h => by rw [Request.run_failed h], Request.run_read⟩
  cases hw : request.isWrite with
  | false => exact ⟨[], by rw [Request.run_read hw]; simp, by simp⟩
  | true =>
    cases he : (request.run env db).2 with
    | none =>
      obtain ⟨e, h⟩ := Request.run_succeeded hw he
      exact ⟨[e], h, by simp⟩
    | some err => exact ⟨[], by rw [Request.run_failed he]; simp, by simp⟩

theorem ledger_is_append_only_witness :
    (Request.movement (Call.deposit 1 2500 "EUR" "in")).isWrite = true
    ∧ ((Request.movement (Call.deposit 1 2500 "EUR" "in")).run ⟨7, 3⟩
        (Db.mk [depositEntry ⟨5, 1⟩ 1 100 "EUR" "seed"] [])).2 = none
    ∧ ∃ e : Transaction,
        ((Request.movement (Call.deposit 1 2500 "EUR" "in")).run ⟨7, 3⟩
          (Db.mk [depositEntry ⟨5, 1⟩ 1 100 "EUR" "seed"] [])).1.transactions = (Db.mk [depositEntry ⟨5, 1⟩ 1 100 "EUR" "seed"] []).transactions ++ [e] :=
  ⟨by decide, by decide,
    (ledger_is_append_only ⟨7, 3⟩ (Db.mk [depositEntry ⟨5, 1⟩ 1 100 "EUR" "seed"] [])
      (Request.movement (Call.deposit 1 2500 "EUR" "in"))).2.1 (by decide) (by decide)⟩

/-! ## Listings -/

theorem offsetLimit_sublist (offset limit : Int) (rows : List Transaction) :
    (offsetLimit offset limit rows).Sublist rows := by
  unfold offsetLimit
  by_cases ho : 0 < offset <;> by_cases hl : 0 ≤ limit <;> simp only [ho, hl, if_true, if_false]
  · exact (List.take_sublist _ _).trans (List.drop_sublist _ _)
  · exact List.drop_sublist _ _
  · exact List.take_sublist _ _
  · exact List.Sublist.refl _

theorem orderByCreatedAtDesc_sorted (rows : List Transaction) :
    (orderByCreatedAtDesc rows).Pairwise newestFirst :=
  List.sorted_insertionSort newestFirst rows

/-- Claim C19, as stated, fails: two ledgers holding the same two rows `tiedEntry 1` and
`tiedEntry 2` (equal `CreatedAt`, identifiers 1 and 2) in opposite storage order are
listed by `GetAll` and by `GetByUserID` in opposite orders, so equal-time rows are not
ordered by their identifiers and the listing is not a function of the set of rows. -/
theorem listing_ties_follow_storage_order :
    (tiedEntry 1).CreatedAt = (tiedEntry 2).CreatedAt
    ∧ (TransactionRepository.GetAll ⟨[tiedEntry 1, tiedEntry 2], []⟩ 1 10).1
        = [tiedEntry 1, tiedEntry 2]
    ∧ (TransactionRepository.GetAll ⟨[tiedEntry 2, tiedEntry 1], []⟩ 1 10).1
        = [tiedEntry 2, tiedEntry 1]
    ∧ (TransactionRepository.GetByUserID ⟨[tiedEntry 1, tiedEntry 2], []⟩ 1 1 10).1
        = [tiedEntry 1, tiedEntry 2]
    ∧ (TransactionRepository.GetByUserID ⟨[tiedEntry 2, tiedEntry 1], []⟩ 1 1 10).1
        = [tiedEntry 2, tiedEntry 1] := by
  decide

/-- Claim C19, amended.  For every ledger, user, page and page size,
`TransactionRepository.GetByUserID` and `GetAll` return rows sorted newest first by
`CreatedAt`: each returned row is at least as new as every row after it.  Nothing is
said about rows with equal `CreatedAt`. -/
theorem listings_sorted_newest_first (db : Db) (userID : UUID) (page pageSize : Int) :
    (TransactionRepository.GetByUserID db userID page pageSize).1.Pairwise
        (fun a b => b.CreatedAt ≤ a.CreatedAt)
    ∧ (TransactionRepository.GetAll db page pageSize).1.Pairwise
        (fun a b => b.CreatedAt ≤ a.CreatedAt) :=
  ⟨(orderByCreatedAtDesc_sorted _).sublist (offsetLimit_sublist _ _ _),
    (orderByCreatedAtDesc_sorted _).sublist (offsetLimit_sublist _ _ _)⟩

/-! ## Account-scoped lookup -/

theorem GetByIDAndUserID_ok_iff (db : Db) (I U : UUID) :
    (∃ t, TransactionRepository.GetByIDAndUserID db I U = .ok t)
      ↔ ∃ t ∈ db.transactions, t.ID = I ∧ t.UserID = U := by
  unfold TransactionRepository.GetByIDAndUserID
  cases hf : db.transactions.find? (fun t => decide (t.ID = I ∧ t.UserID = U)) with
  | none =>
    constructor
    · rintro ⟨t, ht⟩; cases ht
    · rintro ⟨t, hmem, hI, hU⟩
      have := List.find?_eq_none.mp hf t hmem
      simp [hI, hU] at this
  | some t0 =>
    constructor
    · intro _
      have hp := List.find?_some hf
      exact ⟨t0, List.mem_of_find?_eq_some hf, by simpa using hp⟩
    · intro _; exact ⟨t0, rfl⟩

theorem GetByIDAndUserID_ok {db : Db} {I U : UUID} {t : Transaction}
    (h : TransactionRepository.GetByIDAndUserID db I U = .ok t) :
    t ∈ db.transactions ∧ t.ID = I ∧ t.UserID = U := by
  unfold TransactionRepository.GetByIDAndUserID at h
  cases hf : db.transactions.find? (fun t => decide (t.ID = I ∧ t.UserID = U)) with
  | none => rw [hf] at h; cases h
  | some t0 =>
    rw [hf] at h
    cases h
    have hp := List.find?_some hf
    exact ⟨List.mem_of_find?_eq_some hf, by simpa using hp⟩

theorem GetByIDAndUserID_error (db : Db) (I U : UUID)
    (h : ¬ ∃ t ∈ db.transactions, t.ID = I ∧ t.UserID = U) :
    TransactionRepository.GetByIDAndUserID db I U = .error Error.ErrRecordNotFound := by
  cases hr : TransactionRepository.GetByIDAndUserID db I U with
  | ok t => exact absurd ((GetByIDAndUserID_ok_iff db I U).mp ⟨t, hr⟩) h
  | error e =>
    unfold TransactionRepository.GetByIDAndUserID at hr
    cases hf : db.transactions.find? (fun t => decide (t.ID = I ∧ t.UserID = U)) with
    | none => rw [hf] at hr; cases hr; rfl
    | some t0 => rw [hf] at hr; cases hr

/-- Claim C21, as stated, fails: on the ledger holding the single transfer row with
identifier 7 from account 1 to account 2, `TransactionRepository.GetByUserID` lists the
row for account 2, the recipient, yet `TransactionRepository.GetByIDAndUserID(7, 2)`
returns `ErrRecordNotFound`; the owner, account 1, can fetch it. -/
theorem received_transfer_listed_but_not_fetched :
    (TransactionRepository.GetByUserID
        ⟨[transferEntry ⟨5, 7⟩ 1 2 4000 "EUR" "rent"], []⟩ 2 1 10).1
      = [transferEntry ⟨5, 7⟩ 1 2 4000 "EUR" "rent"]
    ∧ TransactionRepository.GetByIDAndUserID
        ⟨[transferEntry ⟨5, 7⟩ 1 2 4000 "EUR" "rent"], []⟩ 7 2
      = .error Error.ErrRecordNotFound
    ∧ TransactionRepository.GetByIDAndUserID
        ⟨[transferEntry ⟨5, 7⟩ 1 2 4000 "EUR" "rent"], []⟩ 7 1
      = .ok (transferEntry ⟨5, 7⟩ 1 2 4000 "EUR" "rent") :=
  ⟨by decide, rfl, rfl⟩

/-- Claim C21, amended.  For every ledger, identifier `I` and account `U`,
`TransactionRepository.GetByIDAndUserID(I, U)` returns a row if and only if the ledger
has a row with identifier `I` whose owner (`UserID`) is `U`, the row it returns is such a
row, and otherwise it returns `ErrRecordNotFound`.  Every row that `ListByUserID` lists
for `U`, and every row that `GetByUserID` lists for `U` and that `U` owns, can be fetched
this way; nothing is said of the transfers `U` only received. -/
theorem GetByIDAndUserID_spec (db : Db) (transactionID userID : UUID) :
    ((∃ t, TransactionRepository.GetByIDAndUserID db transactionID userID = .ok t)
      ↔ ∃ t ∈ db.transactions, t.ID = transactionID ∧ t.UserID = userID)
    ∧ (∀ t, TransactionRepository.GetByIDAndUserID db transactionID userID = .ok t →
        t ∈ db.transactions ∧ t.ID = transactionID ∧ t.UserID = userID)
    ∧ ((¬ ∃ t ∈ db.transactions, t.ID = transactionID ∧ t.UserID = userID) →
        TransactionRepository.GetByIDAndUserID db transactionID userID
          = .error Error.ErrRecordNotFound)
    ∧ (∀ t ∈ TransactionRepository.ListByUserID db userID,
        ∃ t', TransactionRepository.GetByIDAndUserID db t.ID userID = .ok t')
    ∧ (∀ (page pageSize : Int),
        ∀ t ∈ (TransactionRepository.GetByUserID db userID page pageSize).1,
          t.UserID = userID →
          ∃ t', TransactionRepository.GetByIDAndUserID db t.ID userID = .ok t') := by
  refine ⟨GetByIDAndUserID_ok_iff db transactionID userID, fun t h => GetByIDAndUserID_ok h,
    GetByIDAndUserID_error db transactionID userID, ?_, ?_⟩
  · intro t ht
    have hm : t ∈ db.transactions ∧ t.UserID = userID := by
      simpa [TransactionRepository.ListByUserID] using ht
    exact (GetByIDAndUserID_ok_iff db t.ID userID).mpr ⟨t, hm.1, rfl, hm.2⟩
  · intro page pageSize t ht hown
    have h1 : t ∈ orderByCreatedAtDesc (db.transactions.filter fun t =>
        decide (t.UserID = userID ∨ t.RecipientID = some userID)) :=
      (offsetLimit_sublist _ _ _).subset ht
    have h2 : t ∈ db.transactions.filter fun t =>
        decide (t.UserID = userID ∨ t.RecipientID = some userID) :=
      (List.perm_insertionSort newestFirst _).subset h1
    exact (GetByIDAndUserID_ok_iff db t.ID userID).mpr
      ⟨t, (List.mem_filter.mp h2).1, rfl, hown⟩

theorem GetByIDAndUserID_spec_witness :
    (¬ ∃ t ∈ (Db.mk [transferEntry ⟨5, 7⟩ 1 2 4000 "EUR" "rent"] []).transactions,
        t.ID = 7 ∧ t.UserID = 2)
    ∧ TransactionRepository.GetByIDAndUserID
        (Db.mk [transferEntry ⟨5, 7⟩ 1 2 4000 "EUR" "rent"] []) 7 2
      = .error Error.ErrRecordNotFound :=
  ⟨by decide,
    (GetByIDAndUserID_spec (Db.mk [transferEntry ⟨5, 7⟩ 1 2 4000 "EUR" "rent"] []) 7
      2).2.2.1 (by decide)⟩

/-! ## The balance table under `Create` -/

theorem updateSenderBalance_balances {tx : Transaction} {db db' : Db}
    (h : updateSenderBalance tx db = .ok db') :
    db'.balances = db.balances
      ∨ ∃ b, (db.First tx.UserID tx.Currency).isSome
          ∧ b.UserID = tx.UserID ∧ b.Currency = tx.Currency
          ∧ db'.balances = saveRow b db.balances := by
  unfold updateSenderBalance at h
  split at h
  · cases hF : db.First tx.UserID tx.Currency with
    | none => rw [hF] at h; cases h
    | some b0 =>
      rw [hF] at h
      obtain ⟨k1, k2⟩ := First_key hF
      simp only [Balance.Subtract] at h
      by_cases hlt : b0.Amount < tx.Amount
      · simp [hlt] at h
      · simp only [hlt, if_false] at h
        cases h
        exact Or.inr ⟨⟨b0.UserID, b0.Currency, b0.Amount - tx.Amount⟩, rfl, k1, k2, rfl⟩
  · cases h; exact Or.inl rfl

theorem updateRecipientBalance_balances {tx : Transaction} {db db' : Db}
    (h : updateRecipientBalance tx db = .ok db') :
    db'.balances = db.balances
      ∨ ∃ b, tx.Type_ = TransactionTypeTransfer ∧ tx.RecipientID = some b.UserID
          ∧ b.Currency = tx.Currency ∧ db'.balances = saveRow b db.balances := by
  unfold updateRecipientBalance at h
  cases hr : tx.RecipientID with
  | none => rw [hr] at h; cases h; exact Or.inl rfl
  | some r =>
    rw [hr] at h
    by_cases hty : tx.Type_ = TransactionTypeTransfer
    · simp only [hty, if_true] at h
      cases hF : db.First r tx.Currency with
      | none =>
        rw [hF] at h
        cases h
        exact Or.inr ⟨Balance.Add ⟨r, tx.Currency, 0⟩ tx.Amount, hty, rfl, rfl, rfl⟩
      | some b0 =>
        rw [hF] at h
        cases h
        obtain ⟨k1, k2⟩ := First_key hF
        exact Or.inr ⟨b0.Add tx.Amount, hty, by simp [Balance.Add, k1],
          by simp [Balance.Add, k2], rfl⟩
    · simp only [hty, if_false] at h
      cases h; exact Or.inl rfl

theorem updateDepositBalance_balances {tx : Transaction} {db db' : Db}
    (h : updateDepositBalance tx db = .ok db') :
    db'.balances = db.balances
      ∨ ∃ b, tx.Type_ = TransactionTypeDeposit ∧ b.UserID = tx.UserID
          ∧ b.Currency = tx.Currency ∧ db'.balances = saveRow b db.balances := by
  unfold updateDepositBalance at h
  by_cases hty : tx.Type_ = TransactionTypeDeposit
  · simp only [hty, if_true] at h
    cases hF : db.First tx.UserID tx.Currency with
    | none =>
      rw [hF] at h
      cases h
      exact Or.inr ⟨Balance.Add ⟨tx.UserID, tx.Currency, 0⟩ tx.Amount, hty, rfl, rfl, rfl⟩
    | some b0 =>
      rw [hF] at h
      cases h
      obtain ⟨k1, k2⟩ := First_key hF
      exact Or.inr ⟨b0.Add tx.Amount, hty, by simp [Balance.Add, k1],
        by simp [Balance.Add, k2], rfl⟩
  · simp only [hty, if_false] at h
    cases h; exact Or.inl rfl

theorem createBody_steps {env : Env} {tx : Transaction} {db db' : Db}
    (h : createBody env tx db = .ok db') :
    ∃ d1 d2, updateSenderBalance (tx.inserted env) (db.Create env tx) = .ok d1
      ∧ updateRecipientBalance (tx.inserted env) d1 = .ok d2
      ∧ updateDepositBalance (tx.inserted env) d2 = .ok db' := by
  unfold createBody at h
  simp only at h
  cases h1 : updateSenderBalance (tx.inserted env) (db.Create env tx) with
  | error e => rw [h1] at h; cases h
  | ok d1 =>
    rw [h1] at h
    simp only [Except.bind] at h
    cases h2 : updateRecipientBalance (tx.inserted env) d1 with
    | error e => rw [h2] at h; cases h
    | ok d2 =>
      rw [h2] at h
      exact ⟨d1, d2, rfl, h2, h⟩

theorem createBody_related (R : List Balance → List Balance → Prop)
    (hrefl : ∀ rows, R rows rows)
    (htrans : ∀ r1 r2 r3, R r1 r2 → R r2 r3 → R r1 r3)
    (hsave : ∀ rows b, R rows (saveRow b rows))
    {env : Env} {tx : Transaction} {db db' : Db} (h : createBody env tx db = .ok db') :
    R db.balances db'.balances := by
  obtain ⟨d1, d2, h1, h2, h3⟩ := createBody_steps h
  have r1 : R db.balances d1.balances := by
    rcases updateSenderBalance_balances h1 with e | ⟨b, _, _, _, e⟩
    · rw [e]; exact hrefl _
    · rw [e]; exact hsave _ _
  have r2 : R d1.balances d2.balances := by
    rcases updateRecipientBalance_balances h2 with e | ⟨b, _, _, _, e⟩
    · rw [e]; exact hrefl _
    · rw [e]; exact hsave _ _
  have r3 : R d2.balances db'.balances := by
    rcases updateDepositBalance_balances h3 with e | ⟨b, _, _, _, e⟩
    · rw [e]; exact hrefl _
    · rw [e]; exact hsave _ _
  exact htrans _ _ _ (htrans _ _ _ r1 r2) r3

theorem RepositoryCreate_related (R : List Balance → List Balance → Prop)
    (hrefl : ∀ rows, R rows rows)
    (htrans : ∀ r1 r2 r3, R r1 r2 → R r2 r3 → R r1 r3)
    (hsave : ∀ rows b, R rows (saveRow b rows))
    (env : Env) (db : Db) (tx : Transaction) :
    R db.balances (TransactionRepository.Create env db tx).1.balances := by
  unfold TransactionRepository.Create Db.Transaction
  cases hb : createBody env tx db with
  | error e => exact hrefl _
  | ok d => exact createBody_related R hrefl htrans hsave hb

theorem Request.run_cases (env : Env) (db : Db) (request : Request) :
    (request.run env db).1 = db
      ∨ ∃ tx, request.run env db = TransactionRepository.Create env db tx := by
  have hsvc : ∀ tx, (TransactionService.Create env db tx).1 = db
      ∨ ∃ tx', TransactionService.Create env db tx
          = TransactionRepository.Create env db tx' := by
    intro tx
    unfold TransactionService.Create
    cases tx.Validate with
    | some e => exact Or.inl rfl
    | none => exact Or.inr ⟨tx, rfl⟩
  cases request with
  | repositoryCreate tx => exact Or.inr ⟨tx, rfl⟩
  | serviceCreate tx => exact hsvc tx
  | movement call =>
    cases call with
    | deposit u a c d => exact hsvc _
    | withdraw u a c d => exact hsvc _
    | transfer u v a c d =>
      show (TransactionService.Transfer env db u v a c d).1 = db ∨ ∃ tx,
        TransactionService.Transfer env db u v a c d = _
      unfold TransactionService.Transfer
      by_cases huv : u = v
      · rw [if_pos huv]; exact Or.inl rfl
      · rw [if_neg huv]; exact hsvc _
  | getByID id => exact Or.inl rfl
  | getByUserID u p q => exact Or.inl rfl
  | getAll p q => exact Or.inl rfl
  | getBalanceAtTime u c t => exact Or.inl rfl
  | getByIDAndUserID i u => exact Or.inl rfl
  | listByUserID u => exact Or.inl rfl
  | listAll => exact Or.inl rfl

/-! ## Balance rows stay -/

theorem First_of_saveRow {d d0 : Db} {b : Balance} (h : d.balances = saveRow b d0.balances)
    (u : UUID) (c : String) :
    d.First u c = if b.UserID = u ∧ b.Currency = c then some b else d0.First u c := by
  unfold Db.First
  rw [h, find?_saveRow]

theorem First_of_balances {d d0 : Db} (h : d.balances = d0.balances) (u : UUID)
    (c : String) : d.First u c = d0.First u c := by
  unfold Db.First
  rw [h]

theorem RepositoryCreate_keeps_rows (env : Env) (db : Db) (tx : Transaction) (u : UUID)
    (c : String) (h : (db.First u c).isSome) :
    ((TransactionRepository.Create env db tx).1.First u c).isSome := by
  have key := RepositoryCreate_related
    (fun (rows rows' : List Balance) =>
      (rows.find? (fun (r : Balance) => decide (r.UserID = u ∧ r.Currency = c))).isSome →
      (rows'.find? (fun (r : Balance) => decide (r.UserID = u ∧ r.Currency = c))).isSome)
    (fun _ h => h) (fun _ _ _ h12 h23 h => h23 (h12 h))
    (fun rows b h => by
      rw [find?_saveRow]
      by_cases hk : b.UserID = u ∧ b.Currency = c
      · rw [if_pos hk]; rfl
      · rw [if_neg hk]; exact h)
    env db tx
  exact key h

theorem createBody_gain {env : Env} {tx : Transaction} {db db' : Db} {u : UUID} {c : String}
    (h : createBody env tx db = .ok db') (hnone : db.First u c = none)
    (hsome : (db'.First u c).isSome) :
    (tx.inserted env).Currency = c
      ∧ (((tx.inserted env).Type_ = TransactionTypeDeposit ∧ (tx.inserted env).UserID = u)
        ∨ ((tx.inserted env).Type_ = TransactionTypeTransfer
          ∧ (tx.inserted env).RecipientID = some u)) := by
  obtain ⟨d1, d2, h1, h2, h3⟩ := createBody_steps h
  have h0 : (db.Create env tx).First u c = none := hnone
  have hd1 : d1.First u c = none := by
    rcases updateSenderBalance_balances h1 with e | ⟨b, hF, k1, k2, e⟩
    · rw [First_of_balances e]; exact h0
    · rw [First_of_saveRow e]
      by_cases hk : b.UserID = u ∧ b.Currency = c
      · rw [k1, k2] at hk
        rw [hk.1, hk.2, h0] at hF
        cases hF
      · rw [if_neg hk]; exact h0
  rcases updateRecipientBalance_balances h2 with e2 | ⟨b, hty, hrec, kc, e2⟩
  · have hd2 : d2.First u c = none := by rw [First_of_balances e2]; exact hd1
    rcases updateDepositBalance_balances h3 with e3 | ⟨b, hty, ku, kc, e3⟩
    · rw [First_of_balances e3, hd2] at hsome; cases hsome
    · by_cases hk : b.UserID = u ∧ b.Currency = c
      · exact ⟨kc ▸ hk.2, Or.inl ⟨hty, ku ▸ hk.1⟩⟩
      · rw [First_of_saveRow e3, if_neg hk, hd2] at hsome; cases hsome
  · by_cases hk : b.UserID = u ∧ b.Currency = c
    · exact ⟨kc ▸ hk.2, Or.inr ⟨hty, by rw [hrec, hk.1]⟩⟩
    · have hd2 : d2.First u c = none := by rw [First_of_saveRow e2, if_neg hk]; exact hd1
      rcases updateDepositBalance_balances h3 with e3 | ⟨b', hty', ku, kc', e3⟩
      · rw [First_of_balances e3, hd2] at hsome; cases hsome
      · by_cases hk' : b'.UserID = u ∧ b'.Currency = c
        · exact ⟨kc' ▸ hk'.2, Or.inl ⟨hty', ku ▸ hk'.1⟩⟩
        · rw [First_of_saveRow e3, if_neg hk', hd2] at hsome; cases hsome

theorem RepositoryCreate_gain {env : Env} {db : Db} {tx : Transaction} {u : UUID}
    {c : String} (hnone : db.First u c = none)
    (hsome : ((TransactionRepository.Create env db tx).1.First u c).isSome) :
    (TransactionRepository.Create env db tx).2 = none
      ∧ (TransactionRepository.Create env db tx).1.transactions
          = db.transactions ++ [tx.inserted env]
      ∧ (tx.inserted env).Currency = c
      ∧ (((tx.inserted env).Type_ = TransactionTypeDeposit ∧ (tx.inserted env).UserID = u)
        ∨ ((tx.inserted env).Type_ = TransactionTypeTransfer
          ∧ (tx.inserted env).RecipientID = some u)) := by
  cases he : (TransactionRepository.Create env db tx).2 with
  | some err =>
    rw [RepositoryCreate_error he, hnone] at hsome
    cases hsome
  | none =>
    refine ⟨rfl, RepositoryCreate_ok he, ?_⟩
    unfold TransactionRepository.Create Db.Transaction at hsome he
    cases hb : createBody env tx db with
    | error e => rw [hb] at he; cases he
    | ok d =>
      rw [hb] at hsome
      exact createBody_gain hb hnone hsome

/-- Claim C23.  No operation removes a balance row: in every state and for every call of
`TransactionService` or `TransactionRepository`, each (account, currency) pair that has
a balance row before the call has one after it; a withdrawal of the whole balance
succeeds and leaves the row in place with amount zero; and a pair that had no row and
has one after the call got it from a successful call that appended a deposit row owned
by the account, or a transfer row naming the account as recipient, in that currency. -/
theorem balance_rows_never_removed (env : Env) (db : Db) (request : Request) :
    (∀ (u : UUID) (c : String), (db.First u c).isSome →
      ((request.run env db).1.First u c).isSome)
    ∧ (∀ (u : UUID) (a : Int) (c d : String), 0 < a → db.balance u c = a →
        (TransactionService.Withdraw env db u a c d).2 = none
        ∧ (TransactionService.Withdraw env db u a c d).1.First u c = some ⟨u, c, 0⟩)
    ∧ (∀ (u : UUID) (c : String), db.First u c = none →
        ((request.run env db).1.First u c).isSome →
        (request.run env db).2 = none
        ∧ ∃ e : Transaction,
            (request.run env db).1.transactions = db.transactions ++ [e]
            ∧ e.Currency = c
            ∧ ((e.Type_ = TransactionTypeDeposit ∧ e.UserID = u)
              ∨ (e.Type_ = TransactionTypeTransfer ∧ e.RecipientID = some u))) := by
  refine ⟨?_, ?_, ?_⟩
  · intro u c h
    rcases Request.run_cases env db request with e | ⟨tx, e⟩
    · rw [e]; exact h
    · rw [e]; exact RepositoryCreate_keeps_rows env db tx u c h
  · intro u a c d ha hbal
    rw [Withdraw_of_le env db u a c d ha (le_of_eq hbal.symm)]
    refine ⟨rfl, ?_⟩
    unfold Db.First
    rw [find?_saveRow, hbal]
    simp
  · intro u c hnone hsome
    rcases Request.run_cases env db request with e | ⟨tx, e⟩
    · rw [e, hnone] at hsome; cases hsome
    · rw [e] at hsome ⊢
      obtain ⟨h1, h2, h3, h4⟩ := RepositoryCreate_gain hnone hsome
      exact ⟨h1, _, h2, h3, h4⟩

theorem balance_rows_never_removed_witness :
    ((Db.mk [] [⟨1, "EUR", 6000⟩]).First 1 "EUR").isSome
    ∧ (((Request.movement (Call.withdraw 1 6000 "EUR" "all")).run ⟨7, 3⟩
        (Db.mk [] [⟨1, "EUR", 6000⟩])).1.First 1 "EUR").isSome :=
  ⟨by decide,
    (balance_rows_never_removed ⟨7, 3⟩ (Db.mk [] [⟨1, "EUR", 6000⟩])
      (Request.movement (Call.withdraw 1 6000 "EUR" "all"))).1 1 "EUR" (by decide)⟩

/-! ## The authentication middleware -/

theorem Next_of_pending_nil (m : AuthMiddleware) (fuel : Nat) (c : Context)
    (h : c.pending = []) : Context.Next m fuel c = c := by
  cases fuel with
  | zero => rfl
  | succ n => simp [Context.Next, h]

theorem Next_new_cons (m : AuthMiddleware) (fuel : Nat) (authorization : String)
    (h : Handler) (rest : List Handler) :
    Context.Next m (fuel + 1) (Context.new authorization (h :: rest))
      = Context.Next m fuel
          (h.run m (Context.Next m fuel) (Context.new authorization rest)) := rfl

theorem Parse_ok_valid {lib : JWT} {tokenString : String}
    {keyFunc : Token → Except Error String} {token : Token}
    (h : lib.Parse tokenString keyFunc = .ok token) : token.Valid = true := by
  unfold JWT.Parse at h
  split at h
  · cases h
  · split at h
    · cases h
    · split at h
      · cases h; rfl
      · cases h

theorem RequireAuth_of_empty (m : AuthMiddleware) (next : Context → Context) (c : Context)
    (h : c.authorization = "") :
    m.RequireAuth next c
      = (c.JSON 401 [("error", some "authorization header is required")]).Abort := by
  simp [AuthMiddleware.RequireAuth, h]

theorem RequireAuth_of_bad_format (m : AuthMiddleware) (next : Context → Context)
    (c : Context) (h : c.authorization ≠ "")
    (hf : ¬ ((stringsSplit c.authorization).length = 2
      ∧ (stringsSplit c.authorization).head? = some "Bearer")) :
    m.RequireAuth next c
      = (c.JSON 401 [("error", some "invalid authorization header format")]).Abort := by
  have hf' : (stringsSplit c.authorization).length ≠ 2
      ∨ (stringsSplit c.authorization).head? ≠ some "Bearer" := by
    by_cases hl : (stringsSplit c.authorization).length = 2
    · exact Or.inr fun hh => hf ⟨hl, hh⟩
    · exact Or.inl hl
  simp only [AuthMiddleware.RequireAuth, if_neg h, if_pos hf']

theorem RequireAuth_of_bad_token (m : AuthMiddleware) (next : Context → Context)
    (c : Context) (h : c.authorization ≠ "")
    (hl : (stringsSplit c.authorization).length = 2)
    (hh : (stringsSplit c.authorization).head? = some "Bearer") (err : Error)
    (hp : m.lib.Parse ((stringsSplit c.authorization).getD 1 "") m.keyFunc = .error err) :
    m.RequireAuth next c = (c.JSON 401 [("error", some "invalid token")]).Abort := by
  have hf' : ¬ ((stringsSplit c.authorization).length ≠ 2
      ∨ (stringsSplit c.authorization).head? ≠ some "Bearer") := by
    rintro (h1 | h1)
    · exact h1 hl
    · exact h1 hh
  simp only [AuthMiddleware.RequireAuth, if_neg h, if_neg hf', hp]

theorem RequireAuth_of_token (m : AuthMiddleware) (next : Context → Context)
    (c : Context) (h : c.authorization ≠ "")
    (hl : (stringsSplit c.authorization).length = 2)
    (hh : (stringsSplit c.authorization).head? = some "Bearer") (token : Token)
    (hp : m.lib.Parse ((stringsSplit c.authorization).getD 1 "") m.keyFunc = .ok token) :
    m.RequireAuth next c
      = next ((c.Set "user_id" (token.Claims.lookup "user_id")).Set "role"
          (token.Claims.lookup "role")) := by
  have hf' : ¬ ((stringsSplit c.authorization).length ≠ 2
      ∨ (stringsSplit c.authorization).head? ≠ some "Bearer") := by
    rintro (h1 | h1)
    · exact h1 hl
    · exact h1 hh
  simp only [AuthMiddleware.RequireAuth, if_neg h, if_neg hf', hp, Parse_ok_valid hp,
    if_true]

theorem Parse_error_iff (m : AuthMiddleware) (tokenString : String) :
    (∃ err, m.lib.Parse tokenString m.keyFunc = .error err)
      ↔ ∀ method claims, m.lib.decode tokenString = some (method, claims) →
          ¬ (method.isHMAC = true ∧ m.lib.verify tokenString method m.jwtSecret = true) := by
  unfold JWT.Parse AuthMiddleware.keyFunc
  cases hd : m.lib.decode tokenString with
  | none => simp
  | some p =>
    obtain ⟨method, claims⟩ := p
    by_cases hm : method.isHMAC = true
    · by_cases hv : m.lib.verify tokenString method m.jwtSecret = true
      · simp [hm, hv]
      · simp [hm, hv]
    · simp [hm]

/-- Claim C25.  For every request on a route that starts with `RequireAuth`, whatever
handlers follow it: when the `Authorization` header is empty, or when the header split
on a single space does not give exactly two parts whose first is "Bearer", or when the
second part does not parse under the middleware's secret (it is malformed, names a
method that is not HMAC, or fails verification), the request ends aborted with the
single response 401 and the error "authorization header is required", "invalid
authorization header format" or "invalid token" respectively, no context value set and
no endpoint run. -/
theorem RequireAuth_rejects (m : AuthMiddleware) (authorization : String)
    (rest : List Handler) (fuel : Nat) :
    (authorization = "" →
      Context.Next m (fuel + 1) (Context.new authorization (Handler.requireAuth :: rest))
        = ⟨authorization, [], [], true,
            [(401, [("error", some "authorization header is required")])], false⟩)
    ∧ (authorization ≠ "" →
        ¬ ((stringsSplit authorization).length = 2
          ∧ (stringsSplit authorization).head? = some "Bearer") →
      Context.Next m (fuel + 1) (Context.new authorization (Handler.requireAuth :: rest))
        = ⟨authorization, [], [], true,
            [(401, [("error", some "invalid authorization header format")])], false⟩)
    ∧ (authorization ≠ "" → (stringsSplit authorization).length = 2 →
        (stringsSplit authorization).head? = some "Bearer" →
        (∀ method claims,
          m.lib.decode ((stringsSplit authorization).getD 1 "") = some (method, claims) →
          ¬ (method.isHMAC = true
            ∧ m.lib.verify ((stringsSplit authorization).getD 1 "") method m.jwtSecret
                = true)) →
      Context.Next m (fuel + 1) (Context.new authorization (Handler.requireAuth :: rest))
        = ⟨authorization, [], [], true,
            [(401, [("error", some "invalid token")])], false⟩) := by
  refine ⟨fun h => ?_, fun h hf => ?_, fun h hl hh hp => ?_⟩
  · rw [Next_new_cons]
    show Context.Next m fuel (m.RequireAuth _ (Context.new authorization rest)) = _
    rw [RequireAuth_of_empty m _ _ h, Next_of_pending_nil _ _ _ rfl]
    rfl
  · rw [Next_new_cons]
    show Context.Next m fuel (m.RequireAuth _ (Context.new authorization rest)) = _
    rw [RequireAuth_of_bad_format m _ _ h hf, Next_of_pending_nil _ _ _ rfl]
    rfl
  · obtain ⟨err, he⟩ := (Parse_error_iff m _).mpr hp
    rw [Next_new_cons]
    show Context.Next m fuel (m.RequireAuth _ (Context.new authorization rest)) = _
    rw [RequireAuth_of_bad_token m _ _ h hl hh err he, Next_of_pending_nil _ _ _ rfl]
    rfl

theorem RequireAuth_rejects_witness :
    ("InvalidFormat" : String) ≠ ""
    ∧ ¬ ((stringsSplit "InvalidFormat").length = 2
        ∧ (stringsSplit "InvalidFormat").head? = some "Bearer")
    ∧ Context.Next ⟨"test-secret", exampleJWT⟩ (1 + 1)
        (Context.new "InvalidFormat" [Handler.requireAuth, Handler.protectedEndpoint])
      = ⟨"InvalidFormat", [], [], true,
          [(401, [("error", some "invalid authorization header format")])], false⟩ :=
  ⟨by decide, by decide,
    (RequireAuth_rejects ⟨"test-secret", exampleJWT⟩ "InvalidFormat"
      [Handler.protectedEndpoint] 1).2.1 (by decide) (by decide)⟩

theorem splitSpace_of_no_space : ∀ l : List Char, ' ' ∉ l → splitSpace l = [l] := by
  intro l
  induction l with
  | nil => intro _; rfl
  | cons c cs ih =>
    intro h
    have hc : ¬ c = ' ' := fun e => h (e ▸ List.mem_cons_self _ _)
    have hcs : ' ' ∉ cs := fun e => h (List.mem_cons_of_mem _ e)
    simp [splitSpace, hc, ih hcs]

theorem stringsSplit_bearer (tok : String) (h : ' ' ∉ tok.toList) :
    stringsSplit ("Bearer " ++ tok) = ["Bearer", tok] := by
  have hl : ("Bearer " ++ tok).toList
      = 'B' :: 'e' :: 'a' :: 'r' :: 'e' :: 'r' :: ' ' :: tok.toList := by
    simp [String.toList, String.data_append]
  unfold stringsSplit
  rw [hl]
  have h' : splitSpace tok.data = [tok.data] := splitSpace_of_no_space _ h
  simp [splitSpace, h']

theorem bearer_ne_empty (tok : String) : "Bearer " ++ tok ≠ "" := by
  intro h
  have := congrArg String.length h
  simp at this
  exact absurd this.1 (by decide)

theorem lookup_claimsOf (user : User) :
    (claimsOf user).lookup "user_id" = some (uuidString user.ID)
    ∧ (claimsOf user).lookup "email" = some user.Email
    ∧ (claimsOf user).lookup "role" = some user.Role := by
  refine ⟨?_, ?_, ?_⟩ <;> simp [claimsOf, List.lookup]

theorem Parse_of_signed (lib : JWT) (tok key : String) (method : SigningMethod)
    (claims : MapClaims) (keyFunc : Token → Except Error String)
    (hkey : keyFunc ⟨method, claims, false⟩ = .ok key)
    (hdecode : lib.decode tok = some (method, claims))
    (hverify : lib.verify tok method key = true) :
    lib.Parse tok keyFunc = .ok ⟨method, claims, true⟩ := by
  simp [JWT.Parse, hdecode, hkey, hverify]

theorem PlainJWT.readFields_escapeChar (c : Char) (rest acc : List Char) :
    PlainJWT.readFields (PlainJWT.escapeChar c ++ rest) false acc
      = PlainJWT.readFields rest false (c :: acc) := by
  unfold PlainJWT.escapeChar
  by_cases h1 : c = ' '
  · subst h1; simp [PlainJWT.readFields]
  · by_cases h2 : c = '.'
    · subst h2; simp [PlainJWT.readFields]
    · by_cases h3 : c = '_'
      · subst h3; simp [PlainJWT.readFields]
      · simp [PlainJWT.readFields, h1, h2, h3]

theorem PlainJWT.readFields_escape (l rest : List Char) :
    ∀ acc, PlainJWT.readFields (PlainJWT.escape l ++ rest) false acc
      = PlainJWT.readFields rest false (l.reverse ++ acc) := by
  induction l with
  | nil => intro acc; rfl
  | cons c cs ih =>
    intro acc
    rw [PlainJWT.escape, List.append_assoc, PlainJWT.readFields_escapeChar, ih]
    simp

theorem PlainJWT.readFields_writeFields (fs : List String) :
    PlainJWT.readFields (PlainJWT.writeFields fs) false [] = some fs := by
  induction fs with
  | nil => simp [PlainJWT.writeFields, PlainJWT.readFields]
  | cons f fs ih =>
    rw [PlainJWT.writeFields, PlainJWT.readFields_escape]
    simp [PlainJWT.readFields, ih]

theorem PlainJWT.space_not_mem_escape (l : List Char) : ' ' ∉ PlainJWT.escape l := by
  induction l with
  | nil => simp [PlainJWT.escape]
  | cons c cs ih =>
    rw [PlainJWT.escape, List.mem_append]
    rintro (h | h)
    · unfold PlainJWT.escapeChar at h
      by_cases h1 : c = ' '
      · simp [h1] at h
      · by_cases h2 : c = '.'
        · simp [h2] at h
        · by_cases h3 : c = '_'
          · simp [h3] at h
          · simp [h1, h2, h3] at h
            exact h1 h.symm
    · exact ih h

theorem PlainJWT.space_not_mem_writeFields (fs : List String) :
    ' ' ∉ PlainJWT.writeFields fs := by
  induction fs with
  | nil => simp [PlainJWT.writeFields]
  | cons f fs ih =>
    rw [PlainJWT.writeFields, List.mem_append, List.mem_cons]
    rintro (h | h | h)
    · exact PlainJWT.space_not_mem_escape _ h
    · exact absurd h (by decide)
    · exact ih h

theorem PlainJWT.pairUp_unpair (claims : MapClaims) :
    PlainJWT.pairUp (PlainJWT.unpair claims) = some claims := by
  induction claims with
  | nil => rfl
  | cons p rest ih =>
    obtain ⟨name, value⟩ := p
    simp [PlainJWT.unpair, PlainJWT.pairUp, ih]

theorem PlainJWT.methodOfName_methodName (method : SigningMethod) :
    PlainJWT.methodOfName (PlainJWT.methodName method) = some method := by
  cases method <;> decide

theorem plainJWT_lawful : plainJWT.Lawful := by
  refine ⟨?_, ?_, ?_, ?_⟩
  · intro method claims key _ h
    have := congrArg String.toList h
    simp [plainJWT, PlainJWT.writeFields] at this
  · intro method claims key _
    exact PlainJWT.space_not_mem_writeFields _
  · intro method claims key _
    refine ⟨claims, ?_, fun _ => rfl⟩
    simp [plainJWT, PlainJWT.readFields_writeFields, PlainJWT.methodOfName_methodName,
      PlainJWT.pairUp_unpair]
  · intro method claims key _ _ _ _
    simp [plainJWT, PlainJWT.readFields_writeFields]

theorem Parse_of_lawful (lib : JWT) (hlib : lib.Lawful) (method : SigningMethod)
    (claims : MapClaims) (key : String) (keyFunc : Token → Except Error String)
    (hm : method.isHMAC = true) (hexp : claims.lookup "exp" = none)
    (hnbf : claims.lookup "nbf" = none) (hiat : claims.lookup "iat" = none)
    (hkey : ∀ claims', keyFunc ⟨method, claims', false⟩ = .ok key) :
    ∃ token, lib.Parse (lib.signedString method claims key) keyFunc = .ok token
      ∧ token.Valid = true ∧ token.Method = method
      ∧ ∀ name, token.Claims.lookup name = claims.lookup name := by
  obtain ⟨claims', hd, hl⟩ := hlib.decode_signed method claims key hm
  refine ⟨⟨method, claims', true⟩, ?_, rfl, rfl, hl⟩
  exact Parse_of_signed lib _ key _ _ keyFunc (hkey claims') hd
    (hlib.verify_signed method claims key hm hexp hnbf hiat)

theorem claimsOf_no_time_claims (user : User) :
    (claimsOf user).lookup "exp" = none ∧ (claimsOf user).lookup "nbf" = none
      ∧ (claimsOf user).lookup "iat" = none := by
  refine ⟨?_, ?_, ?_⟩ <;> simp [claimsOf, List.lookup]

/-- Claim C26.  For every secret, every user and every JWT library that keeps the laws
`JWT.Lawful` (they speak of the tokens of all HMAC methods, claims and keys, not of the
one token at hand): `AuthMiddleware.GenerateToken` returns no error and a non-empty token;
the token parses as valid under the same secret, with the middleware's key function and
with one that only hands out the secret, to a token of method HS256 whose claims read
`user_id = user.ID.String()`, `email = user.Email` and `role = user.Role`; and a request
carrying "Bearer " followed by the token passes `RequireAuth` of a middleware with the
same secret: the endpoint runs with the context values `user_id = user.ID.String()`
and `role = user.Role` and answers 200. -/
theorem generated_token_passes_RequireAuth_of_lawful (m : AuthMiddleware) (user : User)
    (fuel : Nat) (hlib : m.lib.Lawful) :
    (m.GenerateToken user).2 = none
    ∧ (m.GenerateToken user).1 ≠ ""
    ∧ (∃ token, m.lib.Parse (m.GenerateToken user).1 m.keyFunc = .ok token
        ∧ token.Valid = true ∧ token.Method = SigningMethod.HS256
        ∧ token.Claims.lookup "user_id" = some (uuidString user.ID)
        ∧ token.Claims.lookup "email" = some user.Email
        ∧ token.Claims.lookup "role" = some user.Role)
    ∧ (∃ token, m.lib.Parse (m.GenerateToken user).1 (fun _ => .ok m.jwtSecret) = .ok token
        ∧ token.Valid = true ∧ token.Method = SigningMethod.HS256
        ∧ token.Claims.lookup "user_id" = some (uuidString user.ID)
        ∧ token.Claims.lookup "email" = some user.Email
        ∧ token.Claims.lookup "role" = some user.Role)
    ∧ Context.Next m (fuel + 2)
        (Context.new ("Bearer " ++ (m.GenerateToken user).1)
          [Handler.requireAuth, Handler.protectedEndpoint])
      = ⟨"Bearer " ++ (m.GenerateToken user).1,
          [("role", some user.Role), ("user_id", some (uuidString user.ID))], [], false,
          [(200, [("user_id", some (uuidString user.ID)), ("role", some user.Role)])],
          true⟩ := by
  obtain ⟨hexp, hnbf, hiat⟩ := claimsOf_no_time_claims user
  obtain ⟨h1, h2, h3⟩ := lookup_claimsOf user
  obtain ⟨token, hparse, hvalid, hmethod, hclaims⟩ :=
    Parse_of_lawful m.lib hlib SigningMethod.HS256 (claimsOf user) m.jwtSecret m.keyFunc
      rfl hexp hnbf hiat (fun _ => rfl)
  obtain ⟨token', hparse', hvalid', hmethod', hclaims'⟩ :=
    Parse_of_lawful m.lib hlib SigningMethod.HS256 (claimsOf user) m.jwtSecret
      (fun _ => .ok m.jwtSecret) rfl hexp hnbf hiat (fun _ => rfl)
  have hsplit := stringsSplit_bearer (m.GenerateToken user).1
    (hlib.signed_no_space SigningMethod.HS256 (claimsOf user) m.jwtSecret rfl)
  refine ⟨rfl, hlib.signed_ne_empty _ _ _ rfl,
    ⟨token, hparse, hvalid, hmethod, (hclaims _).trans h1, (hclaims _).trans h2,
      (hclaims _).trans h3⟩,
    ⟨token', hparse', hvalid', hmethod', (hclaims' _).trans h1, (hclaims' _).trans h2,
      (hclaims' _).trans h3⟩, ?_⟩
  rw [Next_new_cons]
  show Context.Next m (fuel + 1) (m.RequireAuth (Context.Next m (fuel + 1))
    (Context.new ("Bearer " ++ (m.GenerateToken user).1) [Handler.protectedEndpoint])) = _
  have hp' : m.lib.Parse ((stringsSplit (Context.new ("Bearer " ++ (m.GenerateToken user).1)
      [Handler.protectedEndpoint]).authorization).getD 1 "") m.keyFunc = .ok token := by
    show m.lib.Parse ((stringsSplit ("Bearer " ++ (m.GenerateToken user).1)).getD 1 "")
      m.keyFunc = _
    rw [hsplit]
    exact hparse
  rw [RequireAuth_of_token m _ _ (bearer_ne_empty _)
    (by show (stringsSplit ("Bearer " ++ (m.GenerateToken user).1)).length = 2
        rw [hsplit]; rfl)
    (by show (stringsSplit ("Bearer " ++ (m.GenerateToken user).1)).head? = some "Bearer"
        rw [hsplit]; rfl)
    _ hp']
  rw [(hclaims _).trans h1, (hclaims _).trans h3]
  rw [Next_of_pending_nil]
  · simp [Context.Next, Context.Set, Context.new, Handler.run, answerProtected,
      Context.JSON, Context.Get, List.lookup]
    cases fuel <;> simp [Context.Next]
  · simp [Context.Next, Context.Set, Context.new, Handler.run, answerProtected,
      Context.JSON]
    cases fuel <;> simp [Context.Next]

theorem generated_token_passes_RequireAuth_of_lawful_witness :
    plainJWT.Lawful
    ∧ ((AuthMiddleware.mk "test-secret" plainJWT).GenerateToken
        ⟨7, "test@example.com", "user"⟩).1
      = "HS256.test-secret.user_uid.7.email.test@example_dcom.role.user."
    ∧ Context.Next ⟨"test-secret", plainJWT⟩ (0 + 2)
        (Context.new ("Bearer " ++ ((AuthMiddleware.mk "test-secret" plainJWT).GenerateToken
            ⟨7, "test@example.com", "user"⟩).1)
          [Handler.requireAuth, Handler.protectedEndpoint])
      = ⟨"Bearer " ++ ((AuthMiddleware.mk "test-secret" plainJWT).GenerateToken
            ⟨7, "test@example.com", "user"⟩).1,
          [("role", some "user"), ("user_id", some (uuidString 7))], [], false,
          [(200, [("user_id", some (uuidString 7)), ("role", some "user")])], true⟩ :=
  ⟨plainJWT_lawful, by decide,
    (generated_token_passes_RequireAuth_of_lawful ⟨"test-secret", plainJWT⟩
      ⟨7, "test@example.com", "user"⟩ 0 plainJWT_lawful).2.2.2.2⟩

theorem RequireAuth_then_adminEndpoint (m : AuthMiddleware) (authorization tok : String)
    (token : Token) (fuel : Nat) (hsplit : stringsSplit authorization = ["Bearer", tok])
    (hparse : m.lib.Parse tok m.keyFunc = .ok token) :
    m.RequireAuth (Context.Next m (fuel + 1))
        (Context.new authorization [Handler.adminEndpoint])
      = ⟨authorization,
          [("role", token.Claims.lookup "role"), ("user_id", token.Claims.lookup "user_id")],
          [], false, [(200, [("message", some "admin access granted")])], true⟩ := by
  have hne : (Context.new authorization [Handler.adminEndpoint]).authorization ≠ "" := by
    show authorization ≠ ""
    intro h
    rw [h] at hsplit
    have h1 : (stringsSplit "").length = 1 := by decide
    have h2 := congrArg List.length hsplit
    rw [h1] at h2
    simp at h2
  rw [RequireAuth_of_token m _ _ hne
    (by show (stringsSplit authorization).length = 2
        rw [hsplit]; rfl)
    (by show (stringsSplit authorization).head? = some "Bearer"
        rw [hsplit]; rfl)
    token
    (by show m.lib.Parse ((stringsSplit authorization).getD 1 "") m.keyFunc = _
        rw [hsplit]; exact hparse)]
  simp [Context.Next, Context.Set, Context.new, Handler.run, answerAdmin, Context.JSON]
  cases fuel <;> simp [Context.Next]

/-- Claim C27 at an authenticated request whose role is not "admin".  On a route made of
`RequireAdmin` followed by the `/admin` endpoint, for every request whose header splits
into "Bearer" and a token that parses under the middleware's secret, the endpoint is
run whatever the role claim is, and its 200 answer is the first response written: the
`RequireAuth` handler that `RequireAdmin` calls ends in `c.Next()`, which runs the rest
of the route before `RequireAdmin` looks at the role.  When the role is not "admin" the
403 body "admin access required" is only written after it, and then the request is
aborted. -/
theorem RequireAdmin_runs_endpoint_before_role_check (m : AuthMiddleware)
    (authorization tok : String) (token : Token) (fuel : Nat)
    (hsplit : stringsSplit authorization = ["Bearer", tok])
    (hparse : m.lib.Parse tok m.keyFunc = .ok token) :
    (Context.Next m (fuel + 2)
        (Context.new authorization [Handler.requireAdmin, Handler.adminEndpoint])).endpointRan
      = true
    ∧ (Context.Next m (fuel + 2)
        (Context.new authorization [Handler.requireAdmin, Handler.adminEndpoint])).status
      = some 200
    ∧ (token.Claims.lookup "role" ≠ some "admin" →
      Context.Next m (fuel + 2)
          (Context.new authorization [Handler.requireAdmin, Handler.adminEndpoint])
        = ⟨authorization,
            [("role", token.Claims.lookup "role"),
              ("user_id", token.Claims.lookup "user_id")],
            [], true,
            [(200, [("message", some "admin access granted")]),
              (403, [("error", some "admin access required")])], true⟩) := by
  have hmid := RequireAuth_then_adminEndpoint m authorization tok token fuel hsplit hparse
  have hrun : Context.Next m (fuel + 2)
      (Context.new authorization [Handler.requireAdmin, Handler.adminEndpoint])
      = Context.Next m (fuel + 1) (m.RequireAdmin (Context.Next m (fuel + 1))
          (Context.new authorization [Handler.adminEndpoint])) := rfl
  by_cases hrole : token.Claims.lookup "role" = some "admin"
  · have hadmin : m.RequireAdmin (Context.Next m (fuel + 1))
        (Context.new authorization [Handler.adminEndpoint])
        = ⟨authorization,
            [("role", token.Claims.lookup "role"),
              ("user_id", token.Claims.lookup "user_id")],
            [], false, [(200, [("message", some "admin access granted")])], true⟩ := by
      unfold AuthMiddleware.RequireAdmin
      simp only [hmid]
      simp [Context.Get, List.lookup, hrole, Context.Next]
    rw [hrun, hadmin, Next_of_pending_nil _ _ _ rfl]
    exact ⟨rfl, rfl, fun h => absurd hrole h⟩
  · have hother : m.RequireAdmin (Context.Next m (fuel + 1))
        (Context.new authorization [Handler.adminEndpoint])
        = ⟨authorization,
            [("role", token.Claims.lookup "role"),
              ("user_id", token.Claims.lookup "user_id")],
            [], true,
            [(200, [("message", some "admin access granted")]),
              (403, [("error", some "admin access required")])], true⟩ := by
      unfold AuthMiddleware.RequireAdmin
      simp only [hmid]
      cases hl : token.Claims.lookup "role" with
      | none => simp [Context.Get, List.lookup, Context.JSON, Context.Abort]
      | some r =>
        have hr : ¬ r = "admin" := fun e => hrole (by rw [hl, e])
        simp [Context.Get, List.lookup, Context.JSON, Context.Abort, hr]
    rw [hrun, hother, Next_of_pending_nil _ _ _ rfl]
    exact ⟨rfl, rfl, fun _ => rfl⟩

theorem RequireAdmin_runs_endpoint_before_role_check_witness :
    stringsSplit "Bearer token-user" = ["Bearer", "token-user"]
    ∧ (Context.Next ⟨"test-secret", exampleJWT⟩ (0 + 2)
        (Context.new "Bearer token-user"
          [Handler.requireAdmin, Handler.adminEndpoint])).endpointRan = true
    ∧ (Context.Next ⟨"test-secret", exampleJWT⟩ (0 + 2)
        (Context.new "Bearer token-user"
          [Handler.requireAdmin, Handler.adminEndpoint])).status = some 200 :=
  ⟨by decide,
    (RequireAdmin_runs_endpoint_before_role_check ⟨"test-secret", exampleJWT⟩
      "Bearer token-user" "token-user"
      ⟨SigningMethod.HS256, claimsOf ⟨7, "u@example.com", "user"⟩, true⟩ 0 (by decide)
      rfl).1,
    (RequireAdmin_runs_endpoint_before_role_check ⟨"test-secret", exampleJWT⟩
      "Bearer token-user" "token-user"
      ⟨SigningMethod.HS256, claimsOf ⟨7, "u@example.com", "user"⟩, true⟩ 0 (by decide)
      rfl).2.1⟩

/-! ## Float64 arithmetic -/

namespace Machine

theorem roundHalfEven_intCast (n : ℤ) : roundHalfEven (n : ℚ) = n := by
  simp [roundHalfEven]

theorem roundHalfEven_of_tie (x : ℚ) (n : ℤ) (h : x = n + 1 / 2) :
    roundHalfEven x = if n % 2 = 0 then n else n + 1 := by
  unfold roundHalfEven
  have hf : ⌊x⌋ = n := Int.floor_eq_iff.2 ⟨by linarith, by linarith⟩
  simp only [hf]
  rw [if_neg (by linarith), if_neg (by linarith)]

theorem log_eq_of_bounds {q : ℚ} (hq : 0 < q) (L : ℤ) (h1 : (2 : ℚ) ^ L ≤ q)
    (h2 : q < (2 : ℚ) ^ (L + 1)) : Int.log 2 q = L := by
  have a := (Int.zpow_le_iff_le_log (b := 2) (by norm_num) hq).1 (by exact_mod_cast h1)
  have b := (Int.lt_zpow_iff_log_lt (b := 2) (by norm_num) hq).1 (by exact_mod_cast h2)
  omega

theorem round_zero : F64.round 0 = .fin 0 := by
  simp [F64.round]

theorem round_of_representable {q : ℚ} (h : F64.Representable q) : F64.round q = .fin q := by
  obtain ⟨m, e, hm, he1, he2, rfl⟩ := h
  unfold F64.round
  by_cases h0 : ((m : ℚ) * 2 ^ e) = 0
  · simp [h0]
  · rw [if_neg h0]
    have hq : (0 : ℚ) < |(m : ℚ) * 2 ^ e| := abs_pos.2 h0
    have hlt : |(m : ℚ) * 2 ^ e| < (2 : ℚ) ^ (53 + e) := by
      rw [abs_mul, abs_of_pos (zpow_pos (by norm_num : (0 : ℚ) < 2) e), zpow_add₀ (by norm_num)]
      apply mul_lt_mul_of_pos_right _ (zpow_pos (by norm_num) e)
      have := (Int.cast_lt (R := ℚ)).2 hm
      rw [Int.cast_abs, Int.cast_pow, Int.cast_ofNat] at this
      exact_mod_cast this
    have hL : Int.log 2 |(m : ℚ) * 2 ^ e| < 53 + e :=
      (Int.lt_zpow_iff_log_lt (b := 2) (by norm_num) hq).1 (by exact_mod_cast hlt)
    set e' : ℤ := max (Int.log 2 |(m : ℚ) * 2 ^ e| - 52) (-1074) with he'
    have hle : e' ≤ e := by
      rw [he']; exact max_le (by omega) he1
    obtain ⟨k, hk⟩ := Int.le.dest hle
    have hdiv : |(m : ℚ) * 2 ^ e| / 2 ^ e' = ((|m| * 2 ^ k : ℤ) : ℚ) := by
      rw [abs_mul, abs_of_pos (zpow_pos (by norm_num : (0 : ℚ) < 2) e), ← hk,
        zpow_add₀ (by norm_num)]
      field_simp
      ring_nf
    simp only [hdiv, roundHalfEven_intCast]
    have hback : (((|m| * 2 ^ k : ℤ) : ℚ)) * 2 ^ e' = |(m : ℚ) * 2 ^ e| := by
      rw [← hdiv]; field_simp
    rw [hback]
    have hmax : ¬ ((2 : ℚ) ^ (1024 : ℕ) ≤ |(m : ℚ) * 2 ^ e|) := by
      rw [not_le]
      refine lt_of_lt_of_le hlt ?_
      have : (2 : ℚ) ^ (53 + e) ≤ (2 : ℚ) ^ ((1024 : ℕ) : ℤ) :=
        zpow_le_zpow_right₀ (by norm_num) (by omega)
      rwa [zpow_natCast] at this
    rw [if_neg hmax]
    congr 1
    split_ifs with hneg
    · rw [abs_of_neg hneg, neg_neg]
    · rw [abs_of_nonneg (not_lt.1 hneg)]

theorem round_of_bounds {q : ℚ} (hq : 0 < q) (L m : ℤ) (h1 : (2 : ℚ) ^ L ≤ q)
    (h2 : q < (2 : ℚ) ^ (L + 1))
    (hm : roundHalfEven (q / 2 ^ max (L - 52) (-1074)) = m)
    (hfin : (m : ℚ) * 2 ^ max (L - 52) (-1074) < 2 ^ (1024 : ℕ)) :
    F64.round q = .fin (m * 2 ^ max (L - 52) (-1074)) := by
  unfold F64.round
  rw [if_neg (ne_of_gt hq), abs_of_pos hq, log_eq_of_bounds hq L h1 h2]
  simp only [hm]
  rw [if_neg (not_le.2 hfin), if_neg (not_lt.2 hq.le)]

theorem representable_intCast (n : ℤ) (h : |n| < 2 ^ 53) : F64.Representable (n : ℚ) :=
  ⟨n, 0, h, by norm_num, by norm_num, by simp⟩

theorem representable_1e16 : F64.Representable (10 ^ 16) :=
  ⟨5 * 10 ^ 15, 1, by norm_num, by norm_num, by norm_num, by norm_num⟩

theorem representable_1e16_add_two : F64.Representable (10 ^ 16 + 2) :=
  ⟨5 * 10 ^ 15 + 1, 1, by norm_num, by norm_num, by norm_num, by norm_num⟩

/-- The sum `1e16 + 1` has no `float64` of its own; it lies half way between `1e16` and
`1e16 + 2` and is rounded to `1e16`. -/
theorem round_1e16_add_one : F64.round (10 ^ 16 + 1) = .fin (10 ^ 16) := by
  rw [round_of_bounds (by norm_num) 53 (5 * 10 ^ 15) (by norm_num) (by norm_num)
    (by rw [roundHalfEven_of_tie _ (5 * 10 ^ 15) (by norm_num)]; norm_num) (by norm_num)]
  norm_num

/-- The difference `1e16 - 1` is rounded to `1e16` in the same way. -/
theorem round_1e16_sub_one : F64.round (10 ^ 16 - 1) = .fin (10 ^ 16) := by
  rw [round_of_bounds (by norm_num) 53 (5 * 10 ^ 15) (by norm_num) (by norm_num)
    (by rw [roundHalfEven_of_tie _ (5 * 10 ^ 15 - 1) (by norm_num)]; norm_num) (by norm_num)]
  norm_num

theorem F64.zero_def : (0 : F64) = .fin 0 := rfl

theorem F64.fin_add_fin (a b : ℚ) : (F64.fin a + F64.fin b : F64) = F64.round (a + b) := rfl

theorem F64.fin_sub_fin (a b : ℚ) : (F64.fin a - F64.fin b : F64) = F64.round (a - b) := rfl

theorem F64.fin_lt_fin (a b : ℚ) : (F64.fin a < F64.fin b) ↔ a < b := by
  show F64.blt _ _ = true ↔ _
  simp [F64.blt]

theorem F64.fin_le_fin (a b : ℚ) : (F64.fin a ≤ F64.fin b) ↔ a ≤ b := by
  show F64.ble _ _ = true ↔ _
  simp [F64.ble]

theorem F64.not_nan_lt (x : F64) : ¬ F64.nan < x := by
  show ¬ F64.blt _ _ = true
  simp [F64.blt]

theorem F64.not_lt_nan (x : F64) : ¬ x < F64.nan := by
  show ¬ F64.blt _ _ = true
  cases x <;> simp [F64.blt]

/-- The test `Amount <= 0` fails for the positive amounts and for NaN, and for nothing
else. -/
theorem F64.not_le_zero_iff (x : F64) : ¬ x ≤ 0 ↔ 0 < x ∨ x = .nan := by
  show ¬ F64.ble x (.fin 0) = true ↔ F64.blt (.fin 0) x = true ∨ _
  cases x with
  | nan => simp [F64.ble, F64.blt]
  | inf s => cases s <;> simp [F64.ble, F64.blt]
  | fin q => simp [F64.ble, F64.blt]

theorem F64.not_le_of_lt {x y : F64} (h : x < y) : ¬ y ≤ x := by
  revert h
  show F64.blt x y = true → ¬ F64.ble y x = true
  cases x with
  | nan => simp [F64.blt]
  | inf s =>
    cases y with
    | nan => simp [F64.blt]
    | inf t => cases s <;> cases t <;> simp [F64.blt, F64.ble]
    | fin b => cases s <;> simp [F64.blt, F64.ble]
  | fin a =>
    cases y with
    | nan => simp [F64.blt]
    | inf t => cases t <;> simp [F64.blt, F64.ble]
    | fin b => simp [F64.blt, F64.ble]

theorem F64.not_lt_of_le {x y : F64} (h : x ≤ y) : ¬ y < x :=
  fun h' => F64.not_le_of_lt h' h

/-! ## Balance arithmetic -/

/-- Claim C15, as stated, fails on `float64` amounts.  On a balance of `1e16`,
`Balance.Subtract(1.00)` returns `nil`, and the amount it leaves is `1e16` again, not
`1e16 - 1.00` (which is not a `float64`): the new amount is not the old amount minus
`a`.  Both operands are genuine `float64` values. -/
theorem Subtract_of_one_from_1e16 :
    F64.Valid (.fin (10 ^ 16)) ∧ F64.Valid (.fin 1)
    ∧ ((Balance.mk 1 1 "EUR" (.fin (10 ^ 16))).Subtract (.fin 1)).2 = none
    ∧ ((Balance.mk 1 1 "EUR" (.fin (10 ^ 16))).Subtract (.fin 1)).1.Amount = .fin (10 ^ 16)
    ∧ ((Balance.mk 1 1 "EUR" (.fin (10 ^ 16))).Subtract (.fin 1)).1.Amount.toRat
        ≠ (Balance.mk 1 1 "EUR" (.fin (10 ^ 16))).Amount.toRat - (F64.fin 1).toRat := by
  have hnlt : ¬ ((F64.fin (10 ^ 16) : F64) < F64.fin 1) := by
    rw [F64.fin_lt_fin]; norm_num
  have hres : (Balance.mk 1 1 "EUR" (.fin (10 ^ 16))).Subtract (.fin 1)
      = (Balance.mk 1 1 "EUR" (.fin (10 ^ 16)), none) := by
    simp only [Balance.Subtract, if_neg hnlt, F64.fin_sub_fin, round_1e16_sub_one]
  refine ⟨representable_1e16, representable_intCast 1 (by norm_num), ?_, ?_, ?_⟩
  · rw [hres]
  · rw [hres]
  · rw [hres]
    simp only [F64.toRat]
    norm_num

/-- Claim C15, amended.  For every balance `b` and amount `a`, `Balance.Subtract` returns
`ErrInsufficientFunds` if and only if `b.Amount < a` in `float64` (never when one of them
is NaN), and then `b` is unchanged; otherwise it returns `nil` and the new amount is the
`float64` difference `b.Amount - a`, the other fields staying as they were.  That
difference is the exact one whenever the exact one is a `float64` value; subtracting
exactly the whole of a finite balance succeeds and leaves zero. -/
theorem Subtract_float64_spec (b : Balance) (a : F64) :
    ((b.Subtract a).2 = some Error.ErrInsufficientFunds ↔ b.Amount < a)
    ∧ (b.Amount = .nan ∨ a = .nan → ¬ b.Amount < a)
    ∧ (b.Amount < a → (b.Subtract a).1 = b)
    ∧ (¬ b.Amount < a →
        (b.Subtract a).2 = none
        ∧ (b.Subtract a).1 = { b with Amount := b.Amount - a })
    ∧ (∀ x y : ℚ, b.Amount = .fin x → a = .fin y → y ≤ x → F64.Representable (x - y) →
        (b.Subtract a).2 = none ∧ (b.Subtract a).1 = { b with Amount := .fin (x - y) })
    ∧ (∀ x : ℚ, b.Amount = .fin x → a = .fin x →
        (b.Subtract a).2 = none ∧ (b.Subtract a).1 = { b with Amount := 0 }) := by
  unfold Balance.Subtract
  refine ⟨?_, ?_, ?_, ?_, ?_, ?_⟩
  · by_cases h : b.Amount < a <;> simp [h]
  · rintro (h | h)
    · rw [h]; exact F64.not_nan_lt a
    · rw [h]; exact F64.not_lt_nan _
  · intro h; simp [h]
  · intro h; simp [h]
  · intro x y hx hy hle hrep
    have hnlt : ¬ b.Amount < a := by
      rw [hx, hy, F64.fin_lt_fin]; exact not_lt.2 hle
    simp only [if_neg hnlt, true_and]
    rw [hx, hy, F64.fin_sub_fin, round_of_representable hrep]
  · intro x hx hy
    have hnlt : ¬ b.Amount < a := by
      rw [hx, hy, F64.fin_lt_fin]; exact lt_irrefl x
    simp only [if_neg hnlt, true_and]
    rw [hx, hy, F64.fin_sub_fin, sub_self, round_zero]
    rfl

theorem Subtract_float64_spec_witness :
    (Balance.mk 1 1 "EUR" (.fin 60)).Amount < .fin 70
    ∧ ((Balance.mk 1 1 "EUR" (.fin 60)).Subtract (.fin 70)).1 = Balance.mk 1 1 "EUR" (.fin 60) :=
  ⟨by decide, (Subtract_float64_spec (Balance.mk 1 1 "EUR" (.fin 60)) (.fin 70)).2.2.1 (by decide)⟩

/-! ## Validation of float64 amounts -/

/-- Claim C13, as stated, fails on `float64` amounts.  A deposit whose amount is NaN
passes `Transaction.Validate`, although `Amount > 0` is false for it: the test
`Amount <= 0` is false for NaN as well. -/
theorem Validate_accepts_nan :
    (Transaction.mk 0 1 TransactionTypeDeposit .nan "EUR" none "x" "" 0 0).Validate = none
    ∧ ¬ (0 < (Transaction.mk 0 1 TransactionTypeDeposit .nan "EUR" none "x" "" 0 0).Amount) :=
  ⟨by decide, by decide⟩

/-- Claim C13, amended.  For every transaction of type transfer with `Amount > 0` and no
`RecipientID`, `Transaction.Validate` returns `ErrMissingRecipient` and
`TransactionService.Create` returns it with the database it was given, before any
write.  And `Validate` returns `nil` exactly when the test `Amount <= 0` fails, which it
does when `Amount > 0` and when `Amount` is NaN, and the type is not transfer or the
`RecipientID` is set. -/
theorem Validate_float64_spec (env : Env) (db : Db) (transaction : Transaction) :
    (transaction.Type_ = TransactionTypeTransfer → 0 < transaction.Amount →
      transaction.RecipientID = none →
      transaction.Validate = some Error.ErrMissingRecipient
      ∧ TransactionService.Create env db transaction
          = (db, some Error.ErrMissingRecipient))
    ∧ (transaction.Validate = none ↔
        (0 < transaction.Amount ∨ transaction.Amount = .nan)
        ∧ (transaction.Type_ ≠ TransactionTypeTransfer ∨ transaction.RecipientID ≠ none)) := by
  constructor
  · intro hty hpos hrec
    have hv : transaction.Validate = some Error.ErrMissingRecipient := by
      simp [Transaction.Validate, F64.not_le_of_lt hpos, hty, hrec]
    exact ⟨hv, by simp [TransactionService.Create, hv]⟩
  · unfold Transaction.Validate
    rw [← F64.not_le_zero_iff]
    by_cases ha : transaction.Amount ≤ 0
    · simp [ha]
    · by_cases ht : transaction.Type_ = TransactionTypeTransfer ∧ transaction.RecipientID = none
      · simp [ha, ht]
      · simp only [ha, ht, if_false, true_iff]
        refine ⟨not_false, ?_⟩
        by_cases hty : transaction.Type_ = TransactionTypeTransfer
        · exact Or.inr fun hr => ht ⟨hty, hr⟩
        · exact Or.inl hty

theorem Validate_float64_spec_witness :
    (Transaction.mk 0 1 TransactionTypeTransfer (.fin 5) "EUR" none "x" "" 0 0).Type_
        = TransactionTypeTransfer
    ∧ 0 < (Transaction.mk 0 1 TransactionTypeTransfer (.fin 5) "EUR" none "x" "" 0 0).Amount
    ∧ (Transaction.mk 0 1 TransactionTypeTransfer (.fin 5) "EUR" none "x" "" 0 0).RecipientID
        = none
    ∧ TransactionService.Create ⟨7, 3, 4⟩ (Db.mk [] [⟨9, 1, "EUR", .fin 60⟩])
        (Transaction.mk 0 1 TransactionTypeTransfer (.fin 5) "EUR" none "x" "" 0 0)
      = (Db.mk [] [⟨9, 1, "EUR", .fin 60⟩], some Error.ErrMissingRecipient) :=
  ⟨by decide, by decide, by decide,
    ((Validate_float64_spec ⟨7, 3, 4⟩ (Db.mk [] [⟨9, 1, "EUR", .fin 60⟩])
      (Transaction.mk 0 1 TransactionTypeTransfer (.fin 5) "EUR" none "x" "" 0 0)).1
      (by decide) (by decide) (by decide)).2⟩

/-! ## The balance table under `Save` by primary key -/

theorem find?_putAmount (n u : UUID) (c : String) (x : F64) (u' : UUID) (c' : String)
    (rows : List Balance) :
    (putAmount n u c x rows).find? (fun r => decide (r.UserID = u' ∧ r.Currency = c'))
      = if u = u' ∧ c = c' then
          some (match rows.find? (fun r => decide (r.UserID = u ∧ r.Currency = c)) with
            | some r => { r with Amount := x }
            | none => ⟨n, u, c, x⟩)
        else rows.find? (fun r => decide (r.UserID = u' ∧ r.Currency = c')) := by
  induction rows with
  | nil =>
    by_cases h : u = u' ∧ c = c' <;> simp [putAmount, List.find?, h]
  | cons r rs ih =>
    by_cases hr : r.UserID = u ∧ r.Currency = c
    · by_cases h : u = u' ∧ c = c'
      · obtain ⟨rfl, rfl⟩ := h
        simp [putAmount, hr, List.find?]
      · have h' : ¬ (r.UserID = u' ∧ r.Currency = c') := by
          rw [hr.1, hr.2]; exact h
        simp [putAmount, hr, List.find?, h, h']
    · by_cases hk : r.UserID = u' ∧ r.Currency = c'
      · have h : ¬ (u = u' ∧ c = c') := by
          rintro ⟨h1, h2⟩
          exact hr ⟨hk.1.trans h1.symm, hk.2.trans h2.symm⟩
        rw [putAmount, if_neg hr, if_neg h, List.find?_cons_of_pos _ (by simpa using hk),
          List.find?_cons_of_pos _ (by simpa using hk)]
      · have hk' : decide (r.UserID = u' ∧ r.Currency = c') = false := by simpa using hk
        have hr' : decide (r.UserID = u ∧ r.Currency = c) = false := by simpa using hr
        simp only [putAmount, if_neg hr, List.find?_cons, hk', hr']
        exact ih

theorem putAmount_of_find?_none (n u : UUID) (c : String) (x : F64) :
    ∀ rows : List Balance,
      rows.find? (fun r => decide (r.UserID = u ∧ r.Currency = c)) = none →
      putAmount n u c x rows = rows ++ [⟨n, u, c, x⟩] := by
  intro rows
  induction rows with
  | nil => intro _; rfl
  | cons r rs ih =>
    intro h
    by_cases hr : r.UserID = u ∧ r.Currency = c
    · rw [List.find?_cons_of_pos _ (by simpa using hr)] at h
      cases h
    · rw [List.find?_cons_of_neg _ (by simpa using hr)] at h
      rw [putAmount, if_neg hr, ih h]
      rfl

theorem map_update_of_not_mem (b : Balance) (id : UUID) :
    ∀ rows : List Balance, id ∉ rows.map Balance.ID →
      rows.map (fun r => if r.ID = id then b else r) = rows := by
  intro rows
  induction rows with
  | nil => intro _; rfl
  | cons r rs ih =>
    intro h
    simp only [List.map_cons, List.mem_cons, not_or] at h
    rw [List.map_cons, if_neg (fun e => h.1 e.symm), ih h.2]

theorem putAmount_of_find?_some (n u : UUID) (c : String) (x : F64) (r : Balance) :
    ∀ rows : List Balance, (rows.map Balance.ID).Nodup →
      rows.find? (fun r => decide (r.UserID = u ∧ r.Currency = c)) = some r →
      putAmount n u c x rows
        = rows.map (fun row => if row.ID = r.ID then { r with Amount := x } else row) := by
  intro rows
  induction rows with
  | nil => intro _ h; cases h
  | cons r0 rs ih =>
    intro hnd h
    rw [List.map_cons, List.nodup_cons] at hnd
    by_cases hr : r0.UserID = u ∧ r0.Currency = c
    · rw [List.find?_cons_of_pos _ (by simpa using hr)] at h
      cases h
      rw [putAmount, if_pos hr, List.map_cons, if_pos rfl, map_update_of_not_mem _ _ rs hnd.1]
    · rw [List.find?_cons_of_neg _ (by simpa using hr)] at h
      have hmem : r.ID ∈ rs.map Balance.ID :=
        List.mem_map_of_mem _ (List.mem_of_find?_eq_some h)
      have hne : r0.ID ≠ r.ID := fun e => hnd.1 (e ▸ hmem)
      rw [putAmount, if_neg hr, List.map_cons, if_neg hne, ih hnd.2 h]

theorem First_mem_pk {db : Db} {u : UUID} {c : String} {b : Balance}
    (h : db.First u c = some b) : b ∈ db.balances :=
  List.mem_of_find?_eq_some h

/-- Saving a row that `First` found, with a new amount, changes the amount of that row
and nothing else. -/
theorem Save_found (env : Env) {db : Db} {u : UUID} {c : String} {r : Balance} (x : F64)
    (hwf : db.WF) (hF : db.First u c = some r) :
    db.Save env { r with Amount := x }
      = { db with balances := putAmount env.newBalanceID u c x db.balances } := by
  have hmem := First_mem_pk hF
  have hid : r.ID ≠ uuidNil := fun e => hwf.2.1 (e ▸ List.mem_map_of_mem _ hmem)
  have hany : db.balances.any (fun row => decide (row.ID = r.ID)) = true :=
    List.any_eq_true.2 ⟨r, hmem, by simp⟩
  unfold Db.Save
  simp only [if_neg hid, hany, if_true]
  rw [putAmount_of_find?_some _ _ _ _ r db.balances hwf.1 hF]

/-- Saving a new row for a pair that `First` did not find adds the row at the end, under
the identifier `BeforeCreate` draws. -/
theorem Save_new (env : Env) {db : Db} {u : UUID} {c : String} (x : F64)
    (hF : db.First u c = none) :
    db.Save env ⟨uuidNil, u, c, x⟩
      = { db with balances := putAmount env.newBalanceID u c x db.balances } := by
  unfold Db.Save
  simp only [if_true]
  rw [putAmount_of_find?_none _ _ _ _ db.balances hF]

theorem First_putAmount (l : List Transaction) (n u : UUID) (c : String) (x : F64)
    (u' : UUID) (c' : String) (rows : List Balance) :
    Db.First ⟨l, putAmount n u c x rows⟩ u' c'
      = if u = u' ∧ c = c' then
          some (match Db.First ⟨l, rows⟩ u c with
            | some r => { r with Amount := x }
            | none => ⟨n, u, c, x⟩)
        else Db.First ⟨l, rows⟩ u' c' :=
  find?_putAmount n u c x u' c' rows

theorem balance_putAmount (l l' : List Transaction) (n u : UUID) (c : String) (x : F64)
    (u' : UUID) (c' : String) (rows : List Balance) :
    Db.balance ⟨l, putAmount n u c x rows⟩ u' c'
      = if u = u' ∧ c = c' then x else Db.balance ⟨l', rows⟩ u' c' := by
  unfold Db.balance
  rw [First_putAmount]
  by_cases h : u = u' ∧ c = c'
  · rw [if_pos h, if_pos h]
    cases Db.First ⟨l, rows⟩ u c <;> rfl
  · rw [if_neg h, if_neg h]
    rfl

theorem ids_putAmount (n u : UUID) (c : String) (x : F64) (rows : List Balance) :
    (putAmount n u c x rows).map Balance.ID
      = if (u, c) ∈ balanceKeys rows then rows.map Balance.ID
        else rows.map Balance.ID ++ [n] := by
  induction rows with
  | nil => simp [putAmount, balanceKeys]
  | cons r rs ih =>
    by_cases hr : r.UserID = u ∧ r.Currency = c
    · have : (u, c) ∈ balanceKeys (r :: rs) := by
        simp [balanceKeys, hr.1.symm, hr.2.symm]
      rw [putAmount, if_pos hr, if_pos this]
      rfl
    · rw [putAmount, if_neg hr, List.map_cons, ih]
      have hiff : (u, c) ∈ balanceKeys (r :: rs) ↔ (u, c) ∈ balanceKeys rs := by
        simp only [balanceKeys, List.map_cons, List.mem_cons, Prod.mk.injEq]
        constructor
        · rintro (⟨h1, h2⟩ | h)
          · exact absurd ⟨h1.symm, h2.symm⟩ hr
          · exact h
        · exact Or.inr
      by_cases hk : (u, c) ∈ balanceKeys rs
      · rw [if_pos hk, if_pos (hiff.2 hk)]; rfl
      · rw [if_neg hk, if_neg (fun h => hk (hiff.1 h))]; rfl

theorem balanceKeys_putAmount (n u : UUID) (c : String) (x : F64) (rows : List Balance) :
    balanceKeys (putAmount n u c x rows)
      = if (u, c) ∈ balanceKeys rows then balanceKeys rows
        else balanceKeys rows ++ [(u, c)] := by
  induction rows with
  | nil => simp [putAmount, balanceKeys]
  | cons r rs ih =>
    by_cases hr : r.UserID = u ∧ r.Currency = c
    · have : (u, c) ∈ balanceKeys (r :: rs) := by
        simp [balanceKeys, hr.1.symm, hr.2.symm]
      rw [putAmount, if_pos hr, if_pos this]
      rfl
    · have hiff : (u, c) ∈ balanceKeys (r :: rs) ↔ (u, c) ∈ balanceKeys rs := by
        simp only [balanceKeys, List.map_cons, List.mem_cons, Prod.mk.injEq]
        constructor
        · rintro (⟨h1, h2⟩ | h)
          · exact absurd ⟨h1.symm, h2.symm⟩ hr
          · exact h
        · exact Or.inr
      have hcons : ∀ l : List Balance, balanceKeys (r :: l) = (r.UserID, r.Currency) :: balanceKeys l :=
        fun _ => rfl
      rw [putAmount, if_neg hr, hcons, ih]
      by_cases hk : (u, c) ∈ balanceKeys rs
      · rw [if_pos hk, if_pos (hiff.2 hk)]; rfl
      · rw [if_neg hk, if_neg (fun h => hk (hiff.1 h))]; rfl

theorem mem_balanceKeys_iff (db : Db) (u : UUID) (c : String) :
    (u, c) ∈ balanceKeys db.balances ↔ db.First u c ≠ none := by
  unfold Db.First balanceKeys
  rw [Ne, List.find?_eq_none]
  simp only [List.mem_map, Prod.mk.injEq, decide_eq_true_eq, not_forall, not_not]
  constructor
  · rintro ⟨b, hb, h1, h2⟩; exact ⟨b, hb, h1, h2⟩
  · rintro ⟨b, hb, h1, h2⟩; exact ⟨b, hb, h1, h2⟩

/-- Giving a pair an amount keeps the integrity of the table, provided the identifier
for a new row is fresh when the pair has no row. -/
theorem WF_putAmount (l l' : List Transaction) (n u : UUID) (c : String) (x : F64)
    (rows : List Balance) (hwf : Db.WF ⟨l, rows⟩)
    (hfresh : (u, c) ∉ balanceKeys rows → n ≠ uuidNil ∧ n ∉ rows.map Balance.ID) :
    Db.WF ⟨l', putAmount n u c x rows⟩ := by
  obtain ⟨h1, h2, h3⟩ := hwf
  unfold Db.WF Db.UniqueKeys at *
  simp only at h1 h2 h3 ⊢
  rw [ids_putAmount, balanceKeys_putAmount]
  by_cases hk : (u, c) ∈ balanceKeys rows
  · simp only [if_pos hk]
    exact ⟨h1, h2, h3⟩
  · simp only [if_neg hk]
    obtain ⟨hn0, hnew⟩ := hfresh hk
    refine ⟨?_, ?_, ?_⟩
    · exact List.Nodup.append h1 (List.nodup_singleton n) (by simpa using hnew)
    · simp only [List.mem_append, List.mem_singleton, not_or]
      exact ⟨h2, fun e => hn0 e.symm⟩
    · exact List.Nodup.append h3 (List.nodup_singleton _) (by simpa using hk)

/-! ## The blocks of `Create` on a sound table -/

theorem First_mk_pk (l : List Transaction) (db : Db) (u : UUID) (c : String) :
    Db.First ⟨l, db.balances⟩ u c = db.First u c := rfl

theorem balance_mk_pk (l : List Transaction) (db : Db) (u : UUID) (c : String) :
    Db.balance ⟨l, db.balances⟩ u c = db.balance u c := rfl

theorem F64.zero_add_of_valid {a : F64} (h : a.Valid) : (0 : F64) + a = a := by
  cases a with
  | nan => rfl
  | inf s => rfl
  | fin q =>
    show F64.round (0 + q) = _
    rw [zero_add, round_of_representable h]

theorem updateSenderBalance_of_other (env : Env) {tx : Transaction} (db : Db)
    (h1 : tx.Type_ ≠ TransactionTypeWithdraw) (h2 : tx.Type_ ≠ TransactionTypeTransfer) :
    updateSenderBalance env tx db = .ok db := by
  unfold updateSenderBalance
  rw [if_neg (by rintro (h | h); exacts [h1 h, h2 h])]

theorem updateSenderBalance_of_missing (env : Env) {tx : Transaction} {db : Db}
    (hty : tx.Type_ = TransactionTypeWithdraw ∨ tx.Type_ = TransactionTypeTransfer)
    (hF : db.First tx.UserID tx.Currency = none) :
    updateSenderBalance env tx db = .error Error.ErrInsufficientFunds := by
  unfold updateSenderBalance
  rw [if_pos hty, hF]

theorem updateSenderBalance_of_lt (env : Env) {tx : Transaction} {db : Db} {r : Balance}
    (hty : tx.Type_ = TransactionTypeWithdraw ∨ tx.Type_ = TransactionTypeTransfer)
    (hF : db.First tx.UserID tx.Currency = some r) (hlt : r.Amount < tx.Amount) :
    updateSenderBalance env tx db = .error Error.ErrInsufficientFunds := by
  unfold updateSenderBalance
  rw [if_pos hty, hF]
  simp only [Balance.Subtract, if_pos hlt]

theorem updateSenderBalance_of_not_lt (env : Env) {tx : Transaction} {db : Db} {r : Balance}
    (hwf : db.WF)
    (hty : tx.Type_ = TransactionTypeWithdraw ∨ tx.Type_ = TransactionTypeTransfer)
    (hF : db.First tx.UserID tx.Currency = some r) (hlt : ¬ r.Amount < tx.Amount) :
    updateSenderBalance env tx db
      = .ok ⟨db.transactions, putAmount env.newBalanceID tx.UserID tx.Currency
          (r.Amount - tx.Amount) db.balances⟩ := by
  unfold updateSenderBalance
  rw [if_pos hty, hF]
  simp only [Balance.Subtract, if_neg hlt]
  rw [Save_found env _ hwf hF]

theorem updateRecipientBalance_of_other (env : Env) {tx : Transaction} (db : Db)
    (h : tx.Type_ ≠ TransactionTypeTransfer ∨ tx.RecipientID = none) :
    updateRecipientBalance env tx db = .ok db := by
  unfold updateRecipientBalance
  cases hr : tx.RecipientID with
  | none => rfl
  | some v =>
    rcases h with h | h
    · simp only [if_neg h]
    · rw [hr] at h; cases h

theorem updateRecipientBalance_of_transfer (env : Env) {tx : Transaction} {db : Db} {v : UUID}
    (hwf : db.WF) (hty : tx.Type_ = TransactionTypeTransfer) (hrec : tx.RecipientID = some v) :
    updateRecipientBalance env tx db
      = .ok ⟨db.transactions, putAmount env.newBalanceID v tx.Currency
          (db.balance v tx.Currency + tx.Amount) db.balances⟩ := by
  unfold updateRecipientBalance
  rw [hrec]
  simp only [if_pos hty]
  cases hF : db.First v tx.Currency with
  | none =>
    simp only [Balance.Add, Db.balance, hF]
    rw [Save_new env _ hF]
  | some r =>
    simp only [Balance.Add, Db.balance, hF]
    rw [Save_found env _ hwf hF]

theorem updateDepositBalance_of_other (env : Env) {tx : Transaction} (db : Db)
    (h : tx.Type_ ≠ TransactionTypeDeposit) :
    updateDepositBalance env tx db = .ok db := by
  unfold updateDepositBalance
  rw [if_neg h]

theorem updateDepositBalance_of_deposit (env : Env) {tx : Transaction} {db : Db}
    (hwf : db.WF) (hty : tx.Type_ = TransactionTypeDeposit) :
    updateDepositBalance env tx db
      = .ok ⟨db.transactions, putAmount env.newBalanceID tx.UserID tx.Currency
          (db.balance tx.UserID tx.Currency + tx.Amount) db.balances⟩ := by
  unfold updateDepositBalance
  rw [if_pos hty]
  cases hF : db.First tx.UserID tx.Currency with
  | none =>
    simp only [Balance.Add, Db.balance, hF]
    rw [Save_new env _ hF]
  | some r =>
    simp only [Balance.Add, Db.balance, hF]
    rw [Save_found env _ hwf hF]

/-! ## What each movement does on float64 amounts -/

theorem Deposit_of_invalid (env : Env) (db : Db) (u : UUID) (a : F64) (c d : String)
    (ha : a ≤ 0) :
    TransactionService.Deposit env db u a c d = (db, some Error.ErrInvalidAmount) := by
  simp [TransactionService.Deposit, TransactionService.Create, Transaction.Validate, ha]

theorem Withdraw_of_invalid (env : Env) (db : Db) (u : UUID) (a : F64) (c d : String)
    (ha : a ≤ 0) :
    TransactionService.Withdraw env db u a c d = (db, some Error.ErrInvalidAmount) := by
  simp [TransactionService.Withdraw, TransactionService.Create, Transaction.Validate, ha]

theorem Transfer_of_invalid (env : Env) (db : Db) (u v : UUID) (a : F64) (c d : String)
    (hne : u ≠ v) (ha : a ≤ 0) :
    TransactionService.Transfer env db u v a c d = (db, some Error.ErrInvalidAmount) := by
  simp [TransactionService.Transfer, TransactionService.Create, Transaction.Validate, ha,
    hne]

theorem Transfer_self_f64 (env : Env) (db : Db) (u : UUID) (a : F64) (c d : String) :
    TransactionService.Transfer env db u u a c d
      = (db, some (Error.New "cannot transfer to the same account")) := by
  simp [TransactionService.Transfer]

theorem Deposit_of_valid (env : Env) (db : Db) (u : UUID) (a : F64) (c d : String)
    (hwf : db.WF) (ha : ¬ a ≤ 0) :
    TransactionService.Deposit env db u a c d
      = (⟨db.transactions ++ [depositEntry env u a c d],
          putAmount env.newBalanceID u c (db.balance u c + a) db.balances⟩, none) := by
  have hins : (Transaction.mk uuidNil u TransactionTypeDeposit a c none d "" zeroTime
      zeroTime).inserted env = depositEntry env u a c d := by
    simp [Transaction.inserted, depositEntry, uuidNil, zeroTime]
  have hv : (Transaction.mk uuidNil u TransactionTypeDeposit a c none d "" zeroTime
      zeroTime).Validate = none := by
    simp [Transaction.Validate, ha, TransactionTypeDeposit, TransactionTypeTransfer]
  unfold TransactionService.Deposit TransactionService.Create
  simp only [hv]
  unfold TransactionRepository.Create Db.Transaction createBody
  simp only [hins]
  rw [updateSenderBalance_of_other env _ (by simp [depositEntry, TransactionTypeDeposit,
      TransactionTypeWithdraw]) (by simp [depositEntry, TransactionTypeDeposit,
      TransactionTypeTransfer])]
  simp only [Except.bind]
  rw [updateRecipientBalance_of_other env _ (Or.inr rfl)]
  simp only []
  rw [updateDepositBalance_of_deposit env (by exact hwf) rfl]
  rfl

theorem Withdraw_of_missing (env : Env) (db : Db) (u : UUID) (a : F64) (c d : String)
    (ha : ¬ a ≤ 0) (hF : db.First u c = none) :
    TransactionService.Withdraw env db u a c d = (db, some Error.ErrInsufficientFunds) := by
  have hins : (Transaction.mk uuidNil u TransactionTypeWithdraw a c none d "" zeroTime
      zeroTime).inserted env = withdrawEntry env u a c d := by
    simp [Transaction.inserted, withdrawEntry, uuidNil, zeroTime]
  have hv : (Transaction.mk uuidNil u TransactionTypeWithdraw a c none d "" zeroTime
      zeroTime).Validate = none := by
    simp [Transaction.Validate, ha, TransactionTypeWithdraw, TransactionTypeTransfer]
  unfold TransactionService.Withdraw TransactionService.Create
  simp only [hv]
  unfold TransactionRepository.Create Db.Transaction createBody
  simp only [hins]
  rw [updateSenderBalance_of_missing env (Or.inl rfl) (by exact hF)]
  rfl

theorem Withdraw_of_lt_f64 (env : Env) (db : Db) (u : UUID) (a : F64) (c d : String)
    (ha : ¬ a ≤ 0) {r : Balance} (hF : db.First u c = some r) (hlt : r.Amount < a) :
    TransactionService.Withdraw env db u a c d = (db, some Error.ErrInsufficientFunds) := by
  have hins : (Transaction.mk uuidNil u TransactionTypeWithdraw a c none d "" zeroTime
      zeroTime).inserted env = withdrawEntry env u a c d := by
    simp [Transaction.inserted, withdrawEntry, uuidNil, zeroTime]
  have hv : (Transaction.mk uuidNil u TransactionTypeWithdraw a c none d "" zeroTime
      zeroTime).Validate = none := by
    simp [Transaction.Validate, ha, TransactionTypeWithdraw, TransactionTypeTransfer]
  unfold TransactionService.Withdraw TransactionService.Create
  simp only [hv]
  unfold TransactionRepository.Create Db.Transaction createBody
  simp only [hins]
  rw [updateSenderBalance_of_lt env (Or.inl rfl) (by exact hF) (by exact hlt)]
  rfl

theorem Withdraw_of_not_lt (env : Env) (db : Db) (u : UUID) (a : F64) (c d : String)
    (hwf : db.WF) (ha : ¬ a ≤ 0) {r : Balance} (hF : db.First u c = some r)
    (hlt : ¬ r.Amount < a) :
    TransactionService.Withdraw env db u a c d
      = (⟨db.transactions ++ [withdrawEntry env u a c d],
          putAmount env.newBalanceID u c (r.Amount - a) db.balances⟩, none) := by
  have hins : (Transaction.mk uuidNil u TransactionTypeWithdraw a c none d "" zeroTime
      zeroTime).inserted env = withdrawEntry env u a c d := by
    simp [Transaction.inserted, withdrawEntry, uuidNil, zeroTime]
  have hv : (Transaction.mk uuidNil u TransactionTypeWithdraw a c none d "" zeroTime
      zeroTime).Validate = none := by
    simp [Transaction.Validate, ha, TransactionTypeWithdraw, TransactionTypeTransfer]
  unfold TransactionService.Withdraw TransactionService.Create
  simp only [hv]
  unfold TransactionRepository.Create Db.Transaction createBody
  simp only [hins]
  rw [updateSenderBalance_of_not_lt env (by exact hwf) (Or.inl rfl) (by exact hF)
    (by exact hlt)]
  simp only [Except.bind]
  rw [updateRecipientBalance_of_other env _ (Or.inr rfl)]
  simp only []
  rw [updateDepositBalance_of_other env _ (by simp [withdrawEntry, TransactionTypeDeposit,
      TransactionTypeWithdraw])]
  rfl

theorem Transfer_of_missing (env : Env) (db : Db) (u v : UUID) (a : F64) (c d : String)
    (hne : u ≠ v) (ha : ¬ a ≤ 0) (hF : db.First u c = none) :
    TransactionService.Transfer env db u v a c d = (db, some Error.ErrInsufficientFunds) := by
  have hins : (Transaction.mk uuidNil u TransactionTypeTransfer a c (some v) d "" zeroTime
      zeroTime).inserted env = transferEntry env u v a c d := by
    simp [Transaction.inserted, transferEntry, uuidNil, zeroTime]
  have hv : (Transaction.mk uuidNil u TransactionTypeTransfer a c (some v) d "" zeroTime
      zeroTime).Validate = none := by
    simp [Transaction.Validate, ha]
  unfold TransactionService.Transfer TransactionService.Create
  rw [if_neg hne]
  simp only [hv]
  unfold TransactionRepository.Create Db.Transaction createBody
  simp only [hins]
  rw [updateSenderBalance_of_missing env (Or.inr rfl) (by exact hF)]
  rfl

theorem Transfer_of_lt_f64 (env : Env) (db : Db) (u v : UUID) (a : F64) (c d : String)
    (hne : u ≠ v) (ha : ¬ a ≤ 0) {r : Balance} (hF : db.First u c = some r)
    (hlt : r.Amount < a) :
    TransactionService.Transfer env db u v a c d = (db, some Error.ErrInsufficientFunds) := by
  have hins : (Transaction.mk uuidNil u TransactionTypeTransfer a c (some v) d "" zeroTime
      zeroTime).inserted env = transferEntry env u v a c d := by
    simp [Transaction.inserted, transferEntry, uuidNil, zeroTime]
  have hv : (Transaction.mk uuidNil u TransactionTypeTransfer a c (some v) d "" zeroTime
      zeroTime).Validate = none := by
    simp [Transaction.Validate, ha]
  unfold TransactionService.Transfer TransactionService.Create
  rw [if_neg hne]
  simp only [hv]
  unfold TransactionRepository.Create Db.Transaction createBody
  simp only [hins]
  rw [updateSenderBalance_of_lt env (Or.inr rfl) (by exact hF) (by exact hlt)]
  rfl

theorem Transfer_of_not_lt (env : Env) (db : Db) (u v : UUID) (a : F64) (c d : String)
    (hwf : db.WF) (hne : u ≠ v) (ha : ¬ a ≤ 0) {r : Balance} (hF : db.First u c = some r)
    (hlt : ¬ r.Amount < a) :
    TransactionService.Transfer env db u v a c d
      = (⟨db.transactions ++ [transferEntry env u v a c d],
          putAmount env.newBalanceID v c (db.balance v c + a)
            (putAmount env.newBalanceID u c (r.Amount - a) db.balances)⟩, none) := by
  have hins : (Transaction.mk uuidNil u TransactionTypeTransfer a c (some v) d "" zeroTime
      zeroTime).inserted env = transferEntry env u v a c d := by
    simp [Transaction.inserted, transferEntry, uuidNil, zeroTime]
  have hv : (Transaction.mk uuidNil u TransactionTypeTransfer a c (some v) d "" zeroTime
      zeroTime).Validate = none := by
    simp [Transaction.Validate, ha]
  have hkey : (u, c) ∈ balanceKeys db.balances :=
    (mem_balanceKeys_iff db u c).2 (by rw [hF]; exact Option.some_ne_none r)
  have h1 : updateSenderBalance env (transferEntry env u v a c d)
      ⟨db.transactions ++ [transferEntry env u v a c d], db.balances⟩
      = .ok ⟨db.transactions ++ [transferEntry env u v a c d],
          putAmount env.newBalanceID u c (r.Amount - a) db.balances⟩ :=
    @updateSenderBalance_of_not_lt env (transferEntry env u v a c d)
      ⟨db.transactions ++ [transferEntry env u v a c d], db.balances⟩ r hwf (Or.inr rfl) hF hlt
  have h2 : updateRecipientBalance env (transferEntry env u v a c d)
      ⟨db.transactions ++ [transferEntry env u v a c d],
        putAmount env.newBalanceID u c (r.Amount - a) db.balances⟩
      = .ok ⟨db.transactions ++ [transferEntry env u v a c d],
          putAmount env.newBalanceID v c (db.balance v c + a)
            (putAmount env.newBalanceID u c (r.Amount - a) db.balances)⟩ := by
    have := @updateRecipientBalance_of_transfer env (transferEntry env u v a c d)
      ⟨db.transactions ++ [transferEntry env u v a c d],
        putAmount env.newBalanceID u c (r.Amount - a) db.balances⟩ v
      (WF_putAmount db.transactions _ _ _ _ _ _ hwf (fun h => absurd hkey h)) rfl rfl
    rw [this]
    have hbal : Db.balance ⟨db.transactions ++ [transferEntry env u v a c d],
        putAmount env.newBalanceID u c (r.Amount - a) db.balances⟩ v
          (transferEntry env u v a c d).Currency = db.balance v c := by
      show Db.balance ⟨_, putAmount env.newBalanceID u c (r.Amount - a) db.balances⟩ v c = _
      rw [balance_putAmount _ db.transactions, if_neg (fun h => hne h.1)]
    rw [hbal]
    rfl
  have h3 := @updateDepositBalance_of_other env (transferEntry env u v a c d)
    ⟨db.transactions ++ [transferEntry env u v a c d],
      putAmount env.newBalanceID v c (db.balance v c + a)
        (putAmount env.newBalanceID u c (r.Amount - a) db.balances)⟩
    (by simp [transferEntry, TransactionTypeDeposit, TransactionTypeTransfer])
  unfold TransactionService.Transfer TransactionService.Create
  rw [if_neg hne]
  simp only [hv]
  unfold TransactionRepository.Create Db.Transaction createBody
  simp only [hins, Db.Create, h1, Except.bind, h2, h3]

/-! ## `TransactionRepository.Create` by the type of the transaction -/

theorem RepositoryCreate_of_deposit (env : Env) (db : Db) (tx : Transaction) (hwf : db.WF)
    (hty : tx.Type_ = TransactionTypeDeposit) :
    TransactionRepository.Create env db tx
      = (⟨db.transactions ++ [tx.inserted env],
          putAmount env.newBalanceID tx.UserID tx.Currency
            (db.balance tx.UserID tx.Currency + tx.Amount) db.balances⟩, none) := by
  have hty' : (tx.inserted env).Type_ = TransactionTypeDeposit := hty
  have h1 := @updateSenderBalance_of_other env (tx.inserted env) (db.Create env tx)
    (by rw [hty']; decide) (by rw [hty']; decide)
  have h2 := @updateRecipientBalance_of_other env (tx.inserted env) (db.Create env tx)
    (Or.inl (by rw [hty']; decide))
  have h3 := @updateDepositBalance_of_deposit env (tx.inserted env) (db.Create env tx) hwf hty'
  unfold TransactionRepository.Create Db.Transaction createBody
  simp only [h1, Except.bind, h2, h3]
  rfl

theorem RepositoryCreate_of_other (env : Env) (db : Db) (tx : Transaction)
    (h1 : tx.Type_ ≠ TransactionTypeDeposit) (h2 : tx.Type_ ≠ TransactionTypeWithdraw)
    (h3 : tx.Type_ ≠ TransactionTypeTransfer) :
    TransactionRepository.Create env db tx
      = (⟨db.transactions ++ [tx.inserted env], db.balances⟩, none) := by
  have e1 := @updateSenderBalance_of_other env (tx.inserted env) (db.Create env tx) h2 h3
  have e2 := @updateRecipientBalance_of_other env (tx.inserted env) (db.Create env tx)
    (Or.inl h3)
  have e3 := @updateDepositBalance_of_other env (tx.inserted env) (db.Create env tx) h1
  unfold TransactionRepository.Create Db.Transaction createBody
  simp only [e1, Except.bind, e2, e3]
  rfl

theorem RepositoryCreate_of_missing (env : Env) (db : Db) (tx : Transaction)
    (hty : tx.Type_ = TransactionTypeWithdraw ∨ tx.Type_ = TransactionTypeTransfer)
    (hF : db.First tx.UserID tx.Currency = none) :
    TransactionRepository.Create env db tx = (db, some Error.ErrInsufficientFunds) := by
  have h1 := @updateSenderBalance_of_missing env (tx.inserted env) (db.Create env tx) hty hF
  unfold TransactionRepository.Create Db.Transaction createBody
  simp only [h1, Except.bind]

theorem RepositoryCreate_of_lt (env : Env) (db : Db) (tx : Transaction) {r : Balance}
    (hty : tx.Type_ = TransactionTypeWithdraw ∨ tx.Type_ = TransactionTypeTransfer)
    (hF : db.First tx.UserID tx.Currency = some r) (hlt : r.Amount < tx.Amount) :
    TransactionRepository.Create env db tx = (db, some Error.ErrInsufficientFunds) := by
  have h1 := @updateSenderBalance_of_lt env (tx.inserted env) (db.Create env tx) r hty hF hlt
  unfold TransactionRepository.Create Db.Transaction createBody
  simp only [h1, Except.bind]

theorem RepositoryCreate_of_withdraw (env : Env) (db : Db) (tx : Transaction) {r : Balance}
    (hwf : db.WF) (hty : tx.Type_ = TransactionTypeWithdraw)
    (hF : db.First tx.UserID tx.Currency = some r) (hlt : ¬ r.Amount < tx.Amount) :
    TransactionRepository.Create env db tx
      = (⟨db.transactions ++ [tx.inserted env],
          putAmount env.newBalanceID tx.UserID tx.Currency (r.Amount - tx.Amount)
            db.balances⟩, none) := by
  have hty' : (tx.inserted env).Type_ = TransactionTypeWithdraw := hty
  have h1 : updateSenderBalance env (tx.inserted env) (db.Create env tx)
      = .ok ⟨db.transactions ++ [tx.inserted env],
          putAmount env.newBalanceID tx.UserID tx.Currency (r.Amount - tx.Amount)
            db.balances⟩ :=
    @updateSenderBalance_of_not_lt env (tx.inserted env) (db.Create env tx) r hwf
      (Or.inl hty') hF hlt
  have h2 := @updateRecipientBalance_of_other env (tx.inserted env)
    ⟨db.transactions ++ [tx.inserted env], putAmount env.newBalanceID tx.UserID tx.Currency
      (r.Amount - tx.Amount) db.balances⟩ (Or.inl (by rw [hty']; decide))
  have h3 := @updateDepositBalance_of_other env (tx.inserted env)
    ⟨db.transactions ++ [tx.inserted env], putAmount env.newBalanceID tx.UserID tx.Currency
      (r.Amount - tx.Amount) db.balances⟩ (by rw [hty']; decide)
  unfold TransactionRepository.Create Db.Transaction createBody
  simp only [h1, Except.bind, h2, h3]

/-- A transfer that names a recipient, the owner included: the sender's row is given the
difference, and then the recipient's row, read after that, is given its sum. -/
theorem RepositoryCreate_of_transfer (env : Env) (db : Db) (tx : Transaction) {r : Balance}
    {v : UUID} (hwf : db.WF) (hty : tx.Type_ = TransactionTypeTransfer)
    (hrec : tx.RecipientID = some v)
    (hF : db.First tx.UserID tx.Currency = some r) (hlt : ¬ r.Amount < tx.Amount) :
    TransactionRepository.Create env db tx
      = (⟨db.transactions ++ [tx.inserted env],
          putAmount env.newBalanceID v tx.Currency
            ((if tx.UserID = v then r.Amount - tx.Amount else db.balance v tx.Currency)
              + tx.Amount)
            (putAmount env.newBalanceID tx.UserID tx.Currency (r.Amount - tx.Amount)
              db.balances)⟩, none) := by
  have hty' : (tx.inserted env).Type_ = TransactionTypeTransfer := hty
  have hkey : (tx.UserID, tx.Currency) ∈ balanceKeys db.balances :=
    (mem_balanceKeys_iff db _ _).2 (by rw [hF]; exact Option.some_ne_none r)
  have h1 : updateSenderBalance env (tx.inserted env) (db.Create env tx)
      = .ok ⟨db.transactions ++ [tx.inserted env],
          putAmount env.newBalanceID tx.UserID tx.Currency (r.Amount - tx.Amount)
            db.balances⟩ :=
    @updateSenderBalance_of_not_lt env (tx.inserted env) (db.Create env tx) r hwf
      (Or.inr hty') hF hlt
  have hbal : Db.balance ⟨db.transactions ++ [tx.inserted env],
      putAmount env.newBalanceID tx.UserID tx.Currency (r.Amount - tx.Amount) db.balances⟩ v
        tx.Currency
      = if tx.UserID = v then r.Amount - tx.Amount else db.balance v tx.Currency := by
    rw [balance_putAmount _ db.transactions]
    by_cases huv : tx.UserID = v
    · rw [if_pos ⟨huv, rfl⟩, if_pos huv]
    · rw [if_neg (fun h => huv h.1), if_neg huv]
  have h2 : updateRecipientBalance env (tx.inserted env)
      ⟨db.transactions ++ [tx.inserted env], putAmount env.newBalanceID tx.UserID tx.Currency
        (r.Amount - tx.Amount) db.balances⟩
      = .ok ⟨db.transactions ++ [tx.inserted env], putAmount env.newBalanceID v tx.Currency
          ((if tx.UserID = v then r.Amount - tx.Amount else db.balance v tx.Currency)
            + tx.Amount)
          (putAmount env.newBalanceID tx.UserID tx.Currency (r.Amount - tx.Amount)
            db.balances)⟩ := by
    rw [@updateRecipientBalance_of_transfer env (tx.inserted env)
      ⟨db.transactions ++ [tx.inserted env], putAmount env.newBalanceID tx.UserID tx.Currency
        (r.Amount - tx.Amount) db.balances⟩ v
      (WF_putAmount db.transactions _ _ _ _ _ _ hwf (fun h => absurd hkey h)) hty' hrec]
    show Except.ok (Db.mk _ (putAmount _ _ _ (Db.balance _ v tx.Currency + tx.Amount) _)) = _
    rw [hbal]
    rfl
  have h3 := @updateDepositBalance_of_other env (tx.inserted env)
    ⟨db.transactions ++ [tx.inserted env], putAmount env.newBalanceID v tx.Currency
      ((if tx.UserID = v then r.Amount - tx.Amount else db.balance v tx.Currency) + tx.Amount)
      (putAmount env.newBalanceID tx.UserID tx.Currency (r.Amount - tx.Amount) db.balances)⟩
    (by rw [hty']; decide)
  unfold TransactionRepository.Create Db.Transaction createBody
  simp only [h1, Except.bind, h2, h3]

/-- A transfer without a recipient (which `Validate` refuses, and the repository does
not): only the sender's row is written. -/
theorem RepositoryCreate_of_transfer_none (env : Env) (db : Db) (tx : Transaction)
    {r : Balance} (hwf : db.WF) (hty : tx.Type_ = TransactionTypeTransfer)
    (hrec : tx.RecipientID = none)
    (hF : db.First tx.UserID tx.Currency = some r) (hlt : ¬ r.Amount < tx.Amount) :
    TransactionRepository.Create env db tx
      = (⟨db.transactions ++ [tx.inserted env],
          putAmount env.newBalanceID tx.UserID tx.Currency (r.Amount - tx.Amount)
            db.balances⟩, none) := by
  have hty' : (tx.inserted env).Type_ = TransactionTypeTransfer := hty
  have h1 : updateSenderBalance env (tx.inserted env) (db.Create env tx)
      = .ok ⟨db.transactions ++ [tx.inserted env],
          putAmount env.newBalanceID tx.UserID tx.Currency (r.Amount - tx.Amount)
            db.balances⟩ :=
    @updateSenderBalance_of_not_lt env (tx.inserted env) (db.Create env tx) r hwf
      (Or.inr hty') hF hlt
  have h2 := @updateRecipientBalance_of_other env (tx.inserted env)
    ⟨db.transactions ++ [tx.inserted env], putAmount env.newBalanceID tx.UserID tx.Currency
      (r.Amount - tx.Amount) db.balances⟩ (Or.inr hrec)
  have h3 := @updateDepositBalance_of_other env (tx.inserted env)
    ⟨db.transactions ++ [tx.inserted env], putAmount env.newBalanceID tx.UserID tx.Currency
      (r.Amount - tx.Amount) db.balances⟩ (by rw [hty']; decide)
  unfold TransactionRepository.Create Db.Transaction createBody
  simp only [h1, Except.bind, h2, h3]

/-! ## Successful movements on float64 amounts -/

theorem First_of_covered {db : Db} {u : UUID} {c : String} {a : F64} (hpos : 0 < a)
    (hcovered : a ≤ db.balance u c) :
    ∃ r, db.First u c = some r ∧ ¬ r.Amount < a := by
  cases hF : db.First u c with
  | none =>
    have h0 : db.balance u c = 0 := by simp [Db.balance, hF]
    rw [h0] at hcovered
    exact absurd hcovered (F64.not_le_of_lt hpos)
  | some r =>
    have hb : db.balance u c = r.Amount := by simp [Db.balance, hF]
    rw [hb] at hcovered
    exact ⟨r, rfl, F64.not_lt_of_le hcovered⟩

theorem balance_of_First {db : Db} {u : UUID} {c : String} {r : Balance}
    (hF : db.First u c = some r) : db.balance u c = r.Amount := by
  simp [Db.balance, hF]

/-- Claim C16, as stated, fails on `float64` amounts.  The table holds `1e16` for account
1 in EUR; `TransactionService.Deposit` of `1.00` succeeds and the stored balance is
`1e16` afterwards, not the previous amount plus `1.00`. -/
theorem Deposit_of_one_onto_1e16 :
    (Db.mk [] [⟨7, 1, "EUR", .fin (10 ^ 16)⟩]).WF
    ∧ F64.Valid (.fin (10 ^ 16)) ∧ F64.Valid (.fin 1) ∧ (0 : F64) < .fin 1
    ∧ (TransactionService.Deposit ⟨5, 3, 4⟩ (Db.mk [] [⟨7, 1, "EUR", .fin (10 ^ 16)⟩]) 1
        (.fin 1) "EUR" "in").2 = none
    ∧ (TransactionService.Deposit ⟨5, 3, 4⟩ (Db.mk [] [⟨7, 1, "EUR", .fin (10 ^ 16)⟩]) 1
        (.fin 1) "EUR" "in").1.balance 1 "EUR" = .fin (10 ^ 16)
    ∧ ((TransactionService.Deposit ⟨5, 3, 4⟩ (Db.mk [] [⟨7, 1, "EUR", .fin (10 ^ 16)⟩]) 1
        (.fin 1) "EUR" "in").1.balance 1 "EUR").toRat
      ≠ ((Db.mk [] [⟨7, 1, "EUR", .fin (10 ^ 16)⟩]).balance 1 "EUR").toRat
        + (F64.fin 1).toRat := by
  have hwf : (Db.mk [] [⟨7, 1, "EUR", .fin (10 ^ 16)⟩]).WF := by decide
  have hb : (Db.mk [] [⟨7, 1, "EUR", .fin (10 ^ 16)⟩]).balance 1 "EUR" = .fin (10 ^ 16) := rfl
  rw [Deposit_of_valid _ _ _ _ _ _ hwf (by decide), balance_putAmount _ [], hb]
  simp only [and_self, if_true, F64.fin_add_fin, round_1e16_add_one]
  refine ⟨hwf, representable_1e16, representable_intCast 1 (by norm_num), by decide, trivial,
    trivial, ?_⟩
  simp only [F64.toRat]
  norm_num

/-- Claim C16, amended.  In every state whose balance table is sound, for every account,
currency and amount `> 0`, `TransactionService.Deposit` succeeds; it appends exactly one
ledger row, of type deposit, owned by the account, with that amount, currency and
description and no recipient; the stored balance of the pair becomes the `float64` sum
of its previous amount and the amount, which is their exact sum whenever the exact sum
is a `float64` value; the row is created with exactly the amount when the pair had
none; and the row of every other (account, currency) pair is as it was. -/
theorem Deposit_float64_spec (env : Env) (db : Db) (userID : UUID) (amount : F64)
    (currency description : String) (hwf : db.WF) (hpos : 0 < amount) :
    (TransactionService.Deposit env db userID amount currency description).2 = none
    ∧ (TransactionService.Deposit env db userID amount currency description).1.transactions
        = db.transactions ++ [depositEntry env userID amount currency description]
    ∧ ((depositEntry env userID amount currency description).Type_ = TransactionTypeDeposit
      ∧ (depositEntry env userID amount currency description).UserID = userID
      ∧ (depositEntry env userID amount currency description).Amount = amount
      ∧ (depositEntry env userID amount currency description).Currency = currency
      ∧ (depositEntry env userID amount currency description).Description = description
      ∧ (depositEntry env userID amount currency description).RecipientID = none)
    ∧ (TransactionService.Deposit env db userID amount currency description).1.balance
        userID currency = db.balance userID currency + amount
    ∧ (∀ x a : ℚ, db.balance userID currency = .fin x → amount = .fin a →
        F64.Representable (x + a) →
        (TransactionService.Deposit env db userID amount currency description).1.balance
          userID currency = .fin (x + a))
    ∧ (db.First userID currency = none → amount.Valid →
        (TransactionService.Deposit env db userID amount currency description).1.balances
          = db.balances ++ [⟨env.newBalanceID, userID, currency, amount⟩])
    ∧ (∀ (u : UUID) (c : String), ¬ (u = userID ∧ c = currency) →
        (TransactionService.Deposit env db userID amount currency description).1.First u c
          = db.First u c) := by
  rw [Deposit_of_valid env db userID amount currency description hwf (F64.not_le_of_lt hpos)]
  have hbal : Db.balance ⟨db.transactions ++ [depositEntry env userID amount currency
      description], putAmount env.newBalanceID userID currency
        (db.balance userID currency + amount) db.balances⟩ userID currency
      = db.balance userID currency + amount := by
    rw [balance_putAmount _ db.transactions, if_pos ⟨rfl, rfl⟩]
  refine ⟨rfl, rfl, ⟨rfl, rfl, rfl, rfl, rfl, rfl⟩, hbal, ?_, ?_, ?_⟩
  · intro x a hx ha hrep
    rw [hbal, hx, ha, F64.fin_add_fin, round_of_representable hrep]
  · intro hnone hvalid
    have hb : db.balance userID currency = 0 := by simp [Db.balance, hnone]
    show putAmount _ _ _ _ db.balances = _
    rw [hb, F64.zero_add_of_valid hvalid]
    exact putAmount_of_find?_none _ _ _ _ db.balances hnone
  · intro u c hne
    show Db.First ⟨_, putAmount _ _ _ _ db.balances⟩ u c = _
    rw [First_putAmount, if_neg (fun h => hne ⟨h.1.symm, h.2.symm⟩)]
    rfl

theorem Deposit_float64_spec_witness :
    (Db.mk [] [⟨9, 1, "EUR", .fin 60⟩]).WF ∧ (0 : F64) < .fin 25
    ∧ (TransactionService.Deposit ⟨7, 3, 4⟩ (Db.mk [] [⟨9, 1, "EUR", .fin 60⟩]) 1 (.fin 25)
        "EUR" "in").1.balance 1 "EUR" = .fin (60 + 25) :=
  ⟨by decide, by decide,
    (Deposit_float64_spec ⟨7, 3, 4⟩ (Db.mk [] [⟨9, 1, "EUR", .fin 60⟩]) 1 (.fin 25) "EUR" "in"
      (by decide) (by decide)).2.2.2.2.1 60 25 rfl rfl
      (by have := representable_intCast 85 (by norm_num); norm_num at this ⊢; exact this)⟩

/-- Claim C17, as stated, fails on `float64` amounts.  Account 1 holds `5.00` and account
2 holds `1e16` in EUR; `TransactionService.Transfer` of `1.00` from 1 to 2 succeeds, takes
`1.00` from account 1, and leaves account 2 at `1e16`: its balance does not go up by the
amount. -/
theorem Transfer_of_one_onto_1e16 :
    (Db.mk [] [⟨7, 1, "EUR", .fin 5⟩, ⟨8, 2, "EUR", .fin (10 ^ 16)⟩]).WF
    ∧ (0 : F64) < .fin 1
    ∧ F64.fin 1 ≤ (Db.mk [] [⟨7, 1, "EUR", .fin 5⟩, ⟨8, 2, "EUR", .fin (10 ^ 16)⟩]).balance 1 "EUR"
    ∧ (TransactionService.Transfer ⟨5, 3, 4⟩
        (Db.mk [] [⟨7, 1, "EUR", .fin 5⟩, ⟨8, 2, "EUR", .fin (10 ^ 16)⟩]) 1 2 (.fin 1) "EUR"
        "rent").2 = none
    ∧ (TransactionService.Transfer ⟨5, 3, 4⟩
        (Db.mk [] [⟨7, 1, "EUR", .fin 5⟩, ⟨8, 2, "EUR", .fin (10 ^ 16)⟩]) 1 2 (.fin 1) "EUR"
        "rent").1.balance 1 "EUR" = .fin 4
    ∧ (TransactionService.Transfer ⟨5, 3, 4⟩
        (Db.mk [] [⟨7, 1, "EUR", .fin 5⟩, ⟨8, 2, "EUR", .fin (10 ^ 16)⟩]) 1 2 (.fin 1) "EUR"
        "rent").1.balance 2 "EUR" = .fin (10 ^ 16)
    ∧ ((TransactionService.Transfer ⟨5, 3, 4⟩
        (Db.mk [] [⟨7, 1, "EUR", .fin 5⟩, ⟨8, 2, "EUR", .fin (10 ^ 16)⟩]) 1 2 (.fin 1) "EUR"
        "rent").1.balance 2 "EUR").toRat
      ≠ ((Db.mk [] [⟨7, 1, "EUR", .fin 5⟩, ⟨8, 2, "EUR", .fin (10 ^ 16)⟩]).balance 2
          "EUR").toRat + (F64.fin 1).toRat := by
  have hwf : (Db.mk [] [⟨7, 1, "EUR", .fin 5⟩, ⟨8, 2, "EUR", .fin (10 ^ 16)⟩]).WF := by decide
  have hF : (Db.mk [] [⟨7, 1, "EUR", .fin 5⟩, ⟨8, 2, "EUR", .fin (10 ^ 16)⟩]).First 1 "EUR"
      = some ⟨7, 1, "EUR", .fin 5⟩ := rfl
  have hb2 : (Db.mk [] [⟨7, 1, "EUR", .fin 5⟩, ⟨8, 2, "EUR", .fin (10 ^ 16)⟩]).balance 2 "EUR"
      = .fin (10 ^ 16) := rfl
  have h4 : F64.round (5 - 1) = .fin 4 := by
    have := round_of_representable (representable_intCast 4 (by norm_num))
    norm_num at this ⊢
    exact this
  rw [Transfer_of_not_lt _ _ _ _ _ _ _ hwf (by decide) (by decide) hF (by decide),
    balance_putAmount _ [], balance_putAmount _ [], balance_putAmount _ [], hb2]
  simp only [F64.fin_add_fin, F64.fin_sub_fin, round_1e16_add_one, h4]
  refine ⟨hwf, by decide, by decide, trivial, by decide, by decide, ?_⟩
  simp only [F64.toRat]
  norm_num

/-- Claim C17, amended.  In every state whose balance table is sound, for distinct
accounts `S` and `D`, every currency and every amount with `0 < amount ≤ balance(S, C)`,
`TransactionService.Transfer` succeeds; it appends exactly one ledger row (type transfer,
owner `S`, recipient `D`), not two; the stored balance of `(S, C)` becomes the `float64`
difference of its previous amount and the amount, and that of `(D, C)` the `float64` sum
of its previous amount and the amount, each the exact result whenever the exact result
is a `float64` value; the row of `D` is created when it had none; and the row of every
other (account, currency) pair, the other currencies of `S` and `D` included, is as it
was. -/
theorem Transfer_float64_spec (env : Env) (db : Db) (fromUserID toUserID : UUID)
    (amount : F64) (currency description : String) (hwf : db.WF)
    (hdistinct : fromUserID ≠ toUserID) (hpos : 0 < amount)
    (hcovered : amount ≤ db.balance fromUserID currency) :
    (TransactionService.Transfer env db fromUserID toUserID amount currency
        description).2 = none
    ∧ (TransactionService.Transfer env db fromUserID toUserID amount currency
        description).1.transactions
        = db.transactions
          ++ [transferEntry env fromUserID toUserID amount currency description]
    ∧ ((transferEntry env fromUserID toUserID amount currency description).Type_
          = TransactionTypeTransfer
      ∧ (transferEntry env fromUserID toUserID amount currency description).UserID
          = fromUserID
      ∧ (transferEntry env fromUserID toUserID amount currency description).RecipientID
          = some toUserID
      ∧ (transferEntry env fromUserID toUserID amount currency description).Amount = amount
      ∧ (transferEntry env fromUserID toUserID amount currency description).Currency
          = currency)
    ∧ (TransactionService.Transfer env db fromUserID toUserID amount currency
        description).1.balance fromUserID currency
        = db.balance fromUserID currency - amount
    ∧ (TransactionService.Transfer env db fromUserID toUserID amount currency
        description).1.balance toUserID currency
        = db.balance toUserID currency + amount
    ∧ (∀ x y a : ℚ, db.balance fromUserID currency = .fin x →
        db.balance toUserID currency = .fin y → amount = .fin a →
        F64.Representable (x - a) → F64.Representable (y + a) →
        (TransactionService.Transfer env db fromUserID toUserID amount currency
          description).1.balance fromUserID currency = .fin (x - a)
        ∧ (TransactionService.Transfer env db fromUserID toUserID amount currency
          description).1.balance toUserID currency = .fin (y + a))
    ∧ (db.First toUserID currency = none → amount.Valid →
        (TransactionService.Transfer env db fromUserID toUserID amount currency
          description).1.First toUserID currency
          = some ⟨env.newBalanceID, toUserID, currency, amount⟩)
    ∧ (∀ (u : UUID) (c : String), ¬ (u = fromUserID ∧ c = currency) →
        ¬ (u = toUserID ∧ c = currency) →
        (TransactionService.Transfer env db fromUserID toUserID amount currency
          description).1.First u c = db.First u c) := by
  obtain ⟨r, hF, hlt⟩ := First_of_covered hpos hcovered
  rw [Transfer_of_not_lt env db fromUserID toUserID amount currency description hwf hdistinct
    (F64.not_le_of_lt hpos) hF hlt, ← balance_of_First hF]
  have hdf : ¬ toUserID = fromUserID := fun e => hdistinct e.symm
  have hS : Db.balance ⟨db.transactions
        ++ [transferEntry env fromUserID toUserID amount currency description],
      putAmount env.newBalanceID toUserID currency (db.balance toUserID currency + amount)
        (putAmount env.newBalanceID fromUserID currency
          (db.balance fromUserID currency - amount) db.balances)⟩ fromUserID currency
      = db.balance fromUserID currency - amount := by
    rw [balance_putAmount _ db.transactions, if_neg (fun h => hdf h.1),
      balance_putAmount _ db.transactions, if_pos ⟨rfl, rfl⟩]
  have hD : Db.balance ⟨db.transactions
        ++ [transferEntry env fromUserID toUserID amount currency description],
      putAmount env.newBalanceID toUserID currency (db.balance toUserID currency + amount)
        (putAmount env.newBalanceID fromUserID currency
          (db.balance fromUserID currency - amount) db.balances)⟩ toUserID currency
      = db.balance toUserID currency + amount := by
    rw [balance_putAmount _ db.transactions, if_pos ⟨rfl, rfl⟩]
  refine ⟨rfl, rfl, ⟨rfl, rfl, rfl, rfl, rfl⟩, hS, hD, ?_, ?_, ?_⟩
  · intro x y a hx hy ha h1 h2
    rw [hS, hD, hx, hy, ha, F64.fin_sub_fin, F64.fin_add_fin, round_of_representable h1,
      round_of_representable h2]
    exact ⟨rfl, rfl⟩
  · intro hnone hvalid
    have hb : db.balance toUserID currency = 0 := by simp [Db.balance, hnone]
    rw [First_putAmount, if_pos ⟨rfl, rfl⟩, First_putAmount, if_neg (fun h => hdistinct h.1),
      First_mk_pk _ db, hnone, hb, F64.zero_add_of_valid hvalid]
  · intro u c h1 h2
    rw [First_putAmount, if_neg (fun h => h2 ⟨h.1.symm, h.2.symm⟩), First_putAmount,
      if_neg (fun h => h1 ⟨h.1.symm, h.2.symm⟩)]
    rfl

theorem Transfer_float64_spec_witness :
    (Db.mk [] [⟨9, 1, "EUR", .fin 100⟩]).WF ∧ (1 : UUID) ≠ 2 ∧ (0 : F64) < .fin 40
    ∧ F64.fin 40 ≤ (Db.mk [] [⟨9, 1, "EUR", .fin 100⟩]).balance 1 "EUR"
    ∧ (TransactionService.Transfer ⟨6, 2, 4⟩ (Db.mk [] [⟨9, 1, "EUR", .fin 100⟩]) 1 2 (.fin 40)
        "EUR" "rent").1.balance 2 "EUR"
      = (Db.mk [] [⟨9, 1, "EUR", .fin 100⟩]).balance 2 "EUR" + .fin 40 :=
  ⟨by decide, by decide, by decide, by decide,
    (Transfer_float64_spec ⟨6, 2, 4⟩ (Db.mk [] [⟨9, 1, "EUR", .fin 100⟩]) 1 2 (.fin 40) "EUR"
      "rent" (by decide) (by decide) (by decide) (by decide)).2.2.2.2.1⟩

/-! ## Round trip on float64 amounts -/

theorem First_putAmount_self (l : List Transaction) (n u : UUID) (c : String) (x : F64)
    (rows : List Balance) :
    ∃ r, Db.First ⟨l, putAmount n u c x rows⟩ u c = some r ∧ r.Amount = x := by
  rw [First_putAmount, if_pos ⟨rfl, rfl⟩]
  cases Db.First ⟨l, rows⟩ u c with
  | none => exact ⟨_, rfl, rfl⟩
  | some r => exact ⟨_, rfl, rfl⟩

theorem Deposit_WF (env : Env) (db : Db) (u : UUID) (a : F64) (c d : String) (hwf : db.WF)
    (hfresh : env.Fresh db) : (TransactionService.Deposit env db u a c d).1.WF := by
  by_cases ha : a ≤ 0
  · rw [Deposit_of_invalid env db u a c d ha]; exact hwf
  · rw [Deposit_of_valid env db u a c d hwf ha]
    exact WF_putAmount db.transactions _ _ _ _ _ _ hwf (fun _ => hfresh)

theorem roundTrips_of_exact (env1 env2 : Env) (db : Db) (u : UUID) (c d1 d2 : String)
    (b x : ℚ) (hwf : db.WF) (hfresh : env1.Fresh db) (hb : db.balance u c = .fin b)
    (hnonneg : 0 ≤ b) (hvalid : F64.Representable b) (hpos : 0 < x)
    (hexact : F64.Representable (b + x)) :
    db.RoundTrips env1 env2 u (.fin x) c d1 d2 := by
  have hx : ¬ (F64.fin x ≤ 0) := by
    rw [F64.zero_def, F64.fin_le_fin]; exact not_le.2 hpos
  have hwf1 := Deposit_WF env1 db u (.fin x) c d1 hwf hfresh
  have hD := Deposit_of_valid env1 db u (.fin x) c d1 hwf hx
  have hsum : db.balance u c + F64.fin x = .fin (b + x) := by
    rw [hb, F64.fin_add_fin, round_of_representable hexact]
  rw [hsum] at hD
  obtain ⟨r1, hF1, hr1⟩ := First_putAmount_self (db.transactions ++ [depositEntry env1 u
    (.fin x) c d1]) env1.newBalanceID u c (.fin (b + x)) db.balances
  have hnlt : ¬ r1.Amount < F64.fin x := by
    rw [hr1, F64.fin_lt_fin]; exact not_lt.2 (le_add_of_nonneg_left hnonneg)
  unfold Db.RoundTrips
  rw [hD] at hwf1 ⊢
  have hW := Withdraw_of_not_lt env2 _ u (.fin x) c d2 hwf1 hx hF1 hnlt
  have hdiff : r1.Amount - F64.fin x = .fin b := by
    rw [hr1, F64.fin_sub_fin, add_sub_cancel_right, round_of_representable hvalid]
  rw [hdiff] at hW
  rw [hW]
  refine ⟨rfl, rfl, ?_, ?_, ?_⟩
  · rw [balance_putAmount _ db.transactions, if_pos ⟨rfl, rfl⟩, hb]
  · simp
  · simp

/-- Claim C8, as stated, fails.  On `float64` amounts: the table holds `1.00` for account
1 in EUR (the table `Deposit(1, 1.00, "EUR")` writes on the empty database);
`Deposit(1, 1e16, "EUR")` and then `Withdraw(1, 1e16, "EUR")` both succeed, and the
balance is `0.00` afterwards, not `1.00`.  And for some states: on the table that holds
`-5.00` for the account (the table `TransactionRepository.Create` writes for a deposit of
`-5.00`, which it does not validate), `Deposit` of `3.00` succeeds and the `Withdraw` of
`3.00` that follows fails with `ErrInsufficientFunds`. -/
theorem deposit_then_withdraw_loses_or_fails :
    ((TransactionService.Deposit ⟨1, 1, 7⟩ Db.empty 1 (.fin 1) "EUR" "seed").1.balances
        = [⟨7, 1, "EUR", .fin 1⟩]
      ∧ (TransactionService.Deposit ⟨2, 2, 8⟩ (Db.mk [] [⟨7, 1, "EUR", .fin 1⟩]) 1
          (.fin (10 ^ 16)) "EUR" "in").2 = none
      ∧ (TransactionService.Withdraw ⟨3, 3, 9⟩
          (TransactionService.Deposit ⟨2, 2, 8⟩ (Db.mk [] [⟨7, 1, "EUR", .fin 1⟩]) 1
            (.fin (10 ^ 16)) "EUR" "in").1 1 (.fin (10 ^ 16)) "EUR" "out").2 = none
      ∧ (TransactionService.Withdraw ⟨3, 3, 9⟩
          (TransactionService.Deposit ⟨2, 2, 8⟩ (Db.mk [] [⟨7, 1, "EUR", .fin 1⟩]) 1
            (.fin (10 ^ 16)) "EUR" "in").1 1 (.fin (10 ^ 16)) "EUR" "out").1.balance 1 "EUR"
          = .fin 0
      ∧ (Db.mk [] [⟨7, 1, "EUR", .fin 1⟩]).balance 1 "EUR" = .fin 1
      ∧ ¬ (Db.mk [] [⟨7, 1, "EUR", .fin 1⟩]).RoundTrips ⟨2, 2, 8⟩ ⟨3, 3, 9⟩ 1 (.fin (10 ^ 16))
          "EUR" "in" "out")
    ∧ ((TransactionRepository.Create ⟨1, 1, 7⟩ Db.empty
          ⟨0, 1, TransactionTypeDeposit, .fin (-5), "EUR", none, "", "", 0, 0⟩).1.balances
        = [⟨7, 1, "EUR", .fin (-5)⟩]
      ∧ (TransactionService.Deposit ⟨2, 2, 8⟩ (Db.mk [] [⟨7, 1, "EUR", .fin (-5)⟩]) 1 (.fin 3)
          "EUR" "in").2 = none
      ∧ (TransactionService.Withdraw ⟨3, 3, 9⟩
          (TransactionService.Deposit ⟨2, 2, 8⟩ (Db.mk [] [⟨7, 1, "EUR", .fin (-5)⟩]) 1 (.fin 3)
            "EUR" "in").1 1 (.fin 3) "EUR" "out").2 = some Error.ErrInsufficientFunds
      ∧ ¬ (Db.mk [] [⟨7, 1, "EUR", .fin (-5)⟩]).RoundTrips ⟨2, 2, 8⟩ ⟨3, 3, 9⟩ 1 (.fin 3)
          "EUR" "in" "out") := by
  have r1 : F64.round (0 + 1) = .fin 1 := by
    have := round_of_representable (representable_intCast 1 (by norm_num))
    norm_num at this ⊢
    exact this
  have r2 : F64.round (1 + 10 ^ 16) = .fin (10 ^ 16) := by
    rw [add_comm]; exact round_1e16_add_one
  have r3 : F64.round (10 ^ 16 - 10 ^ 16) = .fin 0 := by
    rw [sub_self]; exact round_zero
  have r4 : F64.round (0 + -5) = .fin (-5) := by
    have := round_of_representable (representable_intCast (-5) (by norm_num))
    norm_num at this ⊢
    exact this
  have r5 : F64.round (-5 + 3) = .fin (-2) := by
    have := round_of_representable (representable_intCast (-2) (by norm_num))
    norm_num at this ⊢
    exact this
  have hA1 : (TransactionService.Deposit ⟨1, 1, 7⟩ Db.empty 1 (.fin 1) "EUR" "seed").1.balances
      = [⟨7, 1, "EUR", .fin 1⟩] := by
    rw [Deposit_of_valid _ _ _ _ _ _ (by decide) (by decide)]
    show putAmount 7 1 "EUR" (F64.fin 0 + F64.fin 1) [] = _
    rw [F64.fin_add_fin, r1]
    rfl
  have hA2 : TransactionService.Deposit ⟨2, 2, 8⟩ (Db.mk [] [⟨7, 1, "EUR", .fin 1⟩]) 1
      (.fin (10 ^ 16)) "EUR" "in"
      = (⟨[depositEntry ⟨2, 2, 8⟩ 1 (.fin (10 ^ 16)) "EUR" "in"],
          [⟨7, 1, "EUR", .fin (10 ^ 16)⟩]⟩, none) := by
    rw [Deposit_of_valid _ _ _ _ _ _ (by decide) (by decide)]
    show (Db.mk _ (putAmount 8 1 "EUR" (F64.fin 1 + F64.fin (10 ^ 16)) _), _) = _
    rw [F64.fin_add_fin, r2]
    rfl
  have hFA : Db.First ⟨[depositEntry ⟨2, 2, 8⟩ 1 (.fin (10 ^ 16)) "EUR" "in"],
      [⟨7, 1, "EUR", .fin (10 ^ 16)⟩]⟩ 1 "EUR" = some ⟨7, 1, "EUR", .fin (10 ^ 16)⟩ := rfl
  have hA3 : TransactionService.Withdraw ⟨3, 3, 9⟩
      ⟨[depositEntry ⟨2, 2, 8⟩ 1 (.fin (10 ^ 16)) "EUR" "in"], [⟨7, 1, "EUR", .fin (10 ^ 16)⟩]⟩
      1 (.fin (10 ^ 16)) "EUR" "out"
      = (⟨[depositEntry ⟨2, 2, 8⟩ 1 (.fin (10 ^ 16)) "EUR" "in",
            withdrawEntry ⟨3, 3, 9⟩ 1 (.fin (10 ^ 16)) "EUR" "out"],
          [⟨7, 1, "EUR", .fin 0⟩]⟩, none) := by
    rw [Withdraw_of_not_lt _ _ _ _ _ _ (by decide) (by decide) hFA
      (by rw [F64.fin_lt_fin]; norm_num)]
    show (Db.mk _ (putAmount 9 1 "EUR" (F64.fin (10 ^ 16) - F64.fin (10 ^ 16)) _), _) = _
    rw [F64.fin_sub_fin, r3]
    rfl
  have hB1 : (TransactionRepository.Create ⟨1, 1, 7⟩ Db.empty
      ⟨0, 1, TransactionTypeDeposit, .fin (-5), "EUR", none, "", "", 0, 0⟩).1.balances
      = [⟨7, 1, "EUR", .fin (-5)⟩] := by
    rw [RepositoryCreate_of_deposit _ _ _ (by decide) rfl]
    show putAmount 7 1 "EUR" (F64.fin 0 + F64.fin (-5)) [] = _
    rw [F64.fin_add_fin, r4]
    rfl
  have hB2 : TransactionService.Deposit ⟨2, 2, 8⟩ (Db.mk [] [⟨7, 1, "EUR", .fin (-5)⟩]) 1
      (.fin 3) "EUR" "in"
      = (⟨[depositEntry ⟨2, 2, 8⟩ 1 (.fin 3) "EUR" "in"], [⟨7, 1, "EUR", .fin (-2)⟩]⟩, none) := by
    rw [Deposit_of_valid _ _ _ _ _ _ (by decide) (by decide)]
    show (Db.mk _ (putAmount 8 1 "EUR" (F64.fin (-5) + F64.fin 3) _), _) = _
    rw [F64.fin_add_fin, r5]
    rfl
  have hFB : Db.First ⟨[depositEntry ⟨2, 2, 8⟩ 1 (.fin 3) "EUR" "in"],
      [⟨7, 1, "EUR", .fin (-2)⟩]⟩ 1 "EUR" = some ⟨7, 1, "EUR", .fin (-2)⟩ := rfl
  have hB3 : TransactionService.Withdraw ⟨3, 3, 9⟩
      ⟨[depositEntry ⟨2, 2, 8⟩ 1 (.fin 3) "EUR" "in"], [⟨7, 1, "EUR", .fin (-2)⟩]⟩
      1 (.fin 3) "EUR" "out" = (_, some Error.ErrInsufficientFunds) :=
    Withdraw_of_lt_f64 _ _ _ _ _ _ (by decide) hFB (by decide)
  refine ⟨⟨hA1, ?_, ?_, ?_, rfl, ?_⟩, hB1, ?_, ?_, ?_⟩
  · rw [hA2]
  · rw [hA2, hA3]
  · rw [hA2, hA3]; rfl
  · unfold Db.RoundTrips
    rw [hA2, hA3]
    intro h
    have h3 : Db.balance ⟨_, [⟨7, 1, "EUR", F64.fin 0⟩]⟩ 1 "EUR" = _ := h.2.2.1
    have : (F64.fin 0 : F64) = .fin 1 := h3
    simp at this
  · rw [hB2]
  · rw [hB2, hB3]
  · unfold Db.RoundTrips
    rw [hB2, hB3]
    intro h
    have := h.2.1
    simp at this

/-- Claim C8, amended.  In every state whose balance table is sound and in which the
balance of `(A, C)` is a `float64` value that is not negative (zero if the row is
absent), and for every amount `X > 0` such that the balance plus `X` is a `float64`
value (the deposit is exact),
`TransactionService.Deposit(A, X, C, _)` followed by
`TransactionService.Withdraw(A, X, C, _)` both succeed, leave the balance of `(A, C)`
equal to its value before the deposit, and lengthen the ledger by exactly two entries,
the deposit and the withdrawal. -/
theorem deposit_then_withdraw_float64 (env1 env2 : Env) (db : Db) (userID : UUID)
    (currency description1 description2 : String) (balance amount : ℚ) (hwf : db.WF)
    (hfresh : env1.Fresh db) (hbalance : db.balance userID currency = .fin balance)
    (hnonneg : 0 ≤ balance) (hvalid : F64.Representable balance) (hpos : 0 < amount)
    (hexact : F64.Representable (balance + amount)) :
    db.RoundTrips env1 env2 userID (.fin amount) currency description1 description2 :=
  roundTrips_of_exact env1 env2 db userID currency description1 description2 balance amount
    hwf hfresh hbalance hnonneg hvalid hpos hexact

theorem deposit_then_withdraw_float64_witness :
    (Db.mk [] [⟨9, 1, "EUR", .fin 60⟩]).WF ∧ (Env.mk 7 3 4).Fresh (Db.mk [] [⟨9, 1, "EUR", .fin 60⟩])
    ∧ (0 : ℚ) ≤ 60 ∧ (0 : ℚ) < 25
    ∧ (Db.mk [] [⟨9, 1, "EUR", .fin 60⟩]).RoundTrips ⟨7, 3, 4⟩ ⟨8, 5, 6⟩ 1 (.fin 25) "EUR"
        "in" "out" :=
  ⟨by decide, by decide, by norm_num, by norm_num,
    deposit_then_withdraw_float64 ⟨7, 3, 4⟩ ⟨8, 5, 6⟩ (Db.mk [] [⟨9, 1, "EUR", .fin 60⟩]) 1 "EUR"
      "in" "out" 60 25 (by decide) (by decide) rfl (by norm_num)
      (by have := representable_intCast 60 (by norm_num); norm_num at this ⊢; exact this)
      (by norm_num)
      (by have := representable_intCast 85 (by norm_num); norm_num at this ⊢; exact this)⟩

/-! ## One balance row per pair under `Save` by primary key -/

theorem KeysExtend_rfl (rows : List Balance) : KeysExtend rows rows :=
  ⟨[], by simp, by simp, List.nodup_nil⟩

theorem KeysExtend_putAmount (n u : UUID) (c : String) (x : F64) (rows : List Balance) :
    KeysExtend rows (putAmount n u c x rows) := by
  by_cases hm : (u, c) ∈ balanceKeys rows
  · exact ⟨[], by rw [balanceKeys_putAmount, if_pos hm]; simp, by simp, List.nodup_nil⟩
  · refine ⟨[(u, c)], by rw [balanceKeys_putAmount, if_neg hm], ?_, by simp⟩
    intro k hk
    rw [List.mem_singleton.mp hk]
    exact hm

theorem KeysExtend_chain (r1 r2 r3 : List Balance) (h12 : KeysExtend r1 r2)
    (h23 : KeysExtend r2 r3) : KeysExtend r1 r3 := by
  obtain ⟨a1, e1, n1, d1⟩ := h12
  obtain ⟨a2, e2, n2, d2⟩ := h23
  refine ⟨a1 ++ a2, by rw [e2, e1, List.append_assoc], ?_, ?_⟩
  · intro k hk
    rcases List.mem_append.mp hk with hk | hk
    · exact n1 k hk
    · intro hin
      exact n2 k hk (by rw [e1]; exact List.mem_append_left _ hin)
  · refine List.Nodup.append d1 d2 ?_
    intro k hk1 hk2
    exact n2 k hk2 (by rw [e1]; exact List.mem_append_right _ hk1)

theorem ids_putAmount_subset (n u : UUID) (c : String) (x : F64) (rows : List Balance) :
    ∀ id ∈ (putAmount n u c x rows).map Balance.ID, id ∈ rows.map Balance.ID ∨ id = n := by
  intro id hid
  rw [ids_putAmount] at hid
  by_cases hk : (u, c) ∈ balanceKeys rows
  · rw [if_pos hk] at hid; exact Or.inl hid
  · rw [if_neg hk] at hid
    rcases List.mem_append.mp hid with h | h
    · exact Or.inl h
    · exact Or.inr (List.mem_singleton.mp h)

/-- What one `TransactionRepository.Create` does to a sound balance table, whatever the
transaction and whether it succeeds: the table stays sound, the pairs that had a row
keep it in place, a row is added only for a pair that had none, and a new row carries
the identifier drawn for this call. -/
theorem RepositoryCreate_sound (env : Env) (db : Db) (tx : Transaction) (hwf : db.WF)
    (hfresh : env.Fresh db) :
    (TransactionRepository.Create env db tx).1.WF
    ∧ KeysExtend db.balances (TransactionRepository.Create env db tx).1.balances
    ∧ (∀ id ∈ (TransactionRepository.Create env db tx).1.balances.map Balance.ID,
        id ∈ db.balances.map Balance.ID ∨ id = env.newBalanceID) := by
  have hsame : (TransactionRepository.Create env db tx).1 = db →
      (TransactionRepository.Create env db tx).1.WF
      ∧ KeysExtend db.balances (TransactionRepository.Create env db tx).1.balances
      ∧ (∀ id ∈ (TransactionRepository.Create env db tx).1.balances.map Balance.ID,
          id ∈ db.balances.map Balance.ID ∨ id = env.newBalanceID) := by
    intro h
    rw [h]
    exact ⟨hwf, KeysExtend_rfl _, fun id hid => Or.inl hid⟩
  have hput : ∀ (l : List Transaction) (u : UUID) (c : String) (x : F64),
      Db.WF ⟨l, putAmount env.newBalanceID u c x db.balances⟩
      ∧ KeysExtend db.balances (putAmount env.newBalanceID u c x db.balances)
      ∧ (∀ id ∈ (putAmount env.newBalanceID u c x db.balances).map Balance.ID,
          id ∈ db.balances.map Balance.ID ∨ id = env.newBalanceID) :=
    fun l u c x => ⟨WF_putAmount db.transactions l _ _ _ _ _ hwf (fun _ => hfresh),
      KeysExtend_putAmount _ _ _ _ _, ids_putAmount_subset _ _ _ _ _⟩
  by_cases hdep : tx.Type_ = TransactionTypeDeposit
  · rw [RepositoryCreate_of_deposit env db tx hwf hdep]
    exact hput _ _ _ _
  · by_cases hwd : tx.Type_ = TransactionTypeWithdraw
    · cases hF : db.First tx.UserID tx.Currency with
      | none =>
        exact hsame (by rw [RepositoryCreate_of_missing env db tx (Or.inl hwd) hF])
      | some r =>
        by_cases hlt : r.Amount < tx.Amount
        · exact hsame (by rw [RepositoryCreate_of_lt env db tx (Or.inl hwd) hF hlt])
        · rw [RepositoryCreate_of_withdraw env db tx hwf hwd hF hlt]
          exact hput _ _ _ _
    · by_cases htr : tx.Type_ = TransactionTypeTransfer
      · cases hF : db.First tx.UserID tx.Currency with
        | none =>
          exact hsame (by rw [RepositoryCreate_of_missing env db tx (Or.inr htr) hF])
        | some r =>
          by_cases hlt : r.Amount < tx.Amount
          · exact hsame (by rw [RepositoryCreate_of_lt env db tx (Or.inr htr) hF hlt])
          · cases hrec : tx.RecipientID with
            | none =>
              rw [RepositoryCreate_of_transfer_none env db tx hwf htr hrec hF hlt]
              exact hput _ _ _ _
            | some v =>
              rw [RepositoryCreate_of_transfer env db tx hwf htr hrec hF hlt]
              have hkey : (tx.UserID, tx.Currency) ∈ balanceKeys db.balances :=
                (mem_balanceKeys_iff db _ _).2 (by rw [hF]; exact Option.some_ne_none r)
              have hids : (putAmount env.newBalanceID tx.UserID tx.Currency
                  (r.Amount - tx.Amount) db.balances).map Balance.ID
                  = db.balances.map Balance.ID := by
                rw [ids_putAmount, if_pos hkey]
              have hwf1 : Db.WF ⟨db.transactions, putAmount env.newBalanceID tx.UserID
                  tx.Currency (r.Amount - tx.Amount) db.balances⟩ :=
                WF_putAmount db.transactions _ _ _ _ _ _ hwf (fun h => absurd hkey h)
              refine ⟨WF_putAmount db.transactions _ _ _ _ _ _ hwf1
                  (fun _ => ⟨hfresh.1, by rw [hids]; exact hfresh.2⟩),
                KeysExtend_chain _ _ _ (KeysExtend_putAmount _ _ _ _ _)
                  (KeysExtend_putAmount _ _ _ _ _), ?_⟩
              intro id hid
              rcases ids_putAmount_subset _ _ _ _ _ id hid with h | h
              · rw [hids] at h; exact Or.inl h
              · exact Or.inr h
      · rw [RepositoryCreate_of_other env db tx hdep hwd htr]
        exact ⟨hwf, KeysExtend_rfl _, fun id hid => Or.inl hid⟩

theorem runCreates_sound (creates : List (Env × Transaction)) :
    ∀ db : Db, db.WF → FreshIds db (creates.map Prod.fst) → (runCreates db creates).WF := by
  induction creates with
  | nil => intro db h _; exact h
  | cons p rest ih =>
    intro db hwf hfresh
    obtain ⟨env, tx⟩ := p
    obtain ⟨hnd, hnil, hdisj⟩ := hfresh
    simp only [List.map_cons, List.nodup_cons, List.mem_cons, not_or] at hnd hnil hdisj
    have hf : env.Fresh db := ⟨fun e => hnil.1 e.symm, hdisj env.newBalanceID (Or.inl rfl)⟩
    obtain ⟨hwf', _, hids⟩ := RepositoryCreate_sound env db tx hwf hf
    refine ih _ hwf' ⟨hnd.2, hnil.2, ?_⟩
    intro n hn hmem
    rcases hids n hmem with h | h
    · exact hdisj n (Or.inr hn) h
    · exact hnd.1 (h ▸ hn)

/-- Claim C22.  In every state reached from the empty state by
`TransactionRepository.Create` calls, the identifiers `uuid.New()` hands out being
pairwise different and not `uuid.Nil`, the balance table holds at most one row for each
`(UserID, Currency)` pair.  `Save` goes by the primary key, so this rests on what
`Create` does before it saves: it saves either the row `First` found for the pair, under
that row's key, or a new row after `First` found none.  On every sound table each
`Create`, for any transaction, keeps the table sound, and the table after the call has
the pairs of the table before it, in place, followed by pairs that had no row before,
each added once (so also the recipient of a transfer whose row is absent). -/
theorem balance_rows_unique_under_Save_by_key :
    (∀ creates : List (Env × Transaction), FreshIds Db.empty (creates.map Prod.fst) →
      (runCreates Db.empty creates).UniqueKeys)
    ∧ (∀ (env : Env) (db : Db) (tx : Transaction), db.WF → env.Fresh db →
        (TransactionRepository.Create env db tx).1.UniqueKeys
        ∧ KeysExtend db.balances (TransactionRepository.Create env db tx).1.balances) :=
  ⟨fun creates h => (runCreates_sound creates Db.empty (by decide) h).2.2,
    fun env db tx hwf hf =>
      ⟨(RepositoryCreate_sound env db tx hwf hf).1.2.2,
        (RepositoryCreate_sound env db tx hwf hf).2.1⟩⟩

theorem balance_rows_unique_under_Save_by_key_witness :
    FreshIds Db.empty
      ([((⟨5, 1, 7⟩ : Env), depositEntry ⟨0, 0, 0⟩ 1 (.fin 100) "EUR" "seed"),
        (⟨6, 2, 8⟩, transferEntry ⟨0, 0, 0⟩ 1 2 (.fin 40) "EUR" "rent"),
        (⟨7, 3, 9⟩, depositEntry ⟨0, 0, 0⟩ 2 (.fin 5) "EUR" "more")].map Prod.fst)
    ∧ (runCreates Db.empty
      [((⟨5, 1, 7⟩ : Env), depositEntry ⟨0, 0, 0⟩ 1 (.fin 100) "EUR" "seed"),
        (⟨6, 2, 8⟩, transferEntry ⟨0, 0, 0⟩ 1 2 (.fin 40) "EUR" "rent"),
        (⟨7, 3, 9⟩, depositEntry ⟨0, 0, 0⟩ 2 (.fin 5) "EUR" "more")]).UniqueKeys :=
  ⟨by decide, balance_rows_unique_under_Save_by_key.1 _ (by decide)⟩

/-! ## The sum of the balances in a currency, on float64 amounts -/

theorem total_putAmount (l k : List Transaction) (n u : UUID) (c : String) (x : F64)
    (C : String) :
    ∀ rows : List Balance,
      Db.total ⟨l, putAmount n u c x rows⟩ C
        = Db.total ⟨k, rows⟩ C
          + if c = C then x.toRat - (Db.balance ⟨k, rows⟩ u c).toRat else 0 := by
  intro rows
  induction rows with
  | nil =>
    by_cases hc : c = C <;>
      simp [putAmount, Db.total, Db.balance, Db.First, hc, F64.zero_def, F64.toRat]
  | cons r rs ih =>
    by_cases hr : r.UserID = u ∧ r.Currency = c
    · have hbal : Db.balance ⟨k, r :: rs⟩ u c = r.Amount := by
        unfold Db.balance Db.First
        rw [List.find?_cons_of_pos _ (by simpa using hr)]
      rw [hbal, putAmount, if_pos hr]
      by_cases hc : c = C
      · have hrc : r.Currency = C := hr.2.trans hc
        simp [Db.total, hc, hrc]
        ring
      · have hrc : ¬ r.Currency = C := fun h => hc (hr.2.symm.trans h)
        simp [Db.total, hc, hrc]
    · have hbal : Db.balance ⟨k, r :: rs⟩ u c = Db.balance ⟨k, rs⟩ u c := by
        unfold Db.balance Db.First
        rw [List.find?_cons_of_neg _ (by simpa using hr)]
      rw [hbal, putAmount, if_neg hr]
      have hstep : ∀ rows' : List Balance,
          Db.total ⟨l, r :: rows'⟩ C
            = (if r.Currency = C then r.Amount.toRat else 0) + Db.total ⟨l, rows'⟩ C := by
        intro rows'
        by_cases hrc : r.Currency = C <;> simp [Db.total, hrc]
      have hstep' : Db.total ⟨k, r :: rs⟩ C
          = (if r.Currency = C then r.Amount.toRat else 0) + Db.total ⟨k, rs⟩ C := by
        by_cases hrc : r.Currency = C <;> simp [Db.total, hrc]
      rw [hstep, hstep', ih]
      ring

theorem total_mk (l : List Transaction) (db : Db) (C : String) :
    Db.total ⟨l, db.balances⟩ C = db.total C := rfl

/-- The outcome of a call on a sound table: it fails and hands the database back, or it
succeeds, appends one row to the ledger and gives the one or two pairs it touches the
`float64` sum or difference. -/
theorem Call.run_outcome (env : Env) (db : Db) (call : Call) (hwf : db.WF) :
    (∃ err, call.run env db = (db, some err))
    ∨ (∃ u a c d, call = .deposit u a c d
        ∧ call.run env db = (⟨db.transactions ++ [depositEntry env u a c d],
            putAmount env.newBalanceID u c (db.balance u c + a) db.balances⟩, none))
    ∨ (∃ u a c d, call = .withdraw u a c d
        ∧ call.run env db = (⟨db.transactions ++ [withdrawEntry env u a c d],
            putAmount env.newBalanceID u c (db.balance u c - a) db.balances⟩, none))
    ∨ (∃ u v a c d, call = .transfer u v a c d ∧ u ≠ v
        ∧ (u, c) ∈ balanceKeys db.balances
        ∧ call.run env db = (⟨db.transactions ++ [transferEntry env u v a c d],
            putAmount env.newBalanceID v c (db.balance v c + a)
              (putAmount env.newBalanceID u c (db.balance u c - a) db.balances)⟩, none)) := by
  cases call with
  | deposit u a c d =>
    by_cases ha : a ≤ 0
    · exact Or.inl ⟨_, Deposit_of_invalid env db u a c d ha⟩
    · exact Or.inr (Or.inl ⟨u, a, c, d, rfl, Deposit_of_valid env db u a c d hwf ha⟩)
  | withdraw u a c d =>
    by_cases ha : a ≤ 0
    · exact Or.inl ⟨_, Withdraw_of_invalid env db u a c d ha⟩
    · cases hF : db.First u c with
      | none => exact Or.inl ⟨_, Withdraw_of_missing env db u a c d ha hF⟩
      | some r =>
        by_cases hlt : r.Amount < a
        · exact Or.inl ⟨_, Withdraw_of_lt_f64 env db u a c d ha hF hlt⟩
        · refine Or.inr (Or.inr (Or.inl ⟨u, a, c, d, rfl, ?_⟩))
          rw [balance_of_First hF]
          exact Withdraw_of_not_lt env db u a c d hwf ha hF hlt
  | transfer u v a c d =>
    by_cases hne : u = v
    · subst hne
      exact Or.inl ⟨_, Transfer_self_f64 env db u a c d⟩
    · by_cases ha : a ≤ 0
      · exact Or.inl ⟨_, Transfer_of_invalid env db u v a c d hne ha⟩
      · cases hF : db.First u c with
        | none => exact Or.inl ⟨_, Transfer_of_missing env db u v a c d hne ha hF⟩
        | some r =>
          by_cases hlt : r.Amount < a
          · exact Or.inl ⟨_, Transfer_of_lt_f64 env db u v a c d hne ha hF hlt⟩
          · refine Or.inr (Or.inr (Or.inr ⟨u, v, a, c, d, rfl, hne,
              (mem_balanceKeys_iff db u c).2 (by rw [hF]; exact Option.some_ne_none r), ?_⟩))
            rw [balance_of_First hF]
            exact Transfer_of_not_lt env db u v a c d hwf hne ha hF hlt

theorem Call.run_failed_unchanged {env : Env} {db : Db} {call : Call} {err : Error}
    (hwf : db.WF) (h : (call.run env db).2 = some err) : (call.run env db).1 = db := by
  rcases Call.run_outcome env db call hwf with ⟨e, he⟩ | ⟨u, a, c, d, _, he⟩
    | ⟨u, a, c, d, _, he⟩ | ⟨u, v, a, c, d, _, _, _, he⟩
  · rw [he]
  · rw [he] at h; cases h
  · rw [he] at h; cases h
  · rw [he] at h; cases h

/-- Claim C28, as stated, fails on `float64` amounts.  The table holds the single row
`1e16` in EUR; `TransactionService.Deposit` of `1.00` in EUR succeeds, and the sum of the
balances in EUR is `1e16` before and after: it does not change by `+1.00`. -/
theorem total_unchanged_by_deposit_onto_1e16 :
    ((Call.deposit 1 (.fin 1) "EUR" "in").run ⟨5, 3, 4⟩
        (Db.mk [] [⟨7, 1, "EUR", .fin (10 ^ 16)⟩])).2 = none
    ∧ (Db.mk [] [⟨7, 1, "EUR", .fin (10 ^ 16)⟩]).total "EUR" = 10 ^ 16
    ∧ ((Call.deposit 1 (.fin 1) "EUR" "in").run ⟨5, 3, 4⟩
        (Db.mk [] [⟨7, 1, "EUR", .fin (10 ^ 16)⟩])).1.total "EUR" = 10 ^ 16
    ∧ ((Call.deposit 1 (.fin 1) "EUR" "in").run ⟨5, 3, 4⟩
        (Db.mk [] [⟨7, 1, "EUR", .fin (10 ^ 16)⟩])).1.total "EUR"
      ≠ (Db.mk [] [⟨7, 1, "EUR", .fin (10 ^ 16)⟩]).total "EUR" + (F64.fin 1).toRat := by
  have hrun : (Call.deposit 1 (.fin 1) "EUR" "in").run ⟨5, 3, 4⟩
      (Db.mk [] [⟨7, 1, "EUR", .fin (10 ^ 16)⟩])
      = (⟨[depositEntry ⟨5, 3, 4⟩ 1 (.fin 1) "EUR" "in"], [⟨7, 1, "EUR", .fin (10 ^ 16)⟩]⟩,
          none) := by
    show TransactionService.Deposit _ _ _ _ _ _ = _
    rw [Deposit_of_valid _ _ _ _ _ _ (by decide) (by decide)]
    show (Db.mk _ (putAmount 4 1 "EUR" (F64.fin (10 ^ 16) + F64.fin 1) _), _) = _
    rw [F64.fin_add_fin, round_1e16_add_one]
    rfl
  have ht : ∀ l : List Transaction,
      Db.total ⟨l, [⟨7, 1, "EUR", .fin (10 ^ 16)⟩]⟩ "EUR" = 10 ^ 16 := by
    intro l
    simp [Db.total, F64.toRat]
  rw [hrun]
  refine ⟨rfl, ht _, ht _, ?_⟩
  rw [ht, ht]
  simp only [F64.toRat]
  norm_num

/-- Claim C28, amended.  In every state whose balance table is sound, for every currency
`C` and call of `TransactionService.Deposit`, `Withdraw` or `Transfer`: the sum of all
balance amounts in `C` over all accounts changes by zero on any failed call and on any
call in another currency; and when the call succeeds and its `float64` updates are
exact, the sum changes by exactly `+amount` on a deposit in `C`, by exactly `-amount` on
a withdrawal in `C`, and by zero on a transfer. -/
theorem total_float64_changes (env : Env) (db : Db) (currency : String) (call : Call)
    (hwf : db.WF) :
    ((call.run env db).2 = none → call.Exact db →
      (call.run env db).1.total currency = db.total currency + call.delta currency)
    ∧ ((call.run env db).2 = none → call.currency ≠ currency →
      (call.run env db).1.total currency = db.total currency)
    ∧ (∀ err : Error, (call.run env db).2 = some err →
      (call.run env db).1.total currency = db.total currency) := by
  refine ⟨?_, ?_, fun err h => by rw [Call.run_failed_unchanged hwf h]⟩
  · intro hok hex
    rcases Call.run_outcome env db call hwf with ⟨e, he⟩ | ⟨u, a, c, d, hc, he⟩
      | ⟨u, a, c, d, hc, he⟩ | ⟨u, v, a, c, d, hc, hne, _, he⟩
    · rw [he] at hok; cases hok
    · subst hc
      obtain ⟨x, y, hx, hy, hrep⟩ := hex
      rw [he, hx, hy, F64.fin_add_fin, round_of_representable hrep,
        total_putAmount _ db.transactions, total_mk, hx]
      by_cases hcc : c = currency
      · simp only [Call.delta, hcc, if_true, F64.toRat]; ring
      · simp only [Call.delta, hcc, if_false]
    · subst hc
      obtain ⟨x, y, hx, hy, hrep⟩ := hex
      rw [he, hx, hy, F64.fin_sub_fin, round_of_representable hrep,
        total_putAmount _ db.transactions, total_mk, hx]
      by_cases hcc : c = currency
      · simp only [Call.delta, hcc, if_true, F64.toRat]; ring
      · simp only [Call.delta, hcc, if_false]
    · subst hc
      obtain ⟨x, z, y, hx, hz, hy, hrep1, hrep2⟩ := hex
      have h3 : Db.balance ⟨db.transactions,
          putAmount env.newBalanceID u c (.fin (x - y)) db.balances⟩ v c = .fin z := by
        rw [balance_putAmount _ db.transactions, if_neg (fun h => hne h.1), balance_mk_pk, hz]
      rw [he, hx, hz, hy, F64.fin_sub_fin, F64.fin_add_fin, round_of_representable hrep1,
        round_of_representable hrep2]
      show Db.total ⟨_, putAmount _ v c (.fin (z + y)) (putAmount _ u c (.fin (x - y)) _)⟩ _ = _
      rw [total_putAmount _ db.transactions, h3, total_putAmount _ db.transactions, total_mk,
        balance_mk_pk, hx]
      by_cases hcc : c = currency
      · simp only [Call.delta, hcc, if_true, F64.toRat]; ring
      · simp only [Call.delta, hcc, if_false]; ring
  · intro hok hcur
    rcases Call.run_outcome env db call hwf with ⟨e, he⟩ | ⟨u, a, c, d, hc, he⟩
      | ⟨u, a, c, d, hc, he⟩ | ⟨u, v, a, c, d, hc, hne, _, he⟩
    · rw [he] at hok; cases hok
    · subst hc
      have hcur' : ¬ c = currency := hcur
      rw [he, total_putAmount _ db.transactions, total_mk, if_neg hcur', add_zero]
    · subst hc
      have hcur' : ¬ c = currency := hcur
      rw [he, total_putAmount _ db.transactions, total_mk, if_neg hcur', add_zero]
    · subst hc
      have hcur' : ¬ c = currency := hcur
      rw [he]
      show Db.total ⟨_, putAmount _ v c _ (putAmount _ u c _ _)⟩ _ = _
      rw [total_putAmount _ db.transactions, if_neg hcur', add_zero,
        total_putAmount _ db.transactions, total_mk, if_neg hcur', add_zero]

theorem total_float64_changes_witness :
    (Db.mk [] [⟨8, 1, "EUR", .fin 100⟩, ⟨9, 3, "EUR", .fin 5⟩]).WF
    ∧ ((Call.transfer 1 2 (.fin 40) "EUR" "rent").run ⟨6, 2, 4⟩
        (Db.mk [] [⟨8, 1, "EUR", .fin 100⟩, ⟨9, 3, "EUR", .fin 5⟩])).2 = none
    ∧ ((Call.transfer 1 2 (.fin 40) "EUR" "rent").run ⟨6, 2, 4⟩
        (Db.mk [] [⟨8, 1, "EUR", .fin 100⟩, ⟨9, 3, "EUR", .fin 5⟩])).1.total "EUR"
      = (Db.mk [] [⟨8, 1, "EUR", .fin 100⟩, ⟨9, 3, "EUR", .fin 5⟩]).total "EUR"
        + (Call.transfer 1 2 (.fin 40) "EUR" "rent").delta "EUR" := by
  have hwf : (Db.mk [] [⟨8, 1, "EUR", .fin 100⟩, ⟨9, 3, "EUR", .fin 5⟩]).WF := by decide
  have hF : (Db.mk [] [⟨8, 1, "EUR", .fin 100⟩, ⟨9, 3, "EUR", .fin 5⟩]).First 1 "EUR"
      = some ⟨8, 1, "EUR", .fin 100⟩ := rfl
  have hok : ((Call.transfer 1 2 (.fin 40) "EUR" "rent").run ⟨6, 2, 4⟩
      (Db.mk [] [⟨8, 1, "EUR", .fin 100⟩, ⟨9, 3, "EUR", .fin 5⟩])).2 = none := by
    show (TransactionService.Transfer _ _ _ _ _ _ _).2 = none
    rw [Transfer_of_not_lt _ _ _ _ _ _ _ hwf (by decide) (by decide) hF (by decide)]
  exact ⟨hwf, hok,
    (total_float64_changes ⟨6, 2, 4⟩ (Db.mk [] [⟨8, 1, "EUR", .fin 100⟩, ⟨9, 3, "EUR", .fin 5⟩])
      "EUR" (Call.transfer 1 2 (.fin 40) "EUR" "rent") hwf).1 hok
      ⟨100, 0, 40, rfl, rfl, rfl,
        by have := representable_intCast 60 (by norm_num); norm_num at this ⊢; exact this,
        by have := representable_intCast 40 (by norm_num); norm_num at this ⊢; exact this⟩⟩

/-! ## Reading the ledger on float64 amounts -/

theorem sumScan_of_finite (terms : List F64) (h : ∀ x ∈ terms, x.isFinite = true) :
    sumScan terms = F64.round (terms.map F64.toRat).sum := by
  unfold sumScan
  rw [if_pos (List.all_eq_true.2 h)]

theorem F64.isFinite_neg (x : F64) : (-x).isFinite = x.isFinite := by
  cases x <;> rfl

theorem F64.toRat_neg (x : F64) : (-x).toRat = -x.toRat := by
  cases x with
  | nan => show (0 : ℚ) = -0; simp
  | inf s => show (0 : ℚ) = -0; simp
  | fin q => rfl

/-- On a ledger of finite amounts `GetBalanceAtTime` is the exact sum of the selected rows,
signed by the `CASE` expression, rounded once. -/
theorem GetBalanceAtTime_of_finite (db : Db) (hfin : db.FiniteLedger) (u : UUID) (c : String)
    (T : Time) :
    TransactionRepository.GetBalanceAtTime db u c T = F64.round (ledgerSum db u c T) := by
  unfold TransactionRepository.GetBalanceAtTime ledgerSum
  rw [sumScan_of_finite]
  · congr 1
    induction db.transactions with
    | nil => rfl
    | cons t ts ih =>
      by_cases h : (t.UserID = u ∨ t.RecipientID = some u) ∧ t.Currency = c ∧ t.CreatedAt ≤ T
      · rw [List.filter_cons_of_pos (by simpa using h)]
        simp only [List.map_cons, List.sum_cons, ih, entryEffect, if_pos h]
        congr 1
        split_ifs
        · rfl
        · exact F64.toRat_neg _
      · rw [List.filter_cons_of_neg (by simpa using h)]
        simp only [List.map_cons, List.sum_cons, ih, entryEffect, if_neg h, zero_add]
  · intro x hx
    obtain ⟨t, ht, rfl⟩ := List.mem_map.1 hx
    have hft := hfin t (List.mem_of_mem_filter ht)
    split_ifs
    · exact hft
    · rw [F64.isFinite_neg]; exact hft

theorem ledgerSum_append (l : List Transaction) (e : Transaction) (bs bs' : List Balance)
    (u : UUID) (c : String) (T : Time) :
    ledgerSum ⟨l ++ [e], bs⟩ u c T = ledgerSum ⟨l, bs'⟩ u c T + entryEffect u c T e := by
  simp [ledgerSum]

theorem ledgerSum_mk (l : List Transaction) (bs bs' : List Balance) (u : UUID) (c : String)
    (T : Time) : ledgerSum ⟨l, bs⟩ u c T = ledgerSum ⟨l, bs'⟩ u c T := rfl

theorem FiniteLedger_append {db : Db} (hfin : db.FiniteLedger) (e : Transaction)
    (bs : List Balance) (he : e.Amount.isFinite = true) :
    Db.FiniteLedger ⟨db.transactions ++ [e], bs⟩ := by
  intro t ht
  rcases List.mem_append.1 ht with h | h
  · exact hfin t h
  · rw [List.mem_singleton.1 h]; exact he

theorem entryEffect_inserted_of_owner (env : Env) (tx : Transaction) (T : Time)
    (hT : (tx.inserted env).CreatedAt ≤ T) :
    entryEffect tx.UserID tx.Currency T (tx.inserted env)
      = if tx.Type_ = TransactionTypeDeposit
          ∨ (tx.Type_ = TransactionTypeTransfer ∧ tx.RecipientID = some tx.UserID)
        then tx.Amount.toRat else -tx.Amount.toRat := by
  have h1 : (tx.inserted env).UserID = tx.UserID := rfl
  have h2 : (tx.inserted env).Currency = tx.Currency := rfl
  have h3 : (tx.inserted env).Type_ = tx.Type_ := rfl
  have h4 : (tx.inserted env).RecipientID = tx.RecipientID := rfl
  have h5 : (tx.inserted env).Amount = tx.Amount := rfl
  unfold entryEffect
  rw [h1, h2, h3, h4, h5, if_pos ⟨Or.inl rfl, rfl, hT⟩]

/-! ## Transactions that the three operations never build, on float64 amounts -/

theorem ServiceCreate_of_unknown_type (env : Env) (db : Db) (tx : Transaction)
    (hD : tx.Type_ ≠ TransactionTypeDeposit) (hW : tx.Type_ ≠ TransactionTypeWithdraw)
    (hT : tx.Type_ ≠ TransactionTypeTransfer) (hpos : 0 < tx.Amount) :
    tx.Validate = none
    ∧ TransactionService.Create env db tx
      = (⟨db.transactions ++ [tx.inserted env], db.balances⟩, none) := by
  have hv : tx.Validate = none := by
    simp [Transaction.Validate, F64.not_le_of_lt hpos, hT]
  refine ⟨hv, ?_⟩
  unfold TransactionService.Create
  simp only [hv]
  exact RepositoryCreate_of_other env db tx hD hW hT

/-- Claim C29, as stated, fails on `float64` amounts.  The ledger holds one deposit of
`1e16` for account 1 in EUR and the balance table the row it wrote.  A transaction of
type "fee" with amount `1.00` passes `TransactionService.Create`; `GetBalanceAtTime` for
the account is `1e16` before the call and `1e16` after it, not lower by `1.00`. -/
theorem fee_leaves_GetBalanceAtTime_at_1e16 :
    (TransactionService.Create ⟨5, 9, 4⟩
        (Db.mk [⟨1, 1, TransactionTypeDeposit, .fin (10 ^ 16), "EUR", none, "", "completed", 1, 1⟩]
          [⟨7, 1, "EUR", .fin (10 ^ 16)⟩])
        ⟨0, 1, "fee", .fin 1, "EUR", none, "", "", 0, 0⟩).2 = none
    ∧ TransactionRepository.GetBalanceAtTime
        (Db.mk [⟨1, 1, TransactionTypeDeposit, .fin (10 ^ 16), "EUR", none, "", "completed", 1, 1⟩]
          [⟨7, 1, "EUR", .fin (10 ^ 16)⟩]) 1 "EUR" 9 = .fin (10 ^ 16)
    ∧ TransactionRepository.GetBalanceAtTime
        (TransactionService.Create ⟨5, 9, 4⟩
          (Db.mk [⟨1, 1, TransactionTypeDeposit, .fin (10 ^ 16), "EUR", none, "", "completed", 1, 1⟩]
            [⟨7, 1, "EUR", .fin (10 ^ 16)⟩])
          ⟨0, 1, "fee", .fin 1, "EUR", none, "", "", 0, 0⟩).1 1 "EUR" 9 = .fin (10 ^ 16)
    ∧ (F64.fin (10 ^ 16)).toRat ≠ (F64.fin (10 ^ 16)).toRat - (F64.fin 1).toRat := by
  have hcreate := (ServiceCreate_of_unknown_type ⟨5, 9, 4⟩
    (Db.mk [⟨1, 1, TransactionTypeDeposit, .fin (10 ^ 16), "EUR", none, "", "completed", 1, 1⟩]
      [⟨7, 1, "EUR", .fin (10 ^ 16)⟩])
    ⟨0, 1, "fee", .fin 1, "EUR", none, "", "", 0, 0⟩ (by decide) (by decide) (by decide)
    (by decide)).2
  have hb : TransactionRepository.GetBalanceAtTime
      (Db.mk [⟨1, 1, TransactionTypeDeposit, .fin (10 ^ 16), "EUR", none, "", "completed", 1, 1⟩]
        [⟨7, 1, "EUR", .fin (10 ^ 16)⟩]) 1 "EUR" 9 = .fin (10 ^ 16) := by
    rw [GetBalanceAtTime_of_finite _ (by decide)]
    have : ledgerSum (Db.mk [⟨1, 1, TransactionTypeDeposit, .fin (10 ^ 16), "EUR", none, "",
        "completed", 1, 1⟩] [⟨7, 1, "EUR", .fin (10 ^ 16)⟩]) 1 "EUR" 9 = 10 ^ 16 := by
      simp [ledgerSum, entryEffect, F64.toRat]
    rw [this, round_of_representable representable_1e16]
  have ha : TransactionRepository.GetBalanceAtTime
      (Db.mk ([⟨1, 1, TransactionTypeDeposit, .fin (10 ^ 16), "EUR", none, "", "completed", 1, 1⟩]
        ++ [(Transaction.mk 0 1 "fee" (.fin 1) "EUR" none "" "" 0 0).inserted ⟨5, 9, 4⟩])
        [⟨7, 1, "EUR", .fin (10 ^ 16)⟩]) 1 "EUR" 9 = .fin (10 ^ 16) := by
    rw [GetBalanceAtTime_of_finite _ (by decide)]
    have : ledgerSum (Db.mk ([⟨1, 1, TransactionTypeDeposit, .fin (10 ^ 16), "EUR", none, "",
        "completed", 1, 1⟩]
        ++ [(Transaction.mk 0 1 "fee" (.fin 1) "EUR" none "" "" 0 0).inserted ⟨5, 9, 4⟩])
        [⟨7, 1, "EUR", .fin (10 ^ 16)⟩]) 1 "EUR" 9 = 10 ^ 16 - 1 := by
      simp [ledgerSum, entryEffect, F64.toRat, Transaction.inserted, uuidNil, zeroTime,
        TransactionTypeDeposit, TransactionTypeTransfer]
      norm_num
    rw [this, round_1e16_sub_one]
  rw [hcreate]
  refine ⟨rfl, hb, ha, ?_⟩
  simp only [F64.toRat]
  norm_num

/-- Claim C29, amended.  For every transaction whose type is none of deposit, withdraw
and transfer and whose amount is `> 0`, `Transaction.Validate` returns `nil` and
`TransactionService.Create` succeeds: it appends the row to the ledger and changes no
balance row, so the stored balance is the same.  For the owner and currency of the row,
on a ledger of finite amounts, `GetBalanceAtTime` at any time not before the row was
created is then the `float64` nearest to the exact sum of the ledger less the amount; it
is lower by the amount than before the call whenever the exact sum before the call and
the one after it are `float64` values. -/
theorem other_type_debits_ledger_float64 (env : Env) (db : Db) (transaction : Transaction)
    (hdeposit : transaction.Type_ ≠ TransactionTypeDeposit)
    (hwithdraw : transaction.Type_ ≠ TransactionTypeWithdraw)
    (htransfer : transaction.Type_ ≠ TransactionTypeTransfer)
    (hpos : 0 < transaction.Amount) :
    transaction.Validate = none
    ∧ TransactionService.Create env db transaction
        = (⟨db.transactions ++ [transaction.inserted env], db.balances⟩, none)
    ∧ (TransactionService.Create env db transaction).1.balance transaction.UserID
          transaction.Currency
        = db.balance transaction.UserID transaction.Currency
    ∧ (∀ (atTime : Time) (a : ℚ), (transaction.inserted env).CreatedAt ≤ atTime →
        db.FiniteLedger → transaction.Amount = .fin a →
        TransactionRepository.GetBalanceAtTime db transaction.UserID transaction.Currency
            atTime
          = F64.round (ledgerSum db transaction.UserID transaction.Currency atTime)
        ∧ TransactionRepository.GetBalanceAtTime
            (TransactionService.Create env db transaction).1
            transaction.UserID transaction.Currency atTime
          = F64.round (ledgerSum db transaction.UserID transaction.Currency atTime - a)
        ∧ (F64.Representable (ledgerSum db transaction.UserID transaction.Currency atTime) →
          F64.Representable (ledgerSum db transaction.UserID transaction.Currency atTime - a) →
          (TransactionRepository.GetBalanceAtTime
              (TransactionService.Create env db transaction).1
              transaction.UserID transaction.Currency atTime).toRat
            = (TransactionRepository.GetBalanceAtTime db transaction.UserID
                transaction.Currency atTime).toRat - a)) := by
  obtain ⟨hv, hcreate⟩ := ServiceCreate_of_unknown_type env db transaction hdeposit hwithdraw
    htransfer hpos
  refine ⟨hv, hcreate, by rw [hcreate]; rfl, ?_⟩
  intro atTime a hT hfin ha
  have hbefore := GetBalanceAtTime_of_finite db hfin transaction.UserID transaction.Currency
    atTime
  have hfin' : Db.FiniteLedger ⟨db.transactions ++ [transaction.inserted env], db.balances⟩ :=
    FiniteLedger_append hfin _ _ (by show transaction.Amount.isFinite = true; rw [ha]; rfl)
  have hafter : TransactionRepository.GetBalanceAtTime
      (TransactionService.Create env db transaction).1
      transaction.UserID transaction.Currency atTime
      = F64.round (ledgerSum db transaction.UserID transaction.Currency atTime - a) := by
    rw [hcreate, GetBalanceAtTime_of_finite _ hfin', ledgerSum_append _ _ _ db.balances,
      entryEffect_inserted_of_owner env transaction atTime hT, if_neg, ha]
    · show F64.round (ledgerSum db _ _ _ + -a) = _
      rw [← sub_eq_add_neg]
    · rintro (h | ⟨h, _⟩)
      · exact hdeposit h
      · exact htransfer h
  refine ⟨hbefore, hafter, ?_⟩
  intro h1 h2
  rw [hafter, hbefore, round_of_representable h1, round_of_representable h2]
  rfl

theorem other_type_debits_ledger_float64_witness :
    (Transaction.mk 0 1 "fee" (.fin 5) "EUR" none "" "" 0 0).Type_ ≠ TransactionTypeDeposit
    ∧ (Transaction.mk 0 1 "fee" (.fin 5) "EUR" none "" "" 0 0).Type_ ≠ TransactionTypeWithdraw
    ∧ (Transaction.mk 0 1 "fee" (.fin 5) "EUR" none "" "" 0 0).Type_ ≠ TransactionTypeTransfer
    ∧ 0 < (Transaction.mk 0 1 "fee" (.fin 5) "EUR" none "" "" 0 0).Amount
    ∧ TransactionService.Create ⟨5, 9, 4⟩ (Db.mk [] [⟨7, 1, "EUR", .fin 60⟩])
        (Transaction.mk 0 1 "fee" (.fin 5) "EUR" none "" "" 0 0)
      = (⟨(Db.mk [] [⟨7, 1, "EUR", .fin 60⟩]).transactions
            ++ [(Transaction.mk 0 1 "fee" (.fin 5) "EUR" none "" "" 0 0).inserted ⟨5, 9, 4⟩],
          (Db.mk [] [⟨7, 1, "EUR", .fin 60⟩]).balances⟩, none) :=
  ⟨by decide, by decide, by decide, by decide,
    (other_type_debits_ledger_float64 ⟨5, 9, 4⟩ (Db.mk [] [⟨7, 1, "EUR", .fin 60⟩])
      (Transaction.mk 0 1 "fee" (.fin 5) "EUR" none "" "" 0 0) (by decide) (by decide)
      (by decide) (by decide)).2.1⟩

theorem ServiceCreate_of_own_transfer (env : Env) (db : Db) (tx : Transaction) (hwf : db.WF)
    (hT : tx.Type_ = TransactionTypeTransfer) (hrec : tx.RecipientID = some tx.UserID)
    (hpos : 0 < tx.Amount) (hle : tx.Amount ≤ db.balance tx.UserID tx.Currency) :
    tx.Validate = none
    ∧ TransactionService.Create env db tx
      = (⟨db.transactions ++ [tx.inserted env],
          putAmount env.newBalanceID tx.UserID tx.Currency
            (db.balance tx.UserID tx.Currency - tx.Amount + tx.Amount)
            (putAmount env.newBalanceID tx.UserID tx.Currency
              (db.balance tx.UserID tx.Currency - tx.Amount) db.balances)⟩, none) := by
  have hv : tx.Validate = none := by
    simp [Transaction.Validate, F64.not_le_of_lt hpos, hrec]
  obtain ⟨r, hF, hlt⟩ := First_of_covered hpos hle
  refine ⟨hv, ?_⟩
  unfold TransactionService.Create
  simp only [hv]
  rw [RepositoryCreate_of_transfer env db tx hwf hT hrec hF hlt, if_pos rfl,
    balance_of_First hF]

/-- Claim C30, as stated, fails on `float64` amounts.  Account 1 holds `1e16 + 2` in EUR.
A transfer of `1.00` from the account to itself, handed to `TransactionService.Create`,
succeeds; the sender block stores `1e16` (the difference `1e16 + 1` is not a `float64`),
the recipient block adds `1.00` to that and stores `1e16` again: the balance is `1e16`
afterwards, not its previous value. -/
theorem own_transfer_of_one_at_1e16 :
    (TransactionService.Create ⟨5, 9, 4⟩
        (Db.mk [⟨1, 1, TransactionTypeDeposit, .fin (10 ^ 16 + 2), "EUR", none, "", "completed", 1,
          1⟩] [⟨7, 1, "EUR", .fin (10 ^ 16 + 2)⟩])
        ⟨0, 1, TransactionTypeTransfer, .fin 1, "EUR", some 1, "", "", 0, 0⟩).2 = none
    ∧ (Db.mk [⟨1, 1, TransactionTypeDeposit, .fin (10 ^ 16 + 2), "EUR", none, "", "completed", 1,
          1⟩] [⟨7, 1, "EUR", .fin (10 ^ 16 + 2)⟩]).balance 1 "EUR" = .fin (10 ^ 16 + 2)
    ∧ (TransactionService.Create ⟨5, 9, 4⟩
        (Db.mk [⟨1, 1, TransactionTypeDeposit, .fin (10 ^ 16 + 2), "EUR", none, "", "completed", 1,
          1⟩] [⟨7, 1, "EUR", .fin (10 ^ 16 + 2)⟩])
        ⟨0, 1, TransactionTypeTransfer, .fin 1, "EUR", some 1, "", "", 0, 0⟩).1.balance 1 "EUR"
      = .fin (10 ^ 16)
    ∧ F64.Valid (.fin (10 ^ 16 + 2))
    ∧ (F64.fin (10 ^ 16) : F64) ≠ .fin (10 ^ 16 + 2) := by
  have hwf : (Db.mk [⟨1, 1, TransactionTypeDeposit, .fin (10 ^ 16 + 2), "EUR", none, "",
      "completed", 1, 1⟩] [⟨7, 1, "EUR", .fin (10 ^ 16 + 2)⟩]).WF := by decide
  have hb : (Db.mk [⟨1, 1, TransactionTypeDeposit, .fin (10 ^ 16 + 2), "EUR", none, "",
      "completed", 1, 1⟩] [⟨7, 1, "EUR", .fin (10 ^ 16 + 2)⟩]).balance 1 "EUR"
      = .fin (10 ^ 16 + 2) := rfl
  have hle : (Transaction.mk 0 1 TransactionTypeTransfer (.fin 1) "EUR" (some 1) "" "" 0 0).Amount
      ≤ (Db.mk [⟨1, 1, TransactionTypeDeposit, .fin (10 ^ 16 + 2), "EUR", none, "",
        "completed", 1, 1⟩] [⟨7, 1, "EUR", .fin (10 ^ 16 + 2)⟩]).balance
          (Transaction.mk 0 1 TransactionTypeTransfer (.fin 1) "EUR" (some 1) "" "" 0 0).UserID
          (Transaction.mk 0 1 TransactionTypeTransfer (.fin 1) "EUR" (some 1) "" "" 0 0).Currency := by
    show F64.fin 1 ≤ Db.balance _ 1 "EUR"
    rw [hb, F64.fin_le_fin]
    norm_num
  have hcreate := (ServiceCreate_of_own_transfer ⟨5, 9, 4⟩ _
    ⟨0, 1, TransactionTypeTransfer, .fin 1, "EUR", some 1, "", "", 0, 0⟩ hwf rfl rfl
    (by decide) hle).2
  have h1 : F64.round (10 ^ 16 + 2 - 1) = .fin (10 ^ 16) := by
    have : (10 ^ 16 + 2 - 1 : ℚ) = 10 ^ 16 + 1 := by norm_num
    rw [this, round_1e16_add_one]
  rw [hcreate]
  refine ⟨rfl, hb, ?_, representable_1e16_add_two, ?_⟩
  · rw [balance_putAmount _ [], if_pos ⟨rfl, rfl⟩]
    show Db.balance _ 1 "EUR" - F64.fin 1 + F64.fin 1 = _
    rw [hb, F64.fin_sub_fin, h1, F64.fin_add_fin, round_1e16_add_one]
  · intro h
    have := F64.fin.inj h
    norm_num at this

/-- Claim C30, amended.  In every state whose balance table is sound, for every transfer
transaction whose `RecipientID` is its own `UserID` `A`, in currency `C`, with
`0 < amount ≤ balance(A, C)`: handed to `TransactionService.Create` it passes `Validate`,
succeeds and appends one ledger row; the recipient block re-reads and credits the row
the sender block just debited, so `balance(A, C)` becomes the `float64` value of
`(balance - amount) + amount`, which is its previous value whenever the balance is a
`float64` value and the difference is exact, and the rows of the other pairs are as
they were; yet on a ledger of finite amounts `GetBalanceAtTime(A, C, now)`, for any `now`
not before the row was created, is the `float64` nearest to the exact sum of the ledger
plus the amount, so if the two agreed before the call, and the sums are exact, they
differ after it. -/
theorem self_transfer_float64 (env : Env) (db : Db) (transaction : Transaction)
    (hwf : db.WF) (htransfer : transaction.Type_ = TransactionTypeTransfer)
    (hself : transaction.RecipientID = some transaction.UserID)
    (hpos : 0 < transaction.Amount)
    (hcovered : transaction.Amount ≤ db.balance transaction.UserID transaction.Currency) :
    transaction.Validate = none
    ∧ (TransactionService.Create env db transaction).2 = none
    ∧ (TransactionService.Create env db transaction).1.transactions
        = db.transactions ++ [transaction.inserted env]
    ∧ (TransactionService.Create env db transaction).1.balance transaction.UserID
          transaction.Currency
        = db.balance transaction.UserID transaction.Currency - transaction.Amount
          + transaction.Amount
    ∧ (∀ x a : ℚ, db.balance transaction.UserID transaction.Currency = .fin x →
        transaction.Amount = .fin a → F64.Representable x → F64.Representable (x - a) →
        (TransactionService.Create env db transaction).1.balance transaction.UserID
            transaction.Currency
          = db.balance transaction.UserID transaction.Currency)
    ∧ (∀ (u : UUID) (c : String), ¬ (u = transaction.UserID ∧ c = transaction.Currency) →
        (TransactionService.Create env db transaction).1.First u c = db.First u c)
    ∧ (∀ (now : Time) (a : ℚ), (transaction.inserted env).CreatedAt ≤ now →
        db.FiniteLedger → transaction.Amount = .fin a →
        TransactionRepository.GetBalanceAtTime db transaction.UserID transaction.Currency now
          = F64.round (ledgerSum db transaction.UserID transaction.Currency now)
        ∧ TransactionRepository.GetBalanceAtTime
            (TransactionService.Create env db transaction).1
            transaction.UserID transaction.Currency now
          = F64.round (ledgerSum db transaction.UserID transaction.Currency now + a))
    ∧ (∀ (now : Time) (x a : ℚ), (transaction.inserted env).CreatedAt ≤ now →
        db.FiniteLedger → db.balance transaction.UserID transaction.Currency = .fin x →
        transaction.Amount = .fin a → F64.Representable x → F64.Representable (x - a) →
        F64.Representable (ledgerSum db transaction.UserID transaction.Currency now) →
        F64.Representable (ledgerSum db transaction.UserID transaction.Currency now + a) →
        db.balance transaction.UserID transaction.Currency
          = TransactionRepository.GetBalanceAtTime db transaction.UserID
              transaction.Currency now →
        (TransactionService.Create env db transaction).1.balance transaction.UserID
            transaction.Currency
          ≠ TransactionRepository.GetBalanceAtTime
              (TransactionService.Create env db transaction).1
              transaction.UserID transaction.Currency now) := by
  obtain ⟨hv, hcreate⟩ := ServiceCreate_of_own_transfer env db transaction hwf htransfer hself
    hpos hcovered
  have hbal : (TransactionService.Create env db transaction).1.balance transaction.UserID
      transaction.Currency
      = db.balance transaction.UserID transaction.Currency - transaction.Amount
        + transaction.Amount := by
    rw [hcreate, balance_putAmount _ db.transactions, if_pos ⟨rfl, rfl⟩]
  have hexact : ∀ x a : ℚ, db.balance transaction.UserID transaction.Currency = .fin x →
      transaction.Amount = .fin a → F64.Representable x → F64.Representable (x - a) →
      (TransactionService.Create env db transaction).1.balance transaction.UserID
          transaction.Currency
        = db.balance transaction.UserID transaction.Currency := by
    intro x a hx ha h1 h2
    rw [hbal, hx, ha, F64.fin_sub_fin, round_of_representable h2, F64.fin_add_fin,
      sub_add_cancel, round_of_representable h1]
  have hgbt : ∀ (now : Time) (a : ℚ), (transaction.inserted env).CreatedAt ≤ now →
      db.FiniteLedger → transaction.Amount = .fin a →
      TransactionRepository.GetBalanceAtTime db transaction.UserID transaction.Currency now
        = F64.round (ledgerSum db transaction.UserID transaction.Currency now)
      ∧ TransactionRepository.GetBalanceAtTime
          (TransactionService.Create env db transaction).1
          transaction.UserID transaction.Currency now
        = F64.round (ledgerSum db transaction.UserID transaction.Currency now + a) := by
    intro now a hT hfin ha
    refine ⟨GetBalanceAtTime_of_finite db hfin _ _ _, ?_⟩
    have hfin' : Db.FiniteLedger ⟨db.transactions ++ [transaction.inserted env],
        putAmount env.newBalanceID transaction.UserID transaction.Currency
          (db.balance transaction.UserID transaction.Currency - transaction.Amount
            + transaction.Amount)
          (putAmount env.newBalanceID transaction.UserID transaction.Currency
            (db.balance transaction.UserID transaction.Currency - transaction.Amount)
            db.balances)⟩ :=
      FiniteLedger_append hfin _ _ (by show transaction.Amount.isFinite = true; rw [ha]; rfl)
    rw [hcreate, GetBalanceAtTime_of_finite _ hfin', ledgerSum_append _ _ _ db.balances,
      entryEffect_inserted_of_owner env transaction now hT,
      if_pos (Or.inr ⟨htransfer, hself⟩), ha]
    rfl
  refine ⟨hv, by rw [hcreate], by rw [hcreate], hbal, hexact, ?_, hgbt, ?_⟩
  · intro u c hne
    rw [hcreate, First_putAmount, if_neg (fun h => hne ⟨h.1.symm, h.2.symm⟩), First_putAmount,
      if_neg (fun h => hne ⟨h.1.symm, h.2.symm⟩)]
    rfl
  · intro now x a hT hfin hx ha h1 h2 h3 h4 hagree
    have hsum : ledgerSum db transaction.UserID transaction.Currency now = x := by
      rw [hx, (hgbt now a hT hfin ha).1, round_of_representable h3] at hagree
      exact (F64.fin.inj hagree).symm
    rw [hexact x a hx ha h1 h2, (hgbt now a hT hfin ha).2, round_of_representable h4, hsum, hx]
    intro h
    have hxa := F64.fin.inj h
    have hapos : 0 < a := by
      rw [ha, F64.zero_def, F64.fin_lt_fin] at hpos
      exact hpos
    have : x < x + a := lt_add_of_pos_right x hapos
    rw [← hxa] at this
    exact lt_irrefl x this

theorem self_transfer_float64_witness :
    (Db.mk [] [⟨7, 1, "EUR", .fin 100⟩]).WF
    ∧ (Transaction.mk 0 1 TransactionTypeTransfer (.fin 40) "EUR" (some 1) "" "" 0 0).Type_
        = TransactionTypeTransfer
    ∧ (Transaction.mk 0 1 TransactionTypeTransfer (.fin 40) "EUR" (some 1) "" "" 0 0).RecipientID
        = some (Transaction.mk 0 1 TransactionTypeTransfer (.fin 40) "EUR" (some 1) "" "" 0
            0).UserID
    ∧ 0 < (Transaction.mk 0 1 TransactionTypeTransfer (.fin 40) "EUR" (some 1) "" "" 0 0).Amount
    ∧ (Transaction.mk 0 1 TransactionTypeTransfer (.fin 40) "EUR" (some 1) "" "" 0 0).Amount
        ≤ (Db.mk [] [⟨7, 1, "EUR", .fin 100⟩]).balance
            (Transaction.mk 0 1 TransactionTypeTransfer (.fin 40) "EUR" (some 1) "" "" 0 0).UserID
            (Transaction.mk 0 1 TransactionTypeTransfer (.fin 40) "EUR" (some 1) "" "" 0
              0).Currency
    ∧ (TransactionService.Create ⟨5, 9, 4⟩ (Db.mk [] [⟨7, 1, "EUR", .fin 100⟩])
        (Transaction.mk 0 1 TransactionTypeTransfer (.fin 40) "EUR" (some 1) "" "" 0 0)).2
      = none :=
  ⟨by decide, by decide, by decide, by decide, by decide,
    (self_transfer_float64 ⟨5, 9, 4⟩ (Db.mk [] [⟨7, 1, "EUR", .fin 100⟩])
      (Transaction.mk 0 1 TransactionTypeTransfer (.fin 40) "EUR" (some 1) "" "" 0 0)
      (by decide) (by decide) (by decide) (by decide) (by decide)).2.1⟩

/-! ## Stored balances against the ledger, on float64 amounts -/

theorem entryEffect_of_depositEntry (env : Env) (u : UUID) (a : F64) (c d : String)
    (A : UUID) (C : String) (T : Time) (hT : env.now ≤ T) :
    entryEffect A C T (depositEntry env u a c d) = if u = A ∧ c = C then a.toRat else 0 := by
  by_cases h : u = A ∧ c = C <;>
    simp [entryEffect, depositEntry, hT, h, TransactionTypeDeposit]

theorem entryEffect_of_withdrawEntry (env : Env) (u : UUID) (a : F64) (c d : String)
    (A : UUID) (C : String) (T : Time) (hT : env.now ≤ T) :
    entryEffect A C T (withdrawEntry env u a c d) = if u = A ∧ c = C then -a.toRat else 0 := by
  by_cases h : u = A ∧ c = C <;>
    simp [entryEffect, withdrawEntry, hT, h, TransactionTypeDeposit, TransactionTypeWithdraw,
      TransactionTypeTransfer]

theorem entryEffect_of_transferEntry (env : Env) (u v : UUID) (a : F64) (c d : String)
    (A : UUID) (C : String) (T : Time) (hT : env.now ≤ T) :
    entryEffect A C T (transferEntry env u v a c d)
      = if v = A ∧ c = C then a.toRat else if u = A ∧ c = C then -a.toRat else 0 := by
  by_cases hc : c = C
  · by_cases hv : v = A
    · simp [entryEffect, transferEntry, hT, hc, hv, TransactionTypeDeposit,
        TransactionTypeTransfer]
    · by_cases hu : u = A
      · simp [entryEffect, transferEntry, hT, hc, hv, hu, TransactionTypeDeposit,
          TransactionTypeTransfer]
      · simp [entryEffect, transferEntry, hT, hc, hv, hu, TransactionTypeDeposit,
          TransactionTypeTransfer]
  · simp [entryEffect, transferEntry, hc]

theorem Settled_empty (T : Time) : Db.empty.Settled T := by
  refine ⟨by decide, by decide, fun u c => ⟨rfl, ?_⟩⟩
  show F64.round 0 = .fin 0
  exact round_zero

theorem Call.run_settled (env : Env) (db : Db) (call : Call) (T : Time)
    (h : db.Settled T) (hfresh : env.Fresh db)
    (hex : (call.run env db).2 = none → call.Exact db) (hnow : env.now ≤ T) :
    (call.run env db).1.Settled T := by
  obtain ⟨hwf, hfin, hbal⟩ := h
  rcases Call.run_outcome env db call hwf with ⟨e, he⟩ | ⟨u, a, c, d, hc, he⟩
    | ⟨u, a, c, d, hc, he⟩ | ⟨u, v, a, c, d, hc, hne, hkey, he⟩
  · rw [he]; exact ⟨hwf, hfin, hbal⟩
  · subst hc
    rw [he] at hex ⊢
    obtain ⟨x, y, hx, hy, hrep⟩ := hex rfl
    have hxs : ledgerSum db u c T = x := F64.fin.inj ((hbal u c).1.symm.trans hx)
    refine ⟨WF_putAmount db.transactions _ _ _ _ _ _ hwf (fun _ => hfresh),
      FiniteLedger_append hfin _ _ (by show a.isFinite = true; rw [hy]; rfl), ?_⟩
    intro A C
    rw [balance_putAmount _ db.transactions, ledgerSum_append _ _ _ db.balances,
      entryEffect_of_depositEntry _ _ _ _ _ _ _ _ hnow, hx, hy, F64.fin_add_fin,
      round_of_representable hrep]
    by_cases hk : u = A ∧ c = C
    · obtain ⟨rfl, rfl⟩ := hk
      simp only [and_self, if_true, F64.toRat]
      rw [ledgerSum_mk _ _ db.balances, show ledgerSum ⟨db.transactions, db.balances⟩ u c T
        = ledgerSum db u c T from rfl, hxs]
      exact ⟨rfl, round_of_representable hrep⟩
    · simp only [hk, if_false, add_zero]
      exact hbal A C
  · subst hc
    rw [he] at hex ⊢
    obtain ⟨x, y, hx, hy, hrep⟩ := hex rfl
    have hxs : ledgerSum db u c T = x := F64.fin.inj ((hbal u c).1.symm.trans hx)
    refine ⟨WF_putAmount db.transactions _ _ _ _ _ _ hwf (fun _ => hfresh),
      FiniteLedger_append hfin _ _ (by show a.isFinite = true; rw [hy]; rfl), ?_⟩
    intro A C
    rw [balance_putAmount _ db.transactions, ledgerSum_append _ _ _ db.balances,
      entryEffect_of_withdrawEntry _ _ _ _ _ _ _ _ hnow, hx, hy, F64.fin_sub_fin,
      round_of_representable hrep]
    by_cases hk : u = A ∧ c = C
    · obtain ⟨rfl, rfl⟩ := hk
      simp only [and_self, if_true, F64.toRat]
      rw [ledgerSum_mk _ _ db.balances, show ledgerSum ⟨db.transactions, db.balances⟩ u c T
        = ledgerSum db u c T from rfl, hxs, ← sub_eq_add_neg]
      exact ⟨rfl, round_of_representable hrep⟩
    · simp only [hk, if_false, add_zero]
      exact hbal A C
  · subst hc
    rw [he] at hex ⊢
    obtain ⟨x, z, y, hx, hz, hy, hrep1, hrep2⟩ := hex rfl
    have hxs : ledgerSum db u c T = x := F64.fin.inj ((hbal u c).1.symm.trans hx)
    have hzs : ledgerSum db v c T = z := F64.fin.inj ((hbal v c).1.symm.trans hz)
    have hwf1 : Db.WF ⟨db.transactions,
        putAmount env.newBalanceID u c (db.balance u c - a) db.balances⟩ :=
      WF_putAmount db.transactions _ _ _ _ _ _ hwf (fun h => absurd hkey h)
    have hfresh1 : (v, c) ∉ balanceKeys
        (putAmount env.newBalanceID u c (db.balance u c - a) db.balances) →
        env.newBalanceID ≠ uuidNil ∧ env.newBalanceID ∉
          (putAmount env.newBalanceID u c (db.balance u c - a) db.balances).map Balance.ID := by
      intro _
      rw [ids_putAmount, if_pos hkey]
      exact hfresh
    refine ⟨WF_putAmount db.transactions _ _ _ _ _ _ hwf1 hfresh1,
      FiniteLedger_append hfin _ _ (by show a.isFinite = true; rw [hy]; rfl), ?_⟩
    intro A C
    rw [balance_putAmount _ db.transactions, balance_putAmount _ db.transactions,
      ledgerSum_append _ _ _ db.balances,
      entryEffect_of_transferEntry _ _ _ _ _ _ _ _ _ hnow, hx, hz, hy, F64.fin_sub_fin,
      F64.fin_add_fin, round_of_representable hrep1, round_of_representable hrep2]
    by_cases hv : v = A ∧ c = C
    · obtain ⟨rfl, rfl⟩ := hv
      simp only [and_self, if_true, F64.toRat]
      rw [ledgerSum_mk _ _ db.balances, show ledgerSum ⟨db.transactions, db.balances⟩ v c T
        = ledgerSum db v c T from rfl, hzs]
      exact ⟨rfl, round_of_representable hrep2⟩
    · by_cases hu : u = A ∧ c = C
      · obtain ⟨rfl, rfl⟩ := hu
        have hvu : ¬ v = u := fun e => hne e.symm
        simp only [hvu, false_and, if_false, and_self, if_true, F64.toRat]
        rw [ledgerSum_mk _ _ db.balances, show ledgerSum ⟨db.transactions, db.balances⟩ u c T
          = ledgerSum db u c T from rfl, hxs, ← sub_eq_add_neg]
        exact ⟨rfl, round_of_representable hrep1⟩
      · simp only [hv, hu, if_false, add_zero]
        exact hbal A C

theorem Call.run_ids (env : Env) (db : Db) (call : Call) (hwf : db.WF) :
    ∀ id ∈ (call.run env db).1.balances.map Balance.ID,
      id ∈ db.balances.map Balance.ID ∨ id = env.newBalanceID := by
  rcases Call.run_outcome env db call hwf with ⟨e, he⟩ | ⟨u, a, c, d, hc, he⟩
    | ⟨u, a, c, d, hc, he⟩ | ⟨u, v, a, c, d, hc, hne, hkey, he⟩
  · rw [he]; exact fun id hid => Or.inl hid
  · rw [he]; exact ids_putAmount_subset _ _ _ _ _
  · rw [he]; exact ids_putAmount_subset _ _ _ _ _
  · rw [he]
    intro id hid
    rcases ids_putAmount_subset _ _ _ _ _ id hid with h | h
    · exact ids_putAmount_subset _ _ _ _ _ id h
    · exact Or.inr h

theorem runCalls_settled (T : Time) (calls : List (Env × Call)) :
    ∀ db : Db, db.Settled T → FreshIds db (calls.map Prod.fst) → ExactRun db calls →
      (∀ p ∈ calls, p.1.now ≤ T) → (runCalls db calls).Settled T := by
  induction calls with
  | nil => intro db h _ _ _; exact h
  | cons p rest ih =>
    intro db h hfresh hexact hnow
    obtain ⟨env, c⟩ := p
    obtain ⟨hnd, hnil, hdisj⟩ := hfresh
    simp only [List.map_cons, List.nodup_cons, List.mem_cons, not_or] at hnd hnil hdisj
    have hf : env.Fresh db := ⟨fun e => hnil.1 e.symm, hdisj env.newBalanceID (Or.inl rfl)⟩
    have hstep := Call.run_settled env db c T h hf hexact.1 (hnow (env, c) (by simp))
    refine ih _ hstep ⟨hnd.2, hnil.2, ?_⟩ hexact.2
      (fun q hq => hnow q (List.mem_cons_of_mem _ hq))
    intro n hn hmem
    rcases Call.run_ids env db c h.1 n hmem with h' | h'
    · exact hdisj n (Or.inr hn) h'
    · exact hnd.1 (h' ▸ hn)

/-- Claim C1, as stated, fails on `float64` amounts.  From the empty database, three
deposits for account 1 in EUR, of `1e16`, `1.00` and `1.00`, all succeed.  The stored
balance is `1e16` after each of them, because `1e16 + 1.00` is rounded to `1e16`, while
`GetBalanceAtTime` for the account, which adds the three ledger rows exactly, delivers
`1e16 + 2`. -/
theorem balance_falls_behind_ledger_at_1e16 :
    (runCalls Db.empty
        [(⟨1, 1, 7⟩, Call.deposit 1 (.fin (10 ^ 16)) "EUR" "a"),
          (⟨2, 2, 8⟩, Call.deposit 1 (.fin 1) "EUR" "b"),
          (⟨3, 3, 9⟩, Call.deposit 1 (.fin 1) "EUR" "c")]).balance 1 "EUR" = .fin (10 ^ 16)
    ∧ TransactionRepository.GetBalanceAtTime (runCalls Db.empty
        [(⟨1, 1, 7⟩, Call.deposit 1 (.fin (10 ^ 16)) "EUR" "a"),
          (⟨2, 2, 8⟩, Call.deposit 1 (.fin 1) "EUR" "b"),
          (⟨3, 3, 9⟩, Call.deposit 1 (.fin 1) "EUR" "c")]) 1 "EUR" 3 = .fin (10 ^ 16 + 2)
    ∧ (runCalls Db.empty
        [(⟨1, 1, 7⟩, Call.deposit 1 (.fin (10 ^ 16)) "EUR" "a"),
          (⟨2, 2, 8⟩, Call.deposit 1 (.fin 1) "EUR" "b"),
          (⟨3, 3, 9⟩, Call.deposit 1 (.fin 1) "EUR" "c")]).balance 1 "EUR"
      ≠ TransactionRepository.GetBalanceAtTime (runCalls Db.empty
        [(⟨1, 1, 7⟩, Call.deposit 1 (.fin (10 ^ 16)) "EUR" "a"),
          (⟨2, 2, 8⟩, Call.deposit 1 (.fin 1) "EUR" "b"),
          (⟨3, 3, 9⟩, Call.deposit 1 (.fin 1) "EUR" "c")]) 1 "EUR" 3 := by
  have r0 : F64.round (0 + 10 ^ 16) = .fin (10 ^ 16) := by
    rw [zero_add]; exact round_of_representable representable_1e16
  have h1 : TransactionService.Deposit ⟨1, 1, 7⟩ Db.empty 1 (.fin (10 ^ 16)) "EUR" "a"
      = (⟨[depositEntry ⟨1, 1, 7⟩ 1 (.fin (10 ^ 16)) "EUR" "a"],
          [⟨7, 1, "EUR", .fin (10 ^ 16)⟩]⟩, none) := by
    rw [Deposit_of_valid _ _ _ _ _ _ (by decide) (by decide)]
    show (Db.mk _ (putAmount 7 1 "EUR" (F64.fin 0 + F64.fin (10 ^ 16)) _), _) = _
    rw [F64.fin_add_fin, r0]
    rfl
  have h2 : TransactionService.Deposit ⟨2, 2, 8⟩
      ⟨[depositEntry ⟨1, 1, 7⟩ 1 (.fin (10 ^ 16)) "EUR" "a"], [⟨7, 1, "EUR", .fin (10 ^ 16)⟩]⟩
      1 (.fin 1) "EUR" "b"
      = (⟨[depositEntry ⟨1, 1, 7⟩ 1 (.fin (10 ^ 16)) "EUR" "a",
            depositEntry ⟨2, 2, 8⟩ 1 (.fin 1) "EUR" "b"],
          [⟨7, 1, "EUR", .fin (10 ^ 16)⟩]⟩, none) := by
    rw [Deposit_of_valid _ _ _ _ _ _ (by decide) (by decide)]
    show (Db.mk _ (putAmount 8 1 "EUR" (F64.fin (10 ^ 16) + F64.fin 1) _), _) = _
    rw [F64.fin_add_fin, round_1e16_add_one]
    rfl
  have h3 : TransactionService.Deposit ⟨3, 3, 9⟩
      ⟨[depositEntry ⟨1, 1, 7⟩ 1 (.fin (10 ^ 16)) "EUR" "a",
          depositEntry ⟨2, 2, 8⟩ 1 (.fin 1) "EUR" "b"], [⟨7, 1, "EUR", .fin (10 ^ 16)⟩]⟩
      1 (.fin 1) "EUR" "c"
      = (⟨[depositEntry ⟨1, 1, 7⟩ 1 (.fin (10 ^ 16)) "EUR" "a",
            depositEntry ⟨2, 2, 8⟩ 1 (.fin 1) "EUR" "b",
            depositEntry ⟨3, 3, 9⟩ 1 (.fin 1) "EUR" "c"],
          [⟨7, 1, "EUR", .fin (10 ^ 16)⟩]⟩, none) := by
    rw [Deposit_of_valid _ _ _ _ _ _ (by decide) (by decide)]
    show (Db.mk _ (putAmount 9 1 "EUR" (F64.fin (10 ^ 16) + F64.fin 1) _), _) = _
    rw [F64.fin_add_fin, round_1e16_add_one]
    rfl
  have hrun : runCalls Db.empty
      [(⟨1, 1, 7⟩, Call.deposit 1 (.fin (10 ^ 16)) "EUR" "a"),
        (⟨2, 2, 8⟩, Call.deposit 1 (.fin 1) "EUR" "b"),
        (⟨3, 3, 9⟩, Call.deposit 1 (.fin 1) "EUR" "c")]
      = ⟨[depositEntry ⟨1, 1, 7⟩ 1 (.fin (10 ^ 16)) "EUR" "a",
            depositEntry ⟨2, 2, 8⟩ 1 (.fin 1) "EUR" "b",
            depositEntry ⟨3, 3, 9⟩ 1 (.fin 1) "EUR" "c"],
          [⟨7, 1, "EUR", .fin (10 ^ 16)⟩]⟩ := by
    simp only [runCalls, Call.run, h1, h2, h3]
  have hg : TransactionRepository.GetBalanceAtTime
      ⟨[depositEntry ⟨1, 1, 7⟩ 1 (.fin (10 ^ 16)) "EUR" "a",
          depositEntry ⟨2, 2, 8⟩ 1 (.fin 1) "EUR" "b",
          depositEntry ⟨3, 3, 9⟩ 1 (.fin 1) "EUR" "c"],
        [⟨7, 1, "EUR", .fin (10 ^ 16)⟩]⟩ 1 "EUR" 3 = .fin (10 ^ 16 + 2) := by
    rw [GetBalanceAtTime_of_finite _ (by decide)]
    have : ledgerSum ⟨[depositEntry ⟨1, 1, 7⟩ 1 (.fin (10 ^ 16)) "EUR" "a",
          depositEntry ⟨2, 2, 8⟩ 1 (.fin 1) "EUR" "b",
          depositEntry ⟨3, 3, 9⟩ 1 (.fin 1) "EUR" "c"],
        [⟨7, 1, "EUR", .fin (10 ^ 16)⟩]⟩ 1 "EUR" 3 = 10 ^ 16 + 2 := by
      simp [ledgerSum, entryEffect, depositEntry, F64.toRat, TransactionTypeDeposit]
      norm_num
    rw [this, round_of_representable representable_1e16_add_two]
  rw [hrun, hg]
  refine ⟨rfl, rfl, ?_⟩
  show (F64.fin (10 ^ 16) : F64) ≠ _
  intro h
  have := F64.fin.inj h
  norm_num at this

/-- Claim C1, amended.  Start from the empty ledger and the empty balance table and apply
any finite sequence of `TransactionService.Deposit`, `Withdraw` and `Transfer` calls one
at a time, with clock readings not later than `now` and with identifiers from
`uuid.New()` that are pairwise different.  If the `float64` updates of every successful
call are exact (the sum or difference it stores is a `float64` value), then after each
call (that is, after the first `k` calls, for every `k`) and for every account and
currency, the stored balance (zero when the pair has no row) equals
`TransactionRepository.GetBalanceAtTime` read at `now`. -/
theorem balance_eq_GetBalanceAtTime_when_exact (calls : List (Env × Call)) (k : Nat)
    (userID : UUID) (currency : String) (now : Time)
    (hfresh : FreshIds Db.empty ((calls.take k).map Prod.fst))
    (hexact : ExactRun Db.empty (calls.take k))
    (hnow : ∀ p ∈ calls.take k, p.1.now ≤ now) :
    (runCalls Db.empty (calls.take k)).balance userID currency
      = TransactionRepository.GetBalanceAtTime (runCalls Db.empty (calls.take k))
          userID currency now := by
  obtain ⟨_, hfin, hbal⟩ := runCalls_settled now (calls.take k) Db.empty (Settled_empty now)
    hfresh hexact hnow
  rw [GetBalanceAtTime_of_finite _ hfin, (hbal userID currency).2]
  exact (hbal userID currency).1

theorem balance_eq_GetBalanceAtTime_when_exact_witness :
    FreshIds Db.empty
      (([((⟨5, 1, 7⟩ : Env), Call.deposit 1 (.fin 100) "EUR" "seed"),
        (⟨6, 2, 8⟩, Call.transfer 1 2 (.fin 40) "EUR" "rent"),
        (⟨7, 3, 9⟩, Call.withdraw 1 (.fin 70) "EUR" "too much")].take 3).map Prod.fst)
    ∧ ExactRun Db.empty
      ([((⟨5, 1, 7⟩ : Env), Call.deposit 1 (.fin 100) "EUR" "seed"),
        (⟨6, 2, 8⟩, Call.transfer 1 2 (.fin 40) "EUR" "rent"),
        (⟨7, 3, 9⟩, Call.withdraw 1 (.fin 70) "EUR" "too much")].take 3)
    ∧ (runCalls Db.empty
        ([((⟨5, 1, 7⟩ : Env), Call.deposit 1 (.fin 100) "EUR" "seed"),
          (⟨6, 2, 8⟩, Call.transfer 1 2 (.fin 40) "EUR" "rent"),
          (⟨7, 3, 9⟩, Call.withdraw 1 (.fin 70) "EUR" "too much")].take 3)).balance 1 "EUR"
      = TransactionRepository.GetBalanceAtTime (runCalls Db.empty
        ([((⟨5, 1, 7⟩ : Env), Call.deposit 1 (.fin 100) "EUR" "seed"),
          (⟨6, 2, 8⟩, Call.transfer 1 2 (.fin 40) "EUR" "rent"),
          (⟨7, 3, 9⟩, Call.withdraw 1 (.fin 70) "EUR" "too much")].take 3)) 1 "EUR" 7 := by
  have r100 : F64.round (0 + 100) = .fin 100 := by
    have := round_of_representable (representable_intCast 100 (by norm_num))
    norm_num at this ⊢
    exact this
  have r60 : F64.round (100 - 40) = .fin 60 := by
    have := round_of_representable (representable_intCast 60 (by norm_num))
    norm_num at this ⊢
    exact this
  have r40 : F64.round (0 + 40) = .fin 40 := by
    have := round_of_representable (representable_intCast 40 (by norm_num))
    norm_num at this ⊢
    exact this
  have h1 : TransactionService.Deposit ⟨5, 1, 7⟩ Db.empty 1 (.fin 100) "EUR" "seed"
      = (⟨[depositEntry ⟨5, 1, 7⟩ 1 (.fin 100) "EUR" "seed"], [⟨7, 1, "EUR", .fin 100⟩]⟩,
          none) := by
    rw [Deposit_of_valid _ _ _ _ _ _ (by decide) (by decide)]
    show (Db.mk _ (putAmount 7 1 "EUR" (F64.fin 0 + F64.fin 100) _), _) = _
    rw [F64.fin_add_fin, r100]
    rfl
  have hF1 : Db.First ⟨[depositEntry ⟨5, 1, 7⟩ 1 (.fin 100) "EUR" "seed"],
      [⟨7, 1, "EUR", .fin 100⟩]⟩ 1 "EUR" = some ⟨7, 1, "EUR", .fin 100⟩ := rfl
  have h2 : TransactionService.Transfer ⟨6, 2, 8⟩
      ⟨[depositEntry ⟨5, 1, 7⟩ 1 (.fin 100) "EUR" "seed"], [⟨7, 1, "EUR", .fin 100⟩]⟩
      1 2 (.fin 40) "EUR" "rent"
      = (⟨[depositEntry ⟨5, 1, 7⟩ 1 (.fin 100) "EUR" "seed",
            transferEntry ⟨6, 2, 8⟩ 1 2 (.fin 40) "EUR" "rent"],
          [⟨7, 1, "EUR", .fin 60⟩, ⟨8, 2, "EUR", .fin 40⟩]⟩, none) := by
    rw [Transfer_of_not_lt _ _ _ _ _ _ _ (by decide) (by decide) (by decide) hF1 (by decide)]
    show (Db.mk _ (putAmount 8 2 "EUR" (F64.fin 0 + F64.fin 40)
      (putAmount 8 1 "EUR" (F64.fin 100 - F64.fin 40) _)), _) = _
    rw [F64.fin_add_fin, F64.fin_sub_fin, r40, r60]
    rfl
  have hF2 : Db.First ⟨[depositEntry ⟨5, 1, 7⟩ 1 (.fin 100) "EUR" "seed",
        transferEntry ⟨6, 2, 8⟩ 1 2 (.fin 40) "EUR" "rent"],
      [⟨7, 1, "EUR", .fin 60⟩, ⟨8, 2, "EUR", .fin 40⟩]⟩ 1 "EUR"
      = some ⟨7, 1, "EUR", .fin 60⟩ := rfl
  have h3 : TransactionService.Withdraw ⟨7, 3, 9⟩
      ⟨[depositEntry ⟨5, 1, 7⟩ 1 (.fin 100) "EUR" "seed",
          transferEntry ⟨6, 2, 8⟩ 1 2 (.fin 40) "EUR" "rent"],
        [⟨7, 1, "EUR", .fin 60⟩, ⟨8, 2, "EUR", .fin 40⟩]⟩ 1 (.fin 70) "EUR" "too much"
      = (_, some Error.ErrInsufficientFunds) :=
    Withdraw_of_lt_f64 _ _ _ _ _ _ (by decide) hF2 (by decide)
  have hexact : ExactRun Db.empty
      ([((⟨5, 1, 7⟩ : Env), Call.deposit 1 (.fin 100) "EUR" "seed"),
        (⟨6, 2, 8⟩, Call.transfer 1 2 (.fin 40) "EUR" "rent"),
        (⟨7, 3, 9⟩, Call.withdraw 1 (.fin 70) "EUR" "too much")].take 3) := by
    simp only [List.take, ExactRun, Call.run, h1, h2, h3, and_true]
    refine ⟨fun _ => ⟨0, 100, rfl, rfl, ?_⟩, fun _ => ⟨100, 0, 40, rfl, rfl, rfl, ?_, ?_⟩,
      fun h => by cases h⟩
    · have := representable_intCast 100 (by norm_num); norm_num at this ⊢; exact this
    · have := representable_intCast 60 (by norm_num); norm_num at this ⊢; exact this
    · have := representable_intCast 40 (by norm_num); norm_num at this ⊢; exact this
  exact ⟨by decide, hexact,
    balance_eq_GetBalanceAtTime_when_exact _ 3 1 "EUR" 7 (by decide) hexact (by decide)⟩

/-! ## Pages of a listing, with Go's `int` and the database's order -/

theorem wrapInt_of_range (x : Int) (h0 : 0 ≤ x) (h1 : x < 2 ^ 63) : wrapInt x = x := by
  unfold wrapInt
  rw [Int.emod_eq_of_lt (by omega) (by omega)]
  omega

theorem storageOrder_lawful : storageOrder.Lawful :=
  fun rows => ⟨List.perm_insertionSort newestFirst rows,
    List.sorted_insertionSort newestFirst rows⟩

theorem reverseStorageOrder_lawful : reverseStorageOrder.Lawful :=
  fun rows => ⟨(List.perm_insertionSort newestFirst rows.reverse).trans (List.reverse_perm rows),
    List.sorted_insertionSort newestFirst rows.reverse⟩

theorem offsetLimit_window (offset limit : Int) (rows : List Transaction) (hl : 0 ≤ limit) :
    offsetLimit offset limit rows = (rows.drop offset.toNat).take limit.toNat := by
  unfold offsetLimit
  by_cases ho : 0 < offset
  · simp [ho, hl]
  · have h0 : offset.toNat = 0 := Int.toNat_eq_zero.mpr (not_lt.mp ho)
    simp [ho, hl, h0]

theorem eq_of_map_eq_of_injOn {α β : Type} (f : α → β) :
    ∀ l1 l2 : List α, (∀ x ∈ l1, ∀ y ∈ l2, f x = f y → x = y) → l1.map f = l2.map f →
      l1 = l2 := by
  intro l1
  induction l1 with
  | nil =>
    intro l2 _ h
    cases l2 with
    | nil => rfl
    | cons y ys => simp at h
  | cons x xs ih =>
    intro l2 hinj h
    cases l2 with
    | nil => simp at h
    | cons y ys =>
      simp only [List.map_cons, List.cons.injEq] at h
      have hxy : x = y := hinj x (List.mem_cons_self _ _) y (List.mem_cons_self _ _) h.1
      rw [hxy, ih ys (fun a ha b hb => hinj a (List.mem_cons_of_mem _ ha) b
        (List.mem_cons_of_mem _ hb)) h.2]

/-- When no two of the rows share `created_at`, `ORDER BY created_at DESC` leaves the
database no choice: every lawful order lists the rows in the same way. -/
theorem lawful_order_unique (order : RowOrder) (horder : order.Lawful)
    (rows : List Transaction) (hdistinct : (rows.map Transaction.CreatedAt).Nodup) :
    order rows = storageOrder rows := by
  obtain ⟨hp1, hs1⟩ := horder rows
  obtain ⟨hp2, hs2⟩ := storageOrder_lawful rows
  have hperm : (order rows).Perm (storageOrder rows) := hp1.trans hp2.symm
  have hmap : (order rows).map Transaction.CreatedAt
      = (storageOrder rows).map Transaction.CreatedAt := by
    refine List.eq_of_perm_of_sorted (r := fun a b : Time => b ≤ a) (hperm.map _) ?_ ?_
    · exact (List.pairwise_map).2 hs1
    · exact (List.pairwise_map).2 hs2
  have hnd : ((order rows).map Transaction.CreatedAt).Nodup :=
    (hp1.map Transaction.CreatedAt).nodup_iff.2 hdistinct
  refine eq_of_map_eq_of_injOn Transaction.CreatedAt _ _ ?_ hmap
  intro x hx y hy hxy
  exact List.inj_on_of_nodup_map hnd hx (hperm.symm.subset hy) hxy

theorem pageOffset_of_range (n : Nat) (pageSize : Int) (hs : 0 ≤ pageSize)
    (hrange : (n : Int) * pageSize < 2 ^ 63) :
    (wrapInt (wrapInt ((n : Int) + 1 - 1) * pageSize)).toNat = n * pageSize.toNat := by
  have hn : ((n : Int) + 1 - 1) = n := by ring
  have hn0 : (0 : Int) ≤ n := Int.natCast_nonneg n
  obtain ⟨k, rfl⟩ := Int.eq_ofNat_of_zero_le hs
  rw [hn]
  by_cases hk : k = 0
  · subst hk
    by_cases hbig : (n : Int) < 2 ^ 63
    · rw [wrapInt_of_range _ hn0 hbig]
      simp [wrapInt]
    · simp [wrapInt]
  · have hk1 : (1 : Int) ≤ k := by omega
    have hnk : (n : Int) ≤ n * k := le_mul_of_one_le_right hn0 hk1
    rw [wrapInt_of_range _ hn0 (lt_of_le_of_lt hnk hrange),
      wrapInt_of_range _ (mul_nonneg hn0 (by omega)) hrange]
    have h : (n : Int) * (k : Int) = ((n * k : Nat) : Int) := by push_cast; ring
    rw [h, Int.toNat_natCast, Int.toNat_natCast]

theorem pages_eq_take_of_range (rows : List Transaction) (pageSize : Int) (hs : 0 ≤ pageSize)
    (pages : Nat → List Transaction) (h0 : pages 0 = [])
    (hstep : ∀ n, pages (n + 1)
      = pages n ++ offsetLimit (wrapInt (wrapInt ((n : Int) + 1 - 1) * pageSize)) pageSize
          rows) :
    ∀ n : Nat, (n : Int) * pageSize < 2 ^ 63 → pages n = rows.take (n * pageSize.toNat) := by
  intro n
  induction n with
  | zero => intro _; simp [h0]
  | succ n ih =>
    intro hrange
    have hle : (n : Int) * pageSize ≤ ((n + 1 : Nat) : Int) * pageSize := by
      apply mul_le_mul_of_nonneg_right _ hs
      push_cast; omega
    have hr : (n : Int) * pageSize < 2 ^ 63 := lt_of_le_of_lt hle hrange
    rw [hstep, ih hr, offsetLimit_window _ _ _ hs, pageOffset_of_range n pageSize hs hr,
      Nat.succ_mul, List.take_add]

/-- Claim C20, as stated, fails in two places.  For a page number far enough out: with
`page = 2 ^ 62 + 1` and `pageSize = 2`, both `int` values that are at least 1, the
product `(page - 1) * pageSize` is `2 ^ 63`, which wraps around to `-2 ^ 63`; gorm emits
no `OFFSET` for it, and `GetAll` and `GetByUserID` return the first two rows of the
listing of a three-row ledger, where the positions from `(page - 1) * pageSize` on hold
no row at all.  And for rows with equal `created_at`: each page is a query of its own,
and when the database lists two such rows in storage order for page 1 and in the
reverse order for page 2, both orders being newest first, the two pages of size 1 hold
the same row, and the other row is on no page. -/
theorem page_offset_wraps_around :
    (1 : Int) ≤ 2 ^ 62 + 1 ∧ (2 ^ 62 + 1 : Int) < 2 ^ 63 ∧ (1 : Int) ≤ 2
    ∧ storageOrder.Lawful ∧ reverseStorageOrder.Lawful
    ∧ userPages (fun i => if i = 0 then storageOrder else reverseStorageOrder)
        ⟨[entryAt 1 5, entryAt 2 5], []⟩ 1 1 2 = [entryAt 1 5, entryAt 1 5]
    ∧ allPages (fun i => if i = 0 then storageOrder else reverseStorageOrder)
        ⟨[entryAt 1 5, entryAt 2 5], []⟩ 1 2 = [entryAt 1 5, entryAt 1 5]
    ∧ wrapInt (wrapInt ((2 ^ 62 + 1) - 1) * 2) = -2 ^ 63
    ∧ (TransactionRepository.GetAll storageOrder
        ⟨[entryAt 1 3, entryAt 2 2, entryAt 3 1], []⟩ (2 ^ 62 + 1) 2).1
        = [entryAt 1 3, entryAt 2 2]
    ∧ (TransactionRepository.GetByUserID storageOrder
        ⟨[entryAt 1 3, entryAt 2 2, entryAt 3 1], []⟩ 1 (2 ^ 62 + 1) 2).1
        = [entryAt 1 3, entryAt 2 2]
    ∧ ((storageOrder [entryAt 1 3, entryAt 2 2, entryAt 3 1]).drop
        ((((2 : Int) ^ 62 + 1) - 1) * 2).toNat).take (2 : Int).toNat = [] :=
  ⟨by decide, by decide, by decide, storageOrder_lawful, reverseStorageOrder_lawful, by decide,
    by decide, by decide, by decide, by decide, by decide⟩

/-- Claim C20, amended.  For every ledger, user, `page ≥ 1` and `pageSize ≥ 1` whose
offset `(page - 1) * pageSize` is below `2 ^ 63`, so that it does not wrap around, and
for every order the database may use for the query, `TransactionRepository.GetByUserID`
returns as total the number of all rows whose owner or recipient is the user, whatever
the page and page size, and as rows the elements at positions `(page-1)*pageSize` up to
`page*pageSize` of those rows in the order of that query, which lists each matching row
once, newest first; hence at most `pageSize` of them.  When no two matching rows share
`created_at`, every query lists them in the same order, and pages 1, 2, … up to any page
past the end whose offset is below `2 ^ 63`, each from a query of its own, put one after
the other, are that listing, so every matching row comes exactly once.  The same holds
for `GetAll` over the whole ledger. -/
theorem pagination_int64_spec (order : RowOrder) (db : Db) (userID : UUID)
    (page pageSize : Int) (horder : order.Lawful) (hpage : 1 ≤ page) (hsize : 1 ≤ pageSize)
    (hrange : (page - 1) * pageSize < 2 ^ 63) :
    ((TransactionRepository.GetByUserID order db userID page pageSize).2
        = (entriesOf db userID).length
      ∧ (TransactionRepository.GetByUserID order db userID page pageSize).1
        = ((order (entriesOf db userID)).drop
            ((page - 1) * pageSize).toNat).take pageSize.toNat
      ∧ ((TransactionRepository.GetByUserID order db userID page pageSize).1.length : Int)
        ≤ pageSize
      ∧ (order (entriesOf db userID)).Perm (entriesOf db userID)
      ∧ (order (entriesOf db userID)).Pairwise newestFirst
      ∧ ∀ (orders : Nat → RowOrder) (n : Nat), (∀ i, (orders i).Lawful) →
          ((entriesOf db userID).map Transaction.CreatedAt).Nodup →
          ((entriesOf db userID).length : Int) ≤ n * pageSize → (n : Int) * pageSize < 2 ^ 63 →
          userPages orders db userID pageSize n = order (entriesOf db userID))
    ∧ ((TransactionRepository.GetAll order db page pageSize).2 = db.transactions.length
      ∧ (TransactionRepository.GetAll order db page pageSize).1
        = ((order db.transactions).drop
            ((page - 1) * pageSize).toNat).take pageSize.toNat
      ∧ ((TransactionRepository.GetAll order db page pageSize).1.length : Int) ≤ pageSize
      ∧ (order db.transactions).Perm db.transactions
      ∧ (order db.transactions).Pairwise newestFirst
      ∧ ∀ (orders : Nat → RowOrder) (n : Nat), (∀ i, (orders i).Lawful) →
          (db.transactions.map Transaction.CreatedAt).Nodup →
          (db.transactions.length : Int) ≤ n * pageSize → (n : Int) * pageSize < 2 ^ 63 →
          allPages orders db pageSize n = order db.transactions) := by
  have hs : 0 ≤ pageSize := le_trans (by decide) hsize
  have hp0 : 0 ≤ page - 1 := by omega
  have hp1 : page - 1 < 2 ^ 63 :=
    lt_of_le_of_lt (le_mul_of_one_le_right hp0 hsize) hrange
  have hoff : wrapInt (wrapInt (page - 1) * pageSize) = (page - 1) * pageSize := by
    rw [wrapInt_of_range _ hp0 hp1, wrapInt_of_range _ (mul_nonneg hp0 hs) hrange]
  have hU : (TransactionRepository.GetByUserID order db userID page pageSize).1
      = ((order (entriesOf db userID)).drop
          ((page - 1) * pageSize).toNat).take pageSize.toNat := by
    show offsetLimit (wrapInt (wrapInt (page - 1) * pageSize)) pageSize
      (order (entriesOf db userID)) = _
    rw [hoff, offsetLimit_window _ _ _ hs]
  have hA : (TransactionRepository.GetAll order db page pageSize).1
      = ((order db.transactions).drop
          ((page - 1) * pageSize).toNat).take pageSize.toNat := by
    show offsetLimit (wrapInt (wrapInt (page - 1) * pageSize)) pageSize
      (order db.transactions) = _
    rw [hoff, offsetLimit_window _ _ _ hs]
  obtain ⟨k, hk⟩ := Int.eq_ofNat_of_zero_le hs
  refine ⟨⟨rfl, hU, ?_, (horder _).1, (horder _).2, ?_⟩,
    ⟨rfl, hA, ?_, (horder _).1, (horder _).2, ?_⟩⟩
  · rw [hU, List.length_take, hk]
    simp
  · intro orders n horders hdistinct hn hr
    have hn' : (entriesOf db userID).length ≤ n * k := by
      rw [hk] at hn; exact_mod_cast hn
    rw [lawful_order_unique order horder _ hdistinct,
      pages_eq_take_of_range (storageOrder (entriesOf db userID)) pageSize hs
        (userPages orders db userID pageSize) rfl
        (fun i => by
          show userPages orders db userID pageSize i ++ offsetLimit _ pageSize
            (orders i (entriesOf db userID)) = _
          rw [lawful_order_unique (orders i) (horders i) _ hdistinct]) n hr]
    apply List.take_of_length_le
    rw [(storageOrder_lawful _).1.length_eq, hk]
    simpa using hn'
  · rw [hA, List.length_take, hk]
    simp
  · intro orders n horders hdistinct hn hr
    have hn' : db.transactions.length ≤ n * k := by
      rw [hk] at hn; exact_mod_cast hn
    rw [lawful_order_unique order horder _ hdistinct,
      pages_eq_take_of_range (storageOrder db.transactions) pageSize hs
        (allPages orders db pageSize) rfl
        (fun i => by
          show allPages orders db pageSize i ++ offsetLimit _ pageSize
            (orders i db.transactions) = _
          rw [lawful_order_unique (orders i) (horders i) _ hdistinct]) n hr]
    apply List.take_of_length_le
    rw [(storageOrder_lawful _).1.length_eq, hk]
    simpa using hn'

theorem pagination_int64_spec_witness :
    storageOrder.Lawful ∧ (1 : Int) ≤ 2 ∧ (1 : Int) ≤ 1 ∧ ((2 : Int) - 1) * 1 < 2 ^ 63
    ∧ (TransactionRepository.GetAll storageOrder ⟨[entryAt 1 5, entryAt 2 5], []⟩ 2 1).1
        = ((storageOrder [entryAt 1 5, entryAt 2 5]).drop
            (((2 : Int) - 1) * 1).toNat).take (1 : Int).toNat :=
  ⟨storageOrder_lawful, by decide, by decide, by decide,
    (pagination_int64_spec storageOrder ⟨[entryAt 1 5, entryAt 2 5], []⟩ 1 2 1
      storageOrder_lawful (by decide) (by decide) (by decide)).2.2.1⟩

end Machine

end Banking
